import Mathlib

/-!
openMSX: video-RAM windows and the real-time pacer.

A shallow embedding of `VDPVRAM.hh` (the `Window` membership test and the
CPU / command-engine access protocol of the video RAM) and of `RealTime.cc`
(the pacer that keeps emulated time aligned with wall-clock time), together
with the properties proved about them.

C++ `int` and `unsigned int` are 32 bits wide.  A value of either type is
represented by the mathematical integer it denotes; every operation that can
leave the 32-bit range is followed by an explicit reduction modulo `2^32`.
-/

/-! ## 32-bit machine integers -/

/-- The values of a C++ `int`: `-2^31 .. 2^31 - 1`. -/
def isInt (x : Int) : Prop := -2147483648 ≤ x ∧ x ≤ 2147483647

instance (x : Int) : Decidable (isInt x) := by
  unfold isInt
  exact inferInstance

/-- Reduction of an integer to an `unsigned int` (modulo `2^32`). -/
def wrapUInt (x : Int) : Int := x % 4294967296

/-- Reduction of an integer to an `int` (two's complement, modulo `2^32`). -/
def wrapInt (x : Int) : Int := (x + 2147483648) % 4294967296 - 2147483648

/-- The 32-bit two's-complement bit pattern of an `int`, as a natural number
below `2^32`. -/
def toBits (x : Int) : Nat := (x % 4294967296).toNat

/-- The `int` whose two's-complement pattern is the low 32 bits of `n`. -/
def ofBits (n : Nat) : Int := wrapInt (n : Int)

/-- C++ `a & b` on `int`. -/
def intAnd (a b : Int) : Int := ofBits (toBits a &&& toBits b)

/-- C++ `a | b` on `int`. -/
def intOr (a b : Int) : Int := ofBits (toBits a ||| toBits b)

/-- C++ `~a` on `int`. -/
def intNot (a : Int) : Int := ofBits (toBits a ^^^ 4294967295)

/-- C++ `a << k` on `int`: the bit pattern is shifted and the bits that leave
the 32-bit word are dropped. -/
def intShl (a : Int) (k : Nat) : Int := ofBits (toBits a <<< k)

/-- C++ `a >> k` on `int` (arithmetic shift: rounds towards minus infinity). -/
def intShr (a : Int) (k : Nat) : Int := a / (2 ^ k : Int)

/-! ## `VDPVRAM::Window` -/

/-- The fields of `VDPVRAM::Window` that take part in address tests.  The
`data` pointer of the C++ class aliases the VRAM array of the owning
`VDPVRAM`; it is represented by passing that array to the read methods. -/
structure VDPVRAM.Window where
  /-- Mask of this window. -/
  baseMask : Int
  /-- Lowest address in this window; `-1` marks a disabled window. -/
  baseAddr : Int
  /-- Combination of `baseMask` and index mask used for "inside" checks. -/
  combiMask : Int
deriving DecidableEq, Repr

namespace VDPVRAM.Window

/-- The method `Window::isEnabled`: `return baseAddr != -1;` -/
def isEnabled (w : Window) : Bool := w.baseAddr != -1

/-- The method `Window::getMask`: `assert(isEnabled()); return baseMask;`.
A failed assertion is `none`. -/
def getMask (w : Window) : Option Int :=
  if w.isEnabled then some w.baseMask else none

/-- The method `Window::setMask(baseMask, indexBits)`. -/
def setMask (w : Window) (baseMask : Int) (indexBits : Nat) : Window :=
  let indexMask := intShl (-1) indexBits
  { w with
    baseMask := baseMask
    baseAddr := intAnd baseMask indexMask
    combiMask := intOr (intNot baseMask) indexMask }

/-- The method `Window::disable`: `baseAddr = -1;` -/
def disable (w : Window) : Window := { w with baseAddr := -1 }

/-- The method `Window::isInside`: `return (address & combiMask) == baseAddr;` -/
def isInside (w : Window) (address : Int) : Bool :=
  intAnd address w.combiMask == w.baseAddr

end VDPVRAM.Window

/-! ## `VDPVRAM`: the video RAM and its access protocol -/

/-- Modelled from the spec: the virtual clock `EmuTime` (declared in
`EmuTime.hh`, which is not among the sources) is "an integer tick count at a
fixed frequency". -/
abbrev EmuTime := Int

/-- Modelled from the spec: `EmuTime::getTicksTill` (declared in `EmuTime.hh`)
is "subtraction yielding an elapsed duration": other minus self. -/
def EmuTime.getTicksTill (self other : EmuTime) : Int := other - self

/-- The C++ type `byte`: an unsigned 8-bit value. -/
abbrev byte := Fin 256

/-- The calls that `VDPVRAM` makes into its collaborators (`cmdEngine`,
`spriteChecker`, `renderer`), which are not among the sources.  They are
recorded in the order in which they are made. -/
inductive VDPVRAM.Call where
  /-- The call `cmdEngine->sync(time)`. -/
  | cmdEngineSync (time : EmuTime)
  /-- The call `spriteChecker->updateVRAM(address, value, time)`. -/
  | spriteCheckerUpdateVRAM (address : Int) (value : byte) (time : EmuTime)
  /-- The call `renderer->updateVRAM(address, value, time)`. -/
  | rendererUpdateVRAM (address : Int) (value : byte) (time : EmuTime)
deriving DecidableEq, Repr

/-- The data members of `VDPVRAM`.  The array `data` holds `size` bytes
(`data.length` is the C++ member `size`); the pointers to the collaborators
are represented by `VDPVRAM.World`. -/
structure VDPVRAM where
  /-- VRAM data block. -/
  data : List byte
  planar : Bool
  /-- The moment up until when the VRAM is updated. -/
  currentTime : EmuTime
  cmdReadWindow : VDPVRAM.Window
  cmdWriteWindow : VDPVRAM.Window
  nameTable : VDPVRAM.Window
  colourTable : VDPVRAM.Window
  patternTable : VDPVRAM.Window
  bitmapWindow : VDPVRAM.Window
  spriteAttribTable : VDPVRAM.Window
  spritePatternTable : VDPVRAM.Window
deriving DecidableEq, Repr

/-- The command engine as the VRAM sees it: `VDPCmdEngine::sync(time)` brings
the engine (internal state `σ`) up to `time`; while doing so it may use the
whole public interface of the VRAM (write bytes through `cmdWrite`, move its
windows), so its effect is an arbitrary function of engine and VRAM state. -/
structure VDPCmdEngine (σ : Type) where
  sync : EmuTime → σ → VDPVRAM → σ × VDPVRAM

/-- The VRAM together with its collaborators: the state of the command
engine and the record of the calls made so far.  The renderer and the sprite
checker only receive notifications (they have no write access to the VRAM),
so for them the record of the call is all that is kept. -/
structure VDPVRAM.World (σ : Type) where
  vram : VDPVRAM
  cmdEngine : σ
  calls : List VDPVRAM.Call

namespace VDPVRAM

/-- The member `size`: the number of bytes in `data`. -/
def size (v : VDPVRAM) : Int := (v.data.length : Int)

/-- The planar address remapping
`((address << 16) | (address >> 1)) & 0x1FFFF`. -/
def planarAddress (address : Int) : Int :=
  intAnd (intOr (intShl address 16) (intShr address 1)) 0x1FFFF

/-- The method `VDPVRAM::sync`: `cmdEngine->sync(time);` -/
def sync {σ : Type} (E : VDPCmdEngine σ) (time : EmuTime) (m : World σ) : World σ :=
  let r := E.sync time m.cmdEngine m.vram
  { vram := r.2, cmdEngine := r.1, calls := m.calls ++ [Call.cmdEngineSync time] }

/-- The method `VDPVRAM::cmdWrite`.  The store `data[address] = value` is unchecked in
C++; a store outside the array is `none`. -/
def cmdWrite {σ : Type} (address : Int) (value : byte) (time : EmuTime)
    (m : World σ) : Option (World σ) :=
  let calls1 := m.calls ++ [Call.spriteCheckerUpdateVRAM address value time]
  let calls2 :=
    if true || m.vram.nameTable.isInside address
        || m.vram.colourTable.isInside address
        || m.vram.patternTable.isInside address
        || m.vram.bitmapWindow.isInside address then
      calls1 ++ [Call.rendererUpdateVRAM address value time]
    else calls1
  if 0 ≤ address ∧ address < m.vram.size then
    some { m with
      vram := { m.vram with
        data := m.vram.data.set address.toNat value
        currentTime := time }
      calls := calls2 }
  else none

/-- The method `VDPVRAM::cpuWrite`. -/
def cpuWrite {σ : Type} (E : VDPCmdEngine σ) (address : Int) (value : byte)
    (time : EmuTime) (m : World σ) : Option (World σ) :=
  let m1 :=
    if m.vram.cmdReadWindow.isInside address
        || m.vram.cmdWriteWindow.isInside address then
      sync E time m
    else m
  let address := if m1.vram.planar then planarAddress address else address
  cmdWrite address value time m1

/-- The method `VDPVRAM::read`.  A failed `assert(0 <= address && address < size)` is
`none`. -/
def read (v : VDPVRAM) (address : Int) : Option byte :=
  let address := if v.planar then planarAddress address else address
  if 0 ≤ address ∧ address < v.size then v.data[address.toNat]? else none

/-- The method `VDPVRAM::cpuRead`: the byte read, and the state the call leaves. -/
def cpuRead {σ : Type} (E : VDPCmdEngine σ) (address : Int) (time : EmuTime)
    (m : World σ) : Option (byte × World σ) :=
  let m1 :=
    if m.vram.cmdWriteWindow.isInside address then sync E time m else m
  (read m1.vram address).map fun b => (b, m1)

end VDPVRAM

/-! ## `RealTime`: the pacer -/

/-- Reduction of an integer to a `uint64` (modulo `2^64`). -/
def wrapUInt64 (x : Int) : Int := x % 18446744073709551616

/-- C++ `a / b` on `int`: the quotient is truncated towards zero.  Division
by zero and `INT_MIN / -1` are undefined (a trap on the usual hardware):
`none`. -/
def intDiv (a b : Int) : Option Int :=
  if b = 0 ∨ (a = -2147483648 ∧ b = -1) then none else some (Int.tdiv a b)

/-- What `RealTime` reads from its surroundings during one call:
`SDL_GetTicks()` (an `unsigned int`, in milliseconds) and
`MSXCPU::instance()->getCurrentTime()`. -/
structure RealTime.Host where
  ticks : Int
  cpuTime : EmuTime

/-- The calls `RealTime` makes into the host and the scheduler. -/
inductive RealTime.Effect where
  /-- The call `SDL_Delay(ms)`. -/
  | delay (ms : Int)
  /-- The call `scheduler->setSyncPoint(time, this)`. -/
  | setSyncPoint (time : EmuTime)
  /-- The call `scheduler->removeSyncPoint(this)`. -/
  | removeSyncPoint
deriving DecidableEq, Repr

/-- The data members of `RealTime` (declared in `RealTime.hh`, which is not
among the sources; the types are those the code in `RealTime.cc` uses them
at: `int` for the configuration values, `speed` and `catchUpTime`,
`unsigned int` for the real-time stamps).  The `float` member `factor` is
represented by an exact rational: rounding is not modelled. -/
structure RealTime where
  syncInterval : Int
  maxCatchUpTime : Int
  maxCatchUpFactor : Int
  speed : Int
  paused : Bool
  throttle : Bool
  realRef : Int
  realOrigin : Int
  emuRef : EmuTime
  emuOrigin : EmuTime
  catchUpTime : Int
  factor : ℚ
deriving DecidableEq

namespace RealTime

/-- The method `RealTime::resetTiming`. -/
def resetTiming (host : Host) (rt : RealTime) : RealTime :=
  { rt with
    realRef := host.ticks
    realOrigin := host.ticks
    emuRef := host.cpuTime
    emuOrigin := host.cpuTime
    factor := 1 }

/-- The local `int realPassed = curReal - realRef;` of `internalSync`. -/
def realPassed (host : Host) (rt : RealTime) : Int :=
  wrapInt (wrapUInt (host.ticks - rt.realRef))

/-- The local
`int emuPassed = (int)((speed * emuRef.getTicksTill(curEmu)) >> 8);`
of `internalSync`; the product is computed in `uint64`. -/
def emuPassed (curEmu : EmuTime) (rt : RealTime) : Int :=
  wrapInt (wrapUInt64 (rt.speed * rt.emuRef.getTicksTill curEmu) / 256)

/-- The local `int totalReal = curReal - realOrigin;` of `internalSync`. -/
def totalReal (host : Host) (rt : RealTime) : Int :=
  wrapInt (wrapUInt (host.ticks - rt.realOrigin))

/-- The local
`uint64 totalEmu = (speed * emuOrigin.getTicksTill(curEmu)) >> 8;`
of `internalSync`. -/
def totalEmu (curEmu : EmuTime) (rt : RealTime) : Int :=
  wrapUInt64 (rt.speed * rt.emuOrigin.getTicksTill curEmu) / 256

/-- The value of `catchUpTime = totalReal - totalEmu;` in `internalSync`: the
difference is computed in `uint64` and stored in an `int`. -/
def catchUpDebt (host : Host) (curEmu : EmuTime) (rt : RealTime) : Int :=
  wrapInt (wrapUInt64 (totalReal host rt - totalEmu curEmu rt))

/-- The sample test `(emuPassed>0) && (realPassed>0)` of `internalSync`. -/
def meaningful (host : Host) (curEmu : EmuTime) (rt : RealTime) : Bool :=
  decide (emuPassed curEmu rt > 0) && decide (realPassed host rt > 0)

/-- The local `sleep` of `internalSync` after the test of `catchUpTime`:
`int sleep = 0; if (catchUpTime < 0) sleep = -catchUpTime; ...`. -/
def sleepForDebt (host : Host) (curEmu : EmuTime) (rt : RealTime) : Int :=
  if catchUpDebt host curEmu rt < 0 then wrapInt (-(catchUpDebt host curEmu rt)) else 0

/-- The member `realOrigin` of `internalSync` after the test of
`catchUpTime`:
`if (catchUpTime < 0) ... else if (catchUpTime > maxCatchUpTime)
 { int lost = catchUpTime - maxCatchUpTime; realOrigin += lost; }`. -/
def realOriginForDebt (host : Host) (curEmu : EmuTime) (rt : RealTime) : Int :=
  if catchUpDebt host curEmu rt < 0 then rt.realOrigin
  else if catchUpDebt host curEmu rt > rt.maxCatchUpTime then
    wrapUInt (rt.realOrigin + wrapInt (catchUpDebt host curEmu rt - rt.maxCatchUpTime))
  else rt.realOrigin

/-- The test `maxCatchUpFactor*(sleep+realPassed) < 100*emuPassed` of
`internalSync`, at the value `sleep` has after the test of `catchUpTime`. -/
def catchingUpTooFast (host : Host) (curEmu : EmuTime) (rt : RealTime) : Bool :=
  decide (wrapInt (rt.maxCatchUpFactor
      * wrapInt (sleepForDebt host curEmu rt + realPassed host rt))
    < wrapInt (100 * emuPassed curEmu rt))

/-- The final value of the local `sleep` of `internalSync` on a meaningful
sample:
`if (maxCatchUpFactor*(sleep+realPassed) < 100*emuPassed)
   sleep = (100*emuPassed)/maxCatchUpFactor - realPassed;`. -/
def sleepTime (host : Host) (curEmu : EmuTime) (rt : RealTime) : Option Int :=
  if catchingUpTooFast host curEmu rt then
    (intDiv (wrapInt (100 * emuPassed curEmu rt)) rt.maxCatchUpFactor).map
      fun q => wrapInt (q - realPassed host rt)
  else some (sleepForDebt host curEmu rt)

/-- The method `RealTime::internalSync`: the state it leaves and the calls it makes, in
order.  `alpha` is the smoothing constant (declared in `RealTime.hh`). -/
def internalSync (alpha : ℚ) (host : Host) (curEmu : EmuTime) (rt : RealTime) :
    Option (RealTime × List Effect) :=
  if !rt.throttle then
    some (resetTiming host rt, [])
  else if meaningful host curEmu rt then
    (sleepTime host curEmu rt).map fun sleep =>
      let curFactor : ℚ :=
        (wrapInt (sleep + realPassed host rt) : ℚ) / (emuPassed curEmu rt : ℚ)
      let rt1 : RealTime :=
        { rt with
          catchUpTime := catchUpDebt host curEmu rt
          realOrigin := realOriginForDebt host curEmu rt
          factor := rt.factor * (1 - alpha) + curFactor * alpha
          realRef := wrapUInt (host.ticks + sleep)
          emuRef := curEmu }
      (rt1, (if sleep > 0 then [Effect.delay sleep] else [])
              ++ [Effect.setSyncPoint (rt1.emuRef + rt1.syncInterval)])
  else
    some (rt, [Effect.setSyncPoint (rt.emuRef + rt.syncInterval)])

end RealTime

/-! ## The scheduler, the console and the commands of the pacer -/

/-- Modelled from the spec: a `SyncPoint` (declared in `Scheduler.hh`, which
is not among the sources) is a "tuple (dueTime: VirtualClock, owner:
Schedulable reference, token: integer)". -/
structure SyncPoint where
  dueTime : EmuTime
  owner : Nat
  token : Int
deriving DecidableEq, Repr

/-- Modelled from the spec: the `Scheduler` (`Scheduler.cc` is not among the
sources) "owns the set of pending (time, owner, token) entries" and "supports
pause/resume".  The pending set is kept in dispatch order. -/
structure Scheduler where
  pending : List SyncPoint
  paused : Bool
deriving DecidableEq, Repr

namespace Scheduler

/-- Modelled from the spec: `setSyncPoint(time, owner, token)` "inserts a
SyncPoint.  If an entry with the same (owner, token) already exists, it is
replaced (reschedule semantics), not duplicated."  The pending set is
"keyed by dueTime (ties broken by insertion order)". -/
def setSyncPoint (time : EmuTime) (owner : Nat) (token : Int) (s : Scheduler) : Scheduler :=
  let others := s.pending.filter fun p => !(p.owner == owner && p.token == token)
  { s with
    pending := others.takeWhile (fun p => decide (p.dueTime ≤ time))
      ++ { dueTime := time, owner := owner, token := token }
        :: others.dropWhile (fun p => decide (p.dueTime ≤ time)) }

/-- Modelled from the spec: `removeSyncPoint(owner)` without a token "removes
all entries owned by owner". -/
def removeSyncPoint (owner : Nat) (s : Scheduler) : Scheduler :=
  { s with pending := s.pending.filter fun p => !(p.owner == owner) }

/-- Modelled from the spec: `pause()` "freezes" the scheduler. -/
def pause (s : Scheduler) : Scheduler := { s with paused := true }

/-- Modelled from the spec: `unpause()` "resumes" the scheduler. -/
def unpause (s : Scheduler) : Scheduler := { s with paused := false }

/-- Modelled from the spec: `isPaused()` makes the paused state
"observable". -/
def isPaused (s : Scheduler) : Bool := s.paused

end Scheduler

/-- The pacer with its surroundings: the scheduler, the calls of `SDL_Delay`
made so far and the lines printed on the console so far (oldest first). -/
structure RealTime.World where
  rt : RealTime
  scheduler : Scheduler
  delays : List Int
  console : List String
deriving DecidableEq

namespace RealTime

/-- The `Schedulable` reference under which the pacer registers its sync
points (`this`). -/
def owner : Nat := 0

/-- The default `userData` of `setSyncPoint(time, this)`. -/
def defaultToken : Int := 0

/-- The call `ConsoleManager::instance()->print(line)`. -/
def print (line : String) (w : World) : World :=
  { w with console := w.console ++ [line] }

/-- Carrying out one call of the pacer into the host or the scheduler. -/
def performEffect (w : World) (e : Effect) : World :=
  match e with
  | Effect.delay ms => { w with delays := w.delays ++ [ms] }
  | Effect.setSyncPoint time =>
      { w with scheduler := w.scheduler.setSyncPoint time owner defaultToken }
  | Effect.removeSyncPoint => { w with scheduler := w.scheduler.removeSyncPoint owner }

/-- Carrying out the calls of the pacer in order. -/
def perform (w : World) (es : List Effect) : World := es.foldl performEffect w

/-- The constructor `RealTime::RealTime()`.  The three configuration values
are read from the configuration; `catchUpTime` is not initialised by the
constructor, its indeterminate value is a parameter. -/
def construct (syncInterval maxCatchUpTime maxCatchUpFactor catchUpTime : Int)
    (host : Host) (scheduler : Scheduler) : World :=
  let rt0 : RealTime :=
    { syncInterval := syncInterval
      maxCatchUpTime := maxCatchUpTime
      maxCatchUpFactor := maxCatchUpFactor
      speed := 256
      paused := false
      throttle := true
      realRef := 0, realOrigin := 0, emuRef := 0, emuOrigin := 0
      catchUpTime := catchUpTime
      factor := 0 }
  let rt1 := resetTiming host rt0
  perform { rt := rt1, scheduler := scheduler, delays := [], console := [] }
    [Effect.setSyncPoint (rt1.emuRef + rt1.syncInterval)]

/-- The method `RealTime::executeUntilEmuTime`: `internalSync(curEmu);` -/
def executeUntilEmuTime (alpha : ℚ) (host : Host) (curEmu : EmuTime) (_userData : Int)
    (w : World) : Option World :=
  (internalSync alpha host curEmu w.rt).map fun r => perform { w with rt := r.1 } r.2

/-- The method `RealTime::sync`:
`scheduler->removeSyncPoint(this); internalSync(cpu->getCurrentTime());` -/
def sync (alpha : ℚ) (host : Host) (w : World) : Option World :=
  let w1 := perform w [Effect.removeSyncPoint]
  (internalSync alpha host host.cpuTime w1.rt).map fun r => perform { w1 with rt := r.1 } r.2

/-- Modelled from the spec: the scheduler dispatching a pending entry of the
pacer ("calling `owner.executeAt(dueTime, token)`"); the fired entry is
removed from the pending set before `executeUntilEmuTime` runs. -/
def fire (alpha : ℚ) (host : Host) (p : SyncPoint) (w : World) : Option World :=
  executeUntilEmuTime alpha host p.dueTime p.token
    { w with scheduler := { w.scheduler with pending := w.scheduler.pending.erase p } }

/-- The method `RealTime::PauseCmd::execute`. -/
def PauseCmd.execute (host : Host) (tokens : List String) (w : World) : World :=
  match tokens with
  | [_] =>
      if w.scheduler.isPaused then
        { w with rt := resetTiming host w.rt, scheduler := w.scheduler.unpause }
      else { w with scheduler := w.scheduler.pause }
  | [_, arg] =>
      if arg = "on" then { w with scheduler := w.scheduler.pause }
      else if arg = "off" then
        { w with rt := resetTiming host w.rt, scheduler := w.scheduler.unpause }
      else print "Syntax error" w
  | _ => print "Syntax error" w

/-- The method `RealTime::ThrottleCmd::execute`. -/
def ThrottleCmd.execute (tokens : List String) (w : World) : World :=
  match tokens with
  | [_] => { w with rt := { w.rt with throttle := !w.rt.throttle } }
  | [_, arg] =>
      if arg = "on" then { w with rt := { w.rt with throttle := true } }
      else if arg = "off" then { w with rt := { w.rt with throttle := false } }
      else print "Syntax error" w
  | _ => print "Syntax error" w

/-- The method `RealTime::SpeedCmd::execute`.  The parameter `strtol` gives
the value of `int tmp = strtol(tokens[1].c_str(), NULL, 0)` for each
argument (0 when the argument is not a number); the division of the query
by a zero `speed` is `none`. -/
def SpeedCmd.execute (strtol : String → Int) (host : Host) (tokens : List String)
    (w : World) : Option World :=
  match tokens with
  | [_] =>
      (intDiv 25600 w.rt.speed).map fun q => print ("Current speed: " ++ toString q) w
  | [_, arg] =>
      let tmp := strtol arg
      if tmp > 0 then
        some { w with rt := resetTiming host { w.rt with speed := Int.tdiv 25600 tmp } }
      else some (print "Illegal argument" w)
  | _ => some (print "Syntax error" w)

end RealTime

/-! ## `EventDistributor` -/

/-- The part of an `SDL_Event` the distributor looks at: its `type`; the rest
of the event is an opaque payload. -/
structure SDL_Event where
  type : Int
  payload : Nat
deriving DecidableEq, Repr

/-- A `std::multimap<int, EventListener*>`: its entries in iteration order,
that is, ordered by key.  A listener pointer is represented by a number. -/
abbrev ListenerMap := List (Int × Nat)

namespace ListenerMap

/-- The call `map.insert(std::pair<int, EventListener*>(type, listener))`: the
entry is placed after the entries whose key is not greater (among equal keys,
in insertion order). -/
def insert (type : Int) (listener : Nat) (m : ListenerMap) : ListenerMap :=
  m.takeWhile (fun p => decide (p.1 ≤ type))
    ++ (type, listener) :: m.dropWhile (fun p => decide (p.1 ≤ type))

/-- The call `map.lower_bound(type)`: the entries from the first one whose key
is not less than `type`. -/
def lowerBound (type : Int) (m : ListenerMap) : ListenerMap :=
  m.dropWhile fun p => decide (p.1 < type)

/-- The entries visited by the loop
`for (it = map.lower_bound(type);
      (it != map.end()) && (it->first == type); it++)`. -/
def visited (type : Int) (m : ListenerMap) : ListenerMap :=
  (lowerBound type m).takeWhile fun p => p.1 == type

end ListenerMap

/-- The three mutexes of the distributor. -/
inductive EventDistributor.Mutex where
  | asyncMutex
  | syncMutex
  | queueMutex
deriving DecidableEq, Repr

/-- A call `listener->signalEvent(event)`, with the mutexes the calling
thread holds at that moment. -/
structure EventDistributor.Signal where
  listener : Nat
  event : SDL_Event
  held : List EventDistributor.Mutex
deriving DecidableEq, Repr

/-- The data members of `EventDistributor`, the mutexes held by the thread
that executes a method, and the record of the calls of `signalEvent` made so
far (oldest first). -/
structure EventDistributor where
  asyncMap : ListenerMap
  syncMap : ListenerMap
  queue : List (SDL_Event × Nat)
  held : List EventDistributor.Mutex
  signals : List EventDistributor.Signal
deriving DecidableEq, Repr

namespace EventDistributor

/-- The constructor `EventDistributor::EventDistributor()`: empty maps and an
empty queue. -/
def new : EventDistributor :=
  { asyncMap := [], syncMap := [], queue := [], held := [], signals := [] }

/-- The call `mutex.grab()`. -/
def grab (m : Mutex) (d : EventDistributor) : EventDistributor :=
  { d with held := m :: d.held }

/-- The call `mutex.release()`. -/
def release (m : Mutex) (d : EventDistributor) : EventDistributor :=
  { d with held := d.held.erase m }

/-- The call `listener->signalEvent(event)`. -/
def signalEvent (listener : Nat) (event : SDL_Event) (d : EventDistributor) :
    EventDistributor :=
  { d with signals := d.signals ++ [{ listener := listener, event := event, held := d.held }] }

/-- The method `EventDistributor::registerAsyncListener`. -/
def registerAsyncListener (type : Int) (listener : Nat) (d : EventDistributor) :
    EventDistributor :=
  let d1 := d.grab Mutex.asyncMutex
  let d2 := { d1 with asyncMap := d1.asyncMap.insert type listener }
  d2.release Mutex.asyncMutex

/-- The method `EventDistributor::registerSyncListener`. -/
def registerSyncListener (type : Int) (listener : Nat) (d : EventDistributor) :
    EventDistributor :=
  let d1 := d.grab Mutex.syncMutex
  let d2 := { d1 with syncMap := d1.syncMap.insert type listener }
  d2.release Mutex.syncMutex

/-- One iteration of the loop of `EventDistributor::run`, for the event that
`SDL_WaitEvent` delivered. -/
def runEvent (event : SDL_Event) (d : EventDistributor) : EventDistributor :=
  let d1 := d.grab Mutex.asyncMutex
  let d2 := (d1.asyncMap.visited event.type).foldl (fun d p => d.signalEvent p.2 event) d1
  let d3 := d2.release Mutex.asyncMutex
  let d4 := (d3.grab Mutex.syncMutex).grab Mutex.queueMutex
  let d5 := (d4.syncMap.visited event.type).foldl
    (fun d p => { d with queue := d.queue ++ [(event, p.2)] }) d4
  (d5.release Mutex.queueMutex).release Mutex.syncMutex

/-- The method `EventDistributor::run`, for the events that `SDL_WaitEvent`
delivers before it fails. -/
def run (events : List SDL_Event) (d : EventDistributor) : EventDistributor :=
  events.foldl (fun d e => runEvent e d) d

/-- The loop `while (!queue.empty()) ...` of `pollSyncEvents`, entered with
the queue mutex held.  While `signalEvent` runs the queue mutex is released,
and the thread of `run` may push the pairs `arrivals d` on the queue.  The
loop is cut off after `fuel` iterations: `none` when the queue is not empty
by then. -/
def pollLoop (arrivals : EventDistributor → List (SDL_Event × Nat)) :
    Nat → EventDistributor → Option EventDistributor
  | 0, d => if d.queue.isEmpty then some d else none
  | fuel + 1, d =>
    match d.queue with
    | [] => some d
    | pair :: rest =>
      let d1 := { d with queue := rest }
      let d2 := d1.release Mutex.queueMutex
      let d3 := d2.signalEvent pair.2 pair.1
      let d4 := { d3 with queue := d3.queue ++ arrivals d2 }
      pollLoop arrivals fuel (d4.grab Mutex.queueMutex)

/-- The method `EventDistributor::pollSyncEvents`. -/
def pollSyncEvents (arrivals : EventDistributor → List (SDL_Event × Nat)) (fuel : Nat)
    (d : EventDistributor) : Option EventDistributor :=
  (pollLoop arrivals fuel (d.grab Mutex.queueMutex)).map fun d => d.release Mutex.queueMutex

/-- No event is produced while `pollSyncEvents` runs. -/
def quiet : EventDistributor → List (SDL_Event × Nat) := fun _ => []

end EventDistributor

/-! ## A small configuration, used to instantiate the theorems -/

/-- A window in the state `disable()` leaves. -/
def VDPVRAM.Window.disabled : VDPVRAM.Window := { baseMask := 0, baseAddr := -1, combiMask := 0 }

/-- A VRAM of four bytes whose command-engine write window holds the
addresses 0 and 1; every other window is disabled. -/
def VDPVRAM.small : VDPVRAM :=
  { data := [10, 11, 12, 13]
    planar := false
    currentTime := 0
    cmdReadWindow := VDPVRAM.Window.disabled
    cmdWriteWindow := VDPVRAM.Window.disabled.setMask 1 1
    nameTable := VDPVRAM.Window.disabled
    colourTable := VDPVRAM.Window.disabled
    patternTable := VDPVRAM.Window.disabled
    bitmapWindow := VDPVRAM.Window.disabled
    spriteAttribTable := VDPVRAM.Window.disabled
    spritePatternTable := VDPVRAM.Window.disabled }

/-- A command engine that counts its syncs and, on each, stores `99` at
address 0. -/
def VDPVRAM.smallEngine : VDPCmdEngine Nat :=
  { sync := fun _ n v => (n + 1, { v with data := v.data.set 0 99 }) }

/-- The VRAM `small` with the engine at count 0 and no call made yet. -/
def VDPVRAM.smallWorld : VDPVRAM.World Nat :=
  { vram := VDPVRAM.small, cmdEngine := 0, calls := [] }

/-- A pacer that has fallen behind: since the origin 100 ms of real time and
95 ms of emulated time have passed.  It is the state `internalSync` leaves
when, after `resetTiming` at real time 0 and emulated time 0, it is called at
real time 100 and emulated time 95 (with `alpha = 1/5`). -/
def RealTime.behind : RealTime :=
  { syncInterval := 20, maxCatchUpTime := 1000, maxCatchUpFactor := 105, speed := 256
    paused := false, throttle := true
    realRef := 100, realOrigin := 0, emuRef := 95, emuOrigin := 0
    catchUpTime := 5, factor := 96 / 95 }

/-- A pacer just reset at real time 0 and emulated time 0, with the given
configuration value `max_catch_up_time`. -/
def RealTime.fresh (maxCatchUpTime : Int) : RealTime :=
  { syncInterval := 20, maxCatchUpTime := maxCatchUpTime, maxCatchUpFactor := 105
    speed := 256, paused := false, throttle := true
    realRef := 0, realOrigin := 0, emuRef := 0, emuOrigin := 0
    catchUpTime := 0, factor := 1 }

/-- A pacer with `sync_interval = 1000`, constructed at real time 500 and
emulated time 7000 with an empty scheduler: throttle on, normal speed. -/
def RealTime.started : RealTime.World :=
  RealTime.construct 1000 1000 105 0 ⟨500, 7000⟩ { pending := [], paused := false }

/-- The distributor after the given registrations of async and of sync
listeners (pairs of event type and listener), made in order on a new
distributor. -/
def EventDistributor.registered (asyncRegs syncRegs : List (Int × Nat)) : EventDistributor :=
  syncRegs.foldl (fun d r => d.registerSyncListener r.1 r.2)
    (asyncRegs.foldl (fun d r => d.registerAsyncListener r.1 r.2) EventDistributor.new)


/-- While the first pair of a drain is being delivered, the thread of `run`
pushes one pair (an event of type 3 for listener 9); afterwards nothing. -/
def EventDistributor.lateArrival : EventDistributor → List (SDL_Event × Nat) :=
  fun s => if s.signals.length = 0 then [(⟨3, 1⟩, 9)] else []

/-- A distributor whose queue holds one pair: an event of type 2 for
listener 7. -/
def EventDistributor.onePending : EventDistributor :=
  { asyncMap := [], syncMap := [(2, 7), (3, 9)], queue := [(⟨2, 0⟩, 7)], held := [],
    signals := [] }

/-! ## The mapper of the cartridge `RomCrossBlaim` -/

/-- What a 16kB region of the address space of a cartridge shows: a block of
the ROM, or nothing. -/
inductive Rom16kBBlocks.Bank where
  | rom (block : Int)
  | unmapped
deriving DecidableEq, Repr

/-- Modelled from the spec: the base class `Rom16kBBlocks` is not among the
sources.  Of its state only the mapping is kept: for each 16kB region (page
0 is 0x0000-0x3fff, ..., page 3 is 0xc000-0xffff) the bank that was selected
last. -/
structure Rom16kBBlocks where
  bank : Nat → Rom16kBBlocks.Bank

/-- Modelled from the spec: the call `setRom(region, block)` makes the region
show the given 16kB block of the ROM; here it records that selection. -/
def Rom16kBBlocks.setRom (region : Nat) (block : Int) (s : Rom16kBBlocks) : Rom16kBBlocks :=
  { s with bank := fun r => if r = region then Rom16kBBlocks.Bank.rom block else s.bank r }

/-- Modelled from the spec: the call `setUnmapped(region)` makes the region
show nothing; here it records that selection. -/
def Rom16kBBlocks.setUnmapped (region : Nat) (s : Rom16kBBlocks) : Rom16kBBlocks :=
  { s with bank := fun r => if r = region then Rom16kBBlocks.Bank.unmapped else s.bank r }

/-- The method `RomCrossBlaim::writeMem`.  The address is a `word`, the time
is unused. -/
def RomCrossBlaim.writeMem (_address : Nat) (value : byte) (s : Rom16kBBlocks) :
    Rom16kBBlocks :=
  match value.val &&& 3 with
  | 0 | 1 => (((s.setRom 0 1).setRom 1 0).setRom 2 1).setRom 3 1
  | 2 => (((s.setUnmapped 0).setRom 1 0).setRom 2 2).setUnmapped 3
  | 3 => (((s.setUnmapped 0).setRom 1 0).setRom 2 3).setUnmapped 3
  | _ => s

/-- The method `RomCrossBlaim::reset`. -/
def RomCrossBlaim.reset (s : Rom16kBBlocks) : Rom16kBBlocks :=
  RomCrossBlaim.writeMem 0 0 s

/-- The constructor `RomCrossBlaim::RomCrossBlaim`, on the state the base
class constructor leaves. -/
def RomCrossBlaim.construct (base : Rom16kBBlocks) : Rom16kBBlocks :=
  RomCrossBlaim.reset base

/-! ## `YMF278`: the wave part of the MoonSound -/

/-- C++ `a ^ b` on `int`. -/
def intXor (a b : Int) : Int := ofBits (toBits a ^^^ toBits b)

/-- The conversion of a non-negative value to `byte`. -/
def toByte (n : Nat) : byte := ⟨n % 256, Nat.mod_lt n (by decide)⟩

/-- The function `sign_extend_4` of `YMF278.cc`. -/
def sign_extend_4 (x : Int) : Int := wrapInt (intXor x 8 - 8)

/-- The function `calcStep` of `YMF278.cc`, on `unsigned` values (the source
gives `vib` the default 0).  The shift distance `oct ^ 8` is below 32 for the
documented parameter range `oct` in `[0 .. 15]`. -/
def calcStep (oct fn vib : Nat) : Nat :=
  let oct := oct ^^^ 8
  let t := (((fn + 1024 + vib) % 4294967296) <<< oct) % 4294967296
  t >>> 3

/-- The formula in the comment above `calcStep`:
`((fn | 1024) + vib) << (5 + sign_extend_4(oct))`, where a shift over a
negative distance is a shift in the other direction. -/
def calcStepSpec (oct fn vib : Nat) : Nat :=
  let distance := 5 + sign_extend_4 oct
  if 0 ≤ distance then ((fn ||| 1024) + vib) <<< distance.toNat
  else ((fn ||| 1024) + vib) >>> (-distance).toNat

/-- The table `dl_tab` (decay levels; `SC(db)` is `16 * db`). -/
def dl_tab : List Nat :=
  [0, 16, 32, 48, 64, 80, 96, 112, 128, 144, 160, 176, 192, 208, 224, 496]

/-- The class `YMF278Slot`, restricted to the members that hold what was
written to the registers of the slot (and the wave header read on a wave
change).  The members of the running sound (`stepptr`, `pos`, `sample1`,
`sample2`, `env_vol`, `lfo_cnt`, `lfo_step`, `lfo_max`, `lfo_active`,
`state`, `active`) are left out: no member kept here is computed from them.
All members kept are non-negative in every state and are natural numbers
here. -/
structure YMF278Slot where
  startaddr : Nat
  loopaddr : Nat
  endaddr : Nat
  step : Nat
  DL : Nat
  wave : Nat
  FN : Nat
  OCT : Nat
  PRVB : Nat
  LD : Nat
  TL : Nat
  pan : Nat
  lfo : Nat
  vib : Nat
  AM : Nat
  AR : Nat
  D1R : Nat
  D2R : Nat
  RC : Nat
  RR : Nat
  bits : Nat
deriving DecidableEq, Repr

/-- The method `YMF278Slot::reset` (every member kept is assigned). -/
def YMF278Slot.reset (_slot : YMF278Slot) : YMF278Slot :=
  { wave := 0, FN := 0, OCT := 0, PRVB := 0, LD := 0, TL := 0, pan := 0, lfo := 0, vib := 0
    AM := 0, AR := 0, D1R := 0, DL := 0, D2R := 0, RC := 0, RR := 0
    step := calcStep 0 0 0
    bits := 0, startaddr := 0, loopaddr := 0, endaddr := 0 }

/-- The method `YMF278Slot::set_lfo`, on the members kept. -/
def YMF278Slot.set_lfo (newlfo : Nat) (slot : YMF278Slot) : YMF278Slot :=
  { slot with lfo := newlfo }

/-- The class `YMF278::Impl`: the 24 slots, the memory address register, the
mix levels, the ROM (2MB, checked by the constructor), the sample RAM with
its size `ram.size()` in bytes, and the register file.  The members of the
running sound (`eg_cnt`, `volume`) are left out. -/
structure YMF278 where
  slots : Fin 24 → YMF278Slot
  memadr : Int
  fm_l : Nat
  fm_r : Nat
  pcm_l : Nat
  pcm_r : Nat
  rom : Nat → byte
  ram : Nat → byte
  ramSize : Nat
  regs : byte → byte

namespace YMF278

/-- The method `YMF278::Impl::getRamAddress`, on `unsigned` values. -/
def getRamAddress (s : YMF278) (addr : Nat) : Nat :=
  let addr := (addr + (4294967296 - 0x200000)) % 4294967296
  let addr :=
    if (s.regs 2).val &&& 2 ≠ 0 then
      if 0x180000 ≤ addr ∧ addr ≤ 0x1FFFFF then
        let addr := addr - 0x180000
        if addr &&& 0x060000 = 0x000000 then addr
        else if addr &&& 0x060000 = 0x020000 then
          if s.ramSize = 256 * 1024 then addr else (addr + 0x080000) % 4294967296
        else if addr &&& 0x060000 = 0x040000 then (addr + 0x100000) % 4294967296
        else if addr &&& 0x060000 = 0x060000 then (addr + 0x180000) % 4294967296
        else addr
      else 4294967295
    else addr
  if s.ramSize = 640 * 1024 then
    if addr > 0x080000 then addr &&& 0xFFF9FFFF else addr
  else addr

/-- The method `YMF278::Impl::readMem`. -/
def readMem (s : YMF278) (address : Nat) : byte :=
  let address := address &&& 0x3FFFFF
  if address < 0x200000 then s.rom address
  else
    let ramAddr := s.getRamAddress address
    if ramAddr < s.ramSize then s.ram ramAddr else 255

/-- The method `YMF278::Impl::writeMem`. -/
def writeMem (address : Nat) (value : byte) (s : YMF278) : YMF278 :=
  let address := address &&& 0x3FFFFF
  if address < 0x200000 then s
  else
    let ramAddr := s.getRamAddress address
    if ramAddr < s.ramSize then
      { s with ram := fun a => if a = ramAddr then value else s.ram a }
    else s

/-- The assignment to the members of `slots[snum]`. -/
def setSlot (snum : Fin 24) (slot : YMF278Slot) (s : YMF278) : YMF278 :=
  { s with slots := fun i => if i = snum then slot else s.slots i }

/-- The body of `YMF278::Impl::writeRegDirect`, with `self` for the calls the
method makes to itself (after loading a wave header).  The calls of
`keyOnHelper` and the changes of the LFO and envelope state only touch
members that are left out. -/
def writeRegDirectWith (self : byte → byte → YMF278 → YMF278) (reg data : byte)
    (s : YMF278) : YMF278 :=
  let (s, data) : YMF278 × byte :=
    if 0x08 ≤ reg.val ∧ reg.val ≤ 0xF7 then
      let snum : Fin 24 := ⟨(reg.val - 8) % 24, Nat.mod_lt _ (by decide)⟩
      let slot := s.slots snum
      match (reg.val - 8) / 24 with
      | 0 =>
        let slot := { slot with wave := (slot.wave &&& 0x100) ||| data.val }
        let wavetblhdr := ((s.regs 2).val >>> 2) &&& 0x7
        let base :=
          if slot.wave < 384 ∨ wavetblhdr = 0 then slot.wave * 12
          else wavetblhdr * 0x80000 + (slot.wave - 384) * 12
        let buf : Nat → Nat := fun i => (s.readMem (base + i)).val
        let slot := { slot with
          bits := (buf 0 &&& 0xC0) >>> 6
          startaddr := buf 2 ||| (buf 1 <<< 8) ||| ((buf 0 &&& 0x3F) <<< 16)
          loopaddr := buf 4 + (buf 3 <<< 8)
          endaddr := ((buf 6 + (buf 5 <<< 8)) ^^^ 0xFFFF) + 1 }
        let s := s.setSlot snum slot
        let s := [7, 8, 9, 10, 11].foldl
          (fun s i => self (toByte (8 + snum.val + (i - 2) * 24)) (toByte (buf i)) s) s
        (s, data)
      | 1 =>
        let slot := { slot with wave := (slot.wave &&& 0xFF) ||| ((data.val &&& 0x1) <<< 8) }
        let slot := { slot with FN := (slot.FN &&& 0x380) ||| (data.val >>> 1) }
        let slot := { slot with step := calcStep slot.OCT slot.FN 0 }
        (s.setSlot snum slot, data)
      | 2 =>
        let slot := { slot with FN := (slot.FN &&& 0x07F) ||| ((data.val &&& 0x07) <<< 7) }
        let slot := { slot with PRVB := (data.val &&& 0x08) >>> 3 }
        let slot := { slot with OCT := (data.val &&& 0xF0) >>> 4 }
        let slot := { slot with step := calcStep slot.OCT slot.FN 0 }
        (s.setSlot snum slot, data)
      | 3 =>
        let slot := { slot with TL := data.val >>> 1 }
        let slot := { slot with LD := data.val &&& 0x1 }
        (s.setSlot snum slot, data)
      | 4 =>
        let slot :=
          if data.val &&& 0x10 ≠ 0 then { slot with pan := 8 }
          else { slot with pan := data.val &&& 0x0F }
        (s.setSlot snum slot, data)
      | 5 =>
        let slot := { slot with vib := data.val &&& 0x7 }
        let slot := slot.set_lfo ((data.val >>> 3) &&& 0x7)
        (s.setSlot snum slot, data)
      | 6 =>
        let slot := { slot with AR := data.val >>> 4 }
        let slot := { slot with D1R := data.val &&& 0xF }
        (s.setSlot snum slot, data)
      | 7 =>
        let slot := { slot with DL := dl_tab.getD (data.val >>> 4) 0 }
        let slot := { slot with D2R := data.val &&& 0xF }
        (s.setSlot snum slot, data)
      | 8 =>
        let slot := { slot with RC := data.val >>> 4 }
        let slot := { slot with RR := data.val &&& 0xF }
        (s.setSlot snum slot, data)
      | 9 =>
        let slot := { slot with AM := data.val &&& 0x7 }
        (s.setSlot snum slot, data)
      | _ => (s, data)
    else
      match reg.val with
      | 0x03 => (s, toByte (data.val &&& 0x3F))
      | 0x05 =>
        ({ s with memadr := (((s.regs 3).val <<< 16) ||| ((s.regs 4).val <<< 8) ||| data.val : Nat) },
         data)
      | 0x06 =>
        if (s.regs 2).val &&& 1 ≠ 0 then
          let s := s.writeMem (toBits s.memadr) data
          ({ s with memadr := wrapInt (s.memadr + 1) }, data)
        else (s, data)
      | 0xF8 => ({ s with fm_l := data.val &&& 0x7, fm_r := (data.val >>> 3) &&& 0x7 }, data)
      | 0xF9 => ({ s with pcm_l := data.val &&& 0x7, pcm_r := (data.val >>> 3) &&& 0x7 }, data)
      | _ => (s, data)
  { s with regs := fun r => if r = reg then data else s.regs r }

/-- The method `YMF278::Impl::writeRegDirect`.  A call the method makes to
itself writes one of the registers 128 to 247, which makes no further call:
two levels of the body are the whole method. -/
def writeRegDirect (reg data : byte) (s : YMF278) : YMF278 :=
  writeRegDirectWith (writeRegDirectWith (fun _ _ s => s)) reg data s

/-- The method `YMF278::Impl::writeReg` (`updateStream` only touches the
running sound). -/
def writeReg (reg data : byte) (s : YMF278) : YMF278 :=
  s.writeRegDirect reg data

/-- The method `YMF278::Impl::peekReg`. -/
def peekReg (reg : byte) (s : YMF278) : byte :=
  match reg.val with
  | 2 => toByte (((s.regs 2).val &&& 0x1F) ||| 0x20)
  | 6 => if (s.regs 2).val &&& 1 ≠ 0 then s.readMem (toBits s.memadr) else 0xff
  | _ => s.regs reg

/-- The method `YMF278::Impl::readReg`: the byte read and the state left. -/
def readReg (reg : byte) (s : YMF278) : byte × YMF278 :=
  let result := s.peekReg reg
  let s :=
    if reg.val = 6 then
      if (s.regs 2).val &&& 1 ≠ 0 then { s with memadr := wrapInt (s.memadr + 1) } else s
    else s
  (result, s)

/-- The method `YMF278::Impl::reset`. -/
def reset (s : YMF278) : YMF278 :=
  let s := { s with slots := fun i => (s.slots i).reset }
  let s := { s with regs := fun r => if r = 2 then 0 else s.regs r }
  let s := (List.range 256).reverse.foldl (fun s i => s.writeRegDirect (toByte i) 0) s
  { s with memadr := 0, fm_l := 0, fm_r := 0, pcm_l := 0, pcm_r := 0 }

/-- One access to the chip from outside: a register write or a register
read. -/
inductive Access where
  | write (reg data : byte)
  | read (reg : byte)
deriving DecidableEq, Repr

/-- The state after an access. -/
def access (s : YMF278) : Access → YMF278
  | Access.write reg data => s.writeReg reg data
  | Access.read reg => (s.readReg reg).2

end YMF278

/-- The invariant documented at the member `step` of `YMF278Slot`, with the
ranges documented at `OCT` and at `calcStep`. -/
def YMF278Slot.invariant (slot : YMF278Slot) : Prop :=
  slot.step = calcStep slot.OCT slot.FN 0 ∧ slot.OCT ≤ 15 ∧ slot.FN ≤ 1023

instance (slot : YMF278Slot) : Decidable slot.invariant := by
  unfold YMF278Slot.invariant
  infer_instance

/-- A chip with the given size of sample RAM (in bytes) and the given value
in register 2, all other registers 0.  Each byte of the RAM holds the number
of its 128kB block, each byte of the ROM holds 0x55. -/
def YMF278.moonsound (ramSize : Nat) (reg2 : byte) (memadr : Int) : YMF278 :=
  { slots := fun _ =>
      { wave := 0, FN := 0, OCT := 0, PRVB := 0, LD := 0, TL := 0, pan := 0, lfo := 0, vib := 0
        AM := 0, AR := 0, D1R := 0, DL := 0, D2R := 0, RC := 0, RR := 0
        step := calcStep 0 0 0
        bits := 0, startaddr := 0, loopaddr := 0, endaddr := 0 }
    memadr := memadr
    fm_l := 0, fm_r := 0, pcm_l := 0, pcm_r := 0
    rom := fun _ => 0x55
    ram := fun a => toByte (a / 0x20000)
    ramSize := ramSize
    regs := fun r => if r = 2 then reg2 else 0 }

/-! ## `BlipBuffer`: the band-limited sample buffer -/

/-- The data members of `BlipBuffer` (declared in `BlipBuffer.hh`, which is
not among the sources): `unsigned offset`, `int accum`, `int availSamp` and
the array `int buffer[BUFFER_SIZE]`. -/
structure BlipBuffer where
  offset : Nat
  accum : Int
  availSamp : Int
  buffer : List Int
deriving DecidableEq, Repr

namespace BlipBuffer

/-- The constructor `BlipBuffer::BlipBuffer()`; `BUFFER_SIZE` is declared in
`BlipBuffer.hh`.  The impulse table that `initImpulse` fills is used by
`addDelta` only. -/
def new (BUFFER_SIZE : Nat) : BlipBuffer :=
  { offset := 0, accum := 0, availSamp := 0, buffer := List.replicate BUFFER_SIZE 0 }

/-- The constant `SAMPLE_SHIFT = BLIP_SAMPLE_BITS - 16`. -/
def SAMPLE_SHIFT : Nat := 29 - 16

/-- The constant `BASS_SHIFT`. -/
def BASS_SHIFT : Nat := 9

/-- The two statements that update `acc` in the loop of the muted branch of
`readSamples`:
`acc -= (acc >> BASS_SHIFT); acc -= (acc > 0) ? 1 : 0;`. -/
def decay (acc : Int) : Int :=
  let acc := wrapInt (acc - intShr acc BASS_SHIFT)
  wrapInt (acc - (if acc > 0 then 1 else 0))

/-- The formula of the decay as one assignment:
`acc := acc - (acc >> 9) - (acc > 0 ? 1 : 0)`, in the integers, the shift
being the arithmetic one (division by 512 rounding down). -/
def decaySpec (acc : Int) : Int :=
  acc - acc / 512 - (if acc > 0 then 1 else 0)

/-- The loop of the muted branch of `readSamples`, run `samples` times from
the accumulator `acc`: the samples written to `out` and the final `acc`. -/
def mutedLoop : Nat → Int → List Int × Int
  | 0, acc => ([], acc)
  | samples + 1, acc =>
    let r := mutedLoop samples (decay acc)
    (intShr acc SAMPLE_SHIFT :: r.1, r.2)

/-- The loop of `readSamplesHelper`, run `samples` times: the samples written
to `out`, the final `acc`, the final `ofst` and the buffer.  A read of
`buffer[ofst]` outside the array is `none`. -/
def helperLoop : Nat → Int → Nat → List Int → Option (List Int × Int × Nat × List Int)
  | 0, acc, ofst, buffer => some ([], acc, ofst, buffer)
  | samples + 1, acc, ofst, buffer =>
    match buffer[ofst]? with
    | none => none
    | some delta =>
      let acc1 := wrapInt (acc - intShr acc BASS_SHIFT)
      let acc2 := wrapInt (acc1 + delta)
      match helperLoop samples acc2 ((ofst + 1) % 4294967296) (buffer.set ofst 0) with
      | none => none
      | some r => some (intShr acc SAMPLE_SHIFT :: r.1, r.2)

/-- The method `BlipBuffer::readSamplesHelper`: the samples written to `out`
and the state left.  `BUFFER_SIZE` and `BUFFER_MASK` are declared in
`BlipBuffer.hh`.  A failed assertion is `none`. -/
def readSamplesHelper (BUFFER_SIZE BUFFER_MASK : Nat) (samples : Nat) (b : BlipBuffer) :
    Option (List Int × BlipBuffer) :=
  if (b.offset + samples) % 4294967296 ≤ BUFFER_SIZE then
    (helperLoop samples b.accum b.offset b.buffer).map fun r =>
      (r.1, { b with accum := r.2.1, offset := r.2.2.1 &&& BUFFER_MASK, buffer := r.2.2.2 })
  else none

/-- The method `BlipBuffer::readSamples`: the value returned, the samples
written to `out` (in order; the stride `PITCH` is not represented) and the
state left.  A failed assertion is `none`. -/
def readSamples (BUFFER_SIZE BUFFER_MASK : Nat) (samples : Nat) (b : BlipBuffer) :
    Option (Bool × List Int × BlipBuffer) :=
  if b.availSamp ≤ 0 then
    if b.accum = 0 then some (false, [], b)
    else
      let r := mutedLoop samples b.accum
      some (true, r.1, { b with accum := r.2 })
  else
    let b := { b with availSamp := wrapInt (wrapUInt (b.availSamp - samples)) }
    let t1 := min samples ((BUFFER_SIZE + 4294967296 - b.offset) % 4294967296)
    match readSamplesHelper BUFFER_SIZE BUFFER_MASK t1 b with
    | none => none
    | some (out1, b1) =>
      if t1 < samples then
        if b1.offset = 0 then
          let t2 := samples - t1
          if t2 < BUFFER_SIZE then
            match readSamplesHelper BUFFER_SIZE BUFFER_MASK t2 b1 with
            | none => none
            | some (out2, b2) =>
              if b2.offset < BUFFER_SIZE then some (true, out1 ++ out2, b2) else none
          else none
        else none
      else if b1.offset < BUFFER_SIZE then some (true, out1, b1) else none

/-- A sequence of calls of `readSamples`, one for each number of samples in
the list: the state left (the samples are dropped). -/
def readMany (BUFFER_SIZE BUFFER_MASK : Nat) : List Nat → BlipBuffer → Option BlipBuffer
  | [], b => some b
  | samples :: rest, b =>
    match readSamples BUFFER_SIZE BUFFER_MASK samples b with
    | none => none
    | some r => readMany BUFFER_SIZE BUFFER_MASK rest r.2.2

end BlipBuffer

/-! ## `DiskChanger`: the disk in a drive -/

/-- How a call ends: it returns, or an exception leaves it. -/
inductive Outcome where
  | returned
  | threw
deriving DecidableEq, Repr

/-- The disk classes as `DiskChanger` uses them (`Disk.hh` and the image
classes are not among the sources), over a type `δ` of disk states.  A
constructor that throws gives `none`.  The method `Disk::applyPatch` gives the
state it leaves the disk in and how it ended. -/
structure DiskChanger.Disks (δ : Type) where
  /-- The constructor `DummyDisk()`. -/
  dummyDisk : δ
  /-- The constructor `RamDSKDiskImage()`. -/
  ramDSKDiskImage : δ
  /-- The constructor `XSADiskImage(diskImage)`. -/
  xsaDiskImage : String → Option δ
  /-- The constructor `FDC_DirAsDSK(cliComm, globalSettings, diskImage)`. -/
  dirAsDSK : String → Option δ
  /-- The constructor `DSKDiskImage(diskImage)`. -/
  dskDiskImage : String → Option δ
  /-- The method `Disk::applyPatch(patch)`. -/
  applyPatch : String → δ → δ × Outcome
  /-- The method `Disk::getName()`. -/
  getName : δ → String

/-- The data members of `DiskChanger` that the disk operations touch: the
current `disk`, the `diskChangedFlag`, the drive name, and the record of the
calls `cliComm.update(CliComm::MEDIA, driveName, diskName)` made so far. -/
structure DiskChanger (δ : Type) where
  driveName : String
  disk : δ
  diskChangedFlag : Bool
  updates : List (String × String)
deriving DecidableEq, Repr

namespace DiskChanger

/-- The method `DiskChanger::changeDisk`. -/
def changeDisk {δ : Type} (D : Disks δ) (newDisk : δ) (dc : DiskChanger δ) : DiskChanger δ :=
  { dc with
    disk := newDisk
    diskChangedFlag := true
    updates := dc.updates ++ [(dc.driveName, D.getName newDisk)] }

/-- The method `DiskChanger::ejectDisk`. -/
def ejectDisk {δ : Type} (D : Disks δ) (dc : DiskChanger δ) : DiskChanger δ :=
  changeDisk D D.dummyDisk dc

/-- The loop `for (unsigned i = 2; i < args.size(); ++i)
disk->applyPatch(args[i]->getString());` of `insertDisk`, over the remaining
arguments: an exception of `applyPatch` leaves the loop. -/
def applyPatches {δ : Type} (D : Disks δ) : List String → DiskChanger δ →
    DiskChanger δ × Outcome
  | [], dc => (dc, Outcome.returned)
  | patch :: rest, dc =>
    match D.applyPatch patch dc.disk with
    | (disk, Outcome.returned) => applyPatches D rest { dc with disk := disk }
    | (disk, Outcome.threw) => ({ dc with disk := disk }, Outcome.threw)

/-- The method `DiskChanger::insertDisk`: the state it leaves and how it
ends.  A missing `args[1]` is `none`. -/
def insertDisk {δ : Type} (D : Disks δ) (args : List String) (dc : DiskChanger δ) :
    Option (DiskChanger δ × Outcome) :=
  match args[1]? with
  | none => none
  | some diskImage =>
    let newDisk : Option δ :=
      if diskImage = "-ramdsk" then some D.ramDSKDiskImage
      else
        match D.xsaDiskImage diskImage with
        | some disk => some disk
        | none =>
          match D.dirAsDSK diskImage with
          | some disk => some disk
          | none => D.dskDiskImage diskImage
    match newDisk with
    | none => some (dc, Outcome.threw)
    | some newDisk =>
      match applyPatches D (args.drop 2) dc with
      | (dc1, Outcome.threw) => some (dc1, Outcome.threw)
      | (dc1, Outcome.returned) => some (changeDisk D newDisk dc1, Outcome.returned)

end DiskChanger

/-- A disk state for the examples: the name of the image and the patches
applied to it, oldest first. -/
structure DiskImage where
  name : String
  patches : List String
deriving DecidableEq, Repr

/-- Disk classes for the examples: the file `new.dsk` is accepted as a DSK
image and no other file is (nor is any file accepted as XSA image or as
directory); the patch `a.ips` applies and is recorded on the disk, any other
patch throws without changing the disk. -/
def DiskChanger.exampleDisks : DiskChanger.Disks DiskImage :=
  { dummyDisk := { name := "", patches := [] }
    ramDSKDiskImage := { name := "ramdsk", patches := [] }
    xsaDiskImage := fun _ => none
    dirAsDSK := fun _ => none
    dskDiskImage := fun f => if f = "new.dsk" then some { name := f, patches := [] } else none
    applyPatch := fun p d =>
      if p = "a.ips" then ({ d with patches := d.patches ++ [p] }, Outcome.returned)
      else (d, Outcome.threw)
    getName := fun d => d.name }

/-- The drive `diska` holding the image `old.dsk`, unpatched, the change of
disk already noticed. -/
def DiskChanger.exampleDrive : DiskChanger DiskImage :=
  { driveName := "diska", disk := { name := "old.dsk", patches := [] }
    diskChangedFlag := false, updates := [] }

/-! ## Reading through a window, and the CPU write seen from its read side -/

/-- The method `Window::readArea`: the address of the byte the returned
pointer `&data[addr]` points to.  A failed assertion is `none`. -/
def VDPVRAM.Window.readArea (w : VDPVRAM.Window) (index : Int) : Option Int :=
  if w.isEnabled then
    let addr := intAnd w.baseMask index
    if 0 ≤ addr ∧ addr < intShl 1 17 then some addr else none
  else none

/-- The method `Window::readNP`: `return *readArea(index);`, on the VRAM array
`data` that the window aliases. -/
def VDPVRAM.Window.readNP (w : VDPVRAM.Window) (data : List byte) (index : Int) :
    Option byte :=
  (w.readArea index).bind fun addr => data[addr.toNat]?

/-- The state in which `cpuWrite(address, value, time)` reaches its store:
the state left by the call `cmdEngine->sync(time)` that it makes when the
address is inside `cmdReadWindow` or `cmdWriteWindow`, the state it was called
in otherwise. -/
def VDPVRAM.beforeStore {σ : Type} (E : VDPCmdEngine σ) (address : Int) (time : EmuTime)
    (m : VDPVRAM.World σ) : VDPVRAM.World σ :=
  if m.vram.cmdReadWindow.isInside address
      || m.vram.cmdWriteWindow.isInside address then
    VDPVRAM.sync E time m
  else m

/-- A VRAM of 128kB, all bytes 0, in planar mode, with every window
disabled. -/
def VDPVRAM.planar128 : VDPVRAM :=
  { data := List.replicate 131072 0
    planar := true
    currentTime := 0
    cmdReadWindow := VDPVRAM.Window.disabled
    cmdWriteWindow := VDPVRAM.Window.disabled
    nameTable := VDPVRAM.Window.disabled
    colourTable := VDPVRAM.Window.disabled
    patternTable := VDPVRAM.Window.disabled
    bitmapWindow := VDPVRAM.Window.disabled
    spriteAttribTable := VDPVRAM.Window.disabled
    spritePatternTable := VDPVRAM.Window.disabled }

/-- The VRAM `planar128` with the engine at count 0 and no call made yet. -/
def VDPVRAM.planar128World : VDPVRAM.World Nat :=
  { vram := VDPVRAM.planar128, cmdEngine := 0, calls := [] }

/-! ## The life of the pacer after its construction -/

/-- What can happen to the pacer after its construction: the scheduler fires
a sync point, somebody calls `sync()`, or the user gives one of the three
commands.  Each event carries what the pacer reads from its surroundings
while it is handled. -/
inductive RealTime.Step where
  /-- The scheduler dispatches the pending entry `p`. -/
  | fire (host : RealTime.Host) (p : SyncPoint)
  /-- The call `sync()`. -/
  | sync (host : RealTime.Host)
  /-- The command `pause`, with its tokens. -/
  | pauseCmd (host : RealTime.Host) (tokens : List String)
  /-- The command `throttle`, with its tokens. -/
  | throttleCmd (tokens : List String)
  /-- The command `speed`, with its tokens. -/
  | speedCmd (host : RealTime.Host) (tokens : List String)

/-- The state after one event; `none` when the pacer divides by zero. -/
def RealTime.step (alpha : ℚ) (strtol : String → Int) (w : RealTime.World) :
    RealTime.Step → Option RealTime.World
  | RealTime.Step.fire host p => RealTime.fire alpha host p w
  | RealTime.Step.sync host => RealTime.sync alpha host w
  | RealTime.Step.pauseCmd host tokens => some (RealTime.PauseCmd.execute host tokens w)
  | RealTime.Step.throttleCmd tokens => some (RealTime.ThrottleCmd.execute tokens w)
  | RealTime.Step.speedCmd host tokens => RealTime.SpeedCmd.execute strtol host tokens w

/-- The state after a sequence of events. -/
def RealTime.run (alpha : ℚ) (strtol : String → Int) :
    List RealTime.Step → RealTime.World → Option RealTime.World
  | [], w => some w
  | e :: es, w =>
    match RealTime.step alpha strtol w e with
    | none => none
    | some w1 => RealTime.run alpha strtol es w1

/-- The pending sync points owned by the pacer. -/
def RealTime.ownSyncPoints (w : RealTime.World) : List SyncPoint :=
  w.scheduler.pending.filter fun p => p.owner == RealTime.owner

/-! ## The envelope generator of the YMF278 -/

/-- The constant `MAX_ATT_INDEX`, `(1 << (ENV_BITS - 1)) - 1` with
`ENV_BITS = 10`. -/
def MAX_ATT_INDEX : Int := 511

/-- The constant `MIN_ATT_INDEX`. -/
def MIN_ATT_INDEX : Int := 0

/-- The envelope phase `EG_ATT` (attack). -/
def EG_ATT : Nat := 4

/-- The envelope phase `EG_DEC` (decay). -/
def EG_DEC : Nat := 3

/-- The envelope phase `EG_SUS` (sustain). -/
def EG_SUS : Nat := 2

/-- The envelope phase `EG_REL` (release). -/
def EG_REL : Nat := 1

/-- The envelope phase `EG_OFF`. -/
def EG_OFF : Nat := 0

/-- The envelope phase `EG_REV` (pseudo reverb). -/
def EG_REV : Nat := 5

/-- The envelope phase `EG_DMP` (damp). -/
def EG_DMP : Nat := 6

/-- The constant `RATE_STEPS`. -/
def RATE_STEPS : Nat := 8

/-- The table `eg_inc[15 * RATE_STEPS]`. -/
def eg_inc : List Nat :=
  [0, 1, 0, 1, 0, 1, 0, 1,
   0, 1, 0, 1, 1, 1, 0, 1,
   0, 1, 1, 1, 0, 1, 1, 1,
   0, 1, 1, 1, 1, 1, 1, 1,
   1, 1, 1, 1, 1, 1, 1, 1,
   1, 1, 1, 2, 1, 1, 1, 2,
   1, 2, 1, 2, 1, 2, 1, 2,
   1, 2, 2, 2, 1, 2, 2, 2,
   2, 2, 2, 2, 2, 2, 2, 2,
   2, 2, 2, 4, 2, 2, 2, 4,
   2, 4, 2, 4, 2, 4, 2, 4,
   2, 4, 4, 4, 2, 4, 4, 4,
   4, 4, 4, 4, 4, 4, 4, 4,
   8, 8, 8, 8, 8, 8, 8, 8,
   0, 0, 0, 0, 0, 0, 0, 0]

/-- The table `eg_rate_select[64]`; `O(a)` is `a * RATE_STEPS`. -/
def eg_rate_select : List Nat :=
  [0 * RATE_STEPS, 1 * RATE_STEPS, 2 * RATE_STEPS, 3 * RATE_STEPS,
   0 * RATE_STEPS, 1 * RATE_STEPS, 2 * RATE_STEPS, 3 * RATE_STEPS,
   0 * RATE_STEPS, 1 * RATE_STEPS, 2 * RATE_STEPS, 3 * RATE_STEPS,
   0 * RATE_STEPS, 1 * RATE_STEPS, 2 * RATE_STEPS, 3 * RATE_STEPS,
   0 * RATE_STEPS, 1 * RATE_STEPS, 2 * RATE_STEPS, 3 * RATE_STEPS,
   0 * RATE_STEPS, 1 * RATE_STEPS, 2 * RATE_STEPS, 3 * RATE_STEPS,
   0 * RATE_STEPS, 1 * RATE_STEPS, 2 * RATE_STEPS, 3 * RATE_STEPS,
   0 * RATE_STEPS, 1 * RATE_STEPS, 2 * RATE_STEPS, 3 * RATE_STEPS,
   0 * RATE_STEPS, 1 * RATE_STEPS, 2 * RATE_STEPS, 3 * RATE_STEPS,
   0 * RATE_STEPS, 1 * RATE_STEPS, 2 * RATE_STEPS, 3 * RATE_STEPS,
   0 * RATE_STEPS, 1 * RATE_STEPS, 2 * RATE_STEPS, 3 * RATE_STEPS,
   0 * RATE_STEPS, 1 * RATE_STEPS, 2 * RATE_STEPS, 3 * RATE_STEPS,
   0 * RATE_STEPS, 1 * RATE_STEPS, 2 * RATE_STEPS, 3 * RATE_STEPS,
   4 * RATE_STEPS, 5 * RATE_STEPS, 6 * RATE_STEPS, 7 * RATE_STEPS,
   8 * RATE_STEPS, 9 * RATE_STEPS, 10 * RATE_STEPS, 11 * RATE_STEPS,
   12 * RATE_STEPS, 12 * RATE_STEPS, 12 * RATE_STEPS, 12 * RATE_STEPS]

/-- The table `eg_rate_shift[64]`. -/
def eg_rate_shift : List Nat :=
  [12, 12, 12, 12,
   11, 11, 11, 11,
   10, 10, 10, 10,
   9, 9, 9, 9,
   8, 8, 8, 8,
   7, 7, 7, 7,
   6, 6, 6, 6,
   5, 5, 5, 5,
   4, 4, 4, 4,
   3, 3, 3, 3,
   2, 2, 2, 2,
   1, 1, 1, 1,
   0, 0, 0, 0,
   0, 0, 0, 0,
   0, 0, 0, 0,
   0, 0, 0, 0]

/-- The method `YMF278Slot::compute_rate`; the sum is an `int`. -/
def YMF278Slot.compute_rate (slot : YMF278Slot) (val : Int) : Int :=
  if val = 0 then 0
  else if val = 15 then 63
  else
    let res :=
      if slot.RC ≠ 15 then
        let oct := sign_extend_4 slot.OCT
        wrapInt ((oct + slot.RC) * 2 + (if slot.FN &&& 0x200 ≠ 0 then 1 else 0) + val * 4)
      else wrapInt (val * 4)
    if res < 0 then 0
    else if res > 63 then 63
    else res

/-- The sum that `compute_rate` clamps, in exact arithmetic, with the octave
read as a signed 4-bit number. -/
def YMF278Slot.rateSpec (slot : YMF278Slot) (val : Int) : Int :=
  if slot.RC ≠ 15 then
    ((if slot.OCT < 8 then (slot.OCT : Int) else (slot.OCT : Int) - 16) + slot.RC) * 2
      + (if slot.FN / 512 % 2 = 1 then 1 else 0) + val * 4
  else val * 4

/-- The members of the running sound of a slot that `advance` reads and
writes: `env_vol`, `lfo_cnt`, `lfo_step`, `lfo_max`, `active`, `state` (a
`byte`, kept as a natural number) and `lfo_active`. -/
structure YMF278Slot.Envelope where
  env_vol : Int
  lfo_cnt : Int
  lfo_step : Int
  lfo_max : Int
  active : Bool
  state : Nat
  lfo_active : Bool
deriving DecidableEq, Repr

/-- The table accesses that every phase of the envelope generator in
`advance` makes once its `rate` is known:
`byte shift = eg_rate_shift[rate];
 if (!(eg_cnt & ((1 << shift) - 1))) {
   byte select = eg_rate_select[rate];
   ... eg_inc[select + ((eg_cnt >> shift) & 7)] ...`.
The result is `none` when one of the three accesses is outside its table,
`some none` when the counter test fails (no access to `eg_inc`), and
`some (some inc)` with the entry of `eg_inc` read otherwise. -/
def YMF278.egInc (eg_cnt : Nat) (rate : byte) : Option (Option Nat) :=
  match eg_rate_shift[rate.val]? with
  | none => none
  | some shift =>
    if eg_cnt &&& ((1 <<< shift) - 1) = 0 then
      match eg_rate_select[rate.val]? with
      | none => none
      | some select =>
        match eg_inc[select + ((eg_cnt >>> shift) &&& 7)]? with
        | none => none
        | some inc => some (some inc)
    else some none

/-- The part of the loop body of `advance` that steps the LFO of a slot. -/
def YMF278.advanceLfo (e : YMF278Slot.Envelope) : YMF278Slot.Envelope :=
  if e.lfo_active then
    let e := { e with lfo_cnt := wrapInt (e.lfo_cnt + 1) }
    if e.lfo_cnt < e.lfo_max then
      { e with lfo_step := wrapInt (e.lfo_step + 1) }
    else if e.lfo_cnt < wrapInt (e.lfo_max * 3) then
      { e with lfo_step := wrapInt (e.lfo_step - 1) }
    else
      let e := { e with lfo_step := wrapInt (e.lfo_step + 1) }
      if e.lfo_cnt = wrapInt (e.lfo_max * 4) then { e with lfo_cnt := 0 } else e
  else e

/-- The end of the sustain, release, reverb and damp phases:
`if (op.env_vol >= MAX_ATT_INDEX) { op.env_vol = MAX_ATT_INDEX; op.active = false; }`. -/
def YMF278.egFinish (e : YMF278Slot.Envelope) : YMF278Slot.Envelope :=
  if e.env_vol ≥ MAX_ATT_INDEX then { e with env_vol := MAX_ATT_INDEX, active := false }
  else e

/-- The test `(unsigned(op.env_vol) > dl_tab[6]) && op.PRVB` of the decay,
sustain and release phases. -/
def YMF278.egReverb (op : YMF278Slot) (e : YMF278Slot.Envelope) : Bool :=
  decide (toBits e.env_vol > dl_tab.getD 6 0) && decide (op.PRVB ≠ 0)

/-- The body of the loop of `YMF278::Impl::advance` for one slot, with the
counter `eg_cnt` already incremented.  The result is `none` when a table is
read outside its bounds or the `default` label (`UNREACHABLE`) is reached. -/
def YMF278.advanceSlot (eg_cnt : Nat) (op : YMF278Slot) (e : YMF278Slot.Envelope) :
    Option YMF278Slot.Envelope :=
  let e := YMF278.advanceLfo e
  if e.state = EG_ATT then
    let rate := toByte (op.compute_rate op.AR).toNat
    if rate < 4 then some e
    else
      match YMF278.egInc eg_cnt rate with
      | none => none
      | some none => some e
      | some (some inc) =>
        let e := { e with
          env_vol := wrapInt (e.env_vol + intShr (wrapInt (intNot e.env_vol * inc)) 3) }
        if e.env_vol ≤ MIN_ATT_INDEX then
          some { e with
            env_vol := MIN_ATT_INDEX
            state := if op.DL ≠ 0 then EG_DEC else EG_SUS }
        else some e
  else if e.state = EG_DEC then
    let rate := toByte (op.compute_rate op.D1R).toNat
    if rate < 4 then some e
    else
      match YMF278.egInc eg_cnt rate with
      | none => none
      | some none => some e
      | some (some inc) =>
        let e := { e with env_vol := wrapInt (e.env_vol + inc) }
        if YMF278.egReverb op e then some { e with state := EG_REV }
        else if e.env_vol ≥ op.DL then some { e with state := EG_SUS }
        else some e
  else if e.state = EG_SUS then
    let rate := toByte (op.compute_rate op.D2R).toNat
    if rate < 4 then some e
    else
      match YMF278.egInc eg_cnt rate with
      | none => none
      | some none => some e
      | some (some inc) =>
        let e := { e with env_vol := wrapInt (e.env_vol + inc) }
        if YMF278.egReverb op e then some { e with state := EG_REV }
        else some (YMF278.egFinish e)
  else if e.state = EG_REL then
    let rate := toByte (op.compute_rate op.RR).toNat
    if rate < 4 then some e
    else
      match YMF278.egInc eg_cnt rate with
      | none => none
      | some none => some e
      | some (some inc) =>
        let e := { e with env_vol := wrapInt (e.env_vol + inc) }
        if YMF278.egReverb op e then some { e with state := EG_REV }
        else some (YMF278.egFinish e)
  else if e.state = EG_REV then
    let rate := toByte (op.compute_rate 5).toNat
    match YMF278.egInc eg_cnt rate with
    | none => none
    | some none => some e
    | some (some inc) =>
      some (YMF278.egFinish { e with env_vol := wrapInt (e.env_vol + inc) })
  else if e.state = EG_DMP then
    let rate : byte := 56
    match YMF278.egInc eg_cnt rate with
    | none => none
    | some none => some e
    | some (some inc) =>
      some (YMF278.egFinish { e with env_vol := wrapInt (e.env_vol + inc) })
  else if e.state = EG_OFF then some e
  else none

/-- The method `YMF278::Impl::advance`, on the counter `eg_cnt` (an
`unsigned`), the registers of the 24 slots and the members of their running
sound.  The slots are stepped independently of each other. -/
def YMF278.advance (eg_cnt : Nat) (slots : Fin 24 → YMF278Slot)
    (envs : Fin 24 → YMF278Slot.Envelope) :
    Option (Nat × (Fin 24 → YMF278Slot.Envelope)) :=
  let eg_cnt := (eg_cnt + 1) % 4294967296
  if h : ∀ i : Fin 24, (YMF278.advanceSlot eg_cnt (slots i) (envs i)).isSome = true then
    some (eg_cnt, fun i => (YMF278.advanceSlot eg_cnt (slots i) (envs i)).get (h i))
  else none

/-- A slot in the attack phase at full attenuation, LFO off. -/
def YMF278Slot.Envelope.attack : YMF278Slot.Envelope :=
  { env_vol := 511, lfo_cnt := 0, lfo_step := 0, lfo_max := 0, active := true
    state := EG_ATT, lfo_active := false }

/-- A slot with octave 9 (that is -7), rate correction 3, bit 9 of the
f-number set and attack rate 5. -/
def YMF278Slot.keyed : YMF278Slot :=
  { wave := 0, FN := 0x200, OCT := 9, PRVB := 0, LD := 0, TL := 0, pan := 0, lfo := 0, vib := 0
    AM := 0, AR := 5, D1R := 0, DL := 0, D2R := 0, RC := 3, RR := 0
    step := calcStep 9 0x200 0
    bits := 0, startaddr := 0, loopaddr := 0, endaddr := 0 }

/-! ## The mapper of the cartridge `RomMSXDOS2` -/

/-- Modelled from the spec: `CacheLine.hh` is not among the sources.  A cache
line has 256 bytes, and `CacheLine::HIGH` masks an address down to the start
of its line. -/
def CacheLine.HIGH : Nat := 0xFF00

/-- The class `RomMSXDOS2`: the member `range` and the mapping kept by the
base class `Rom16kBBlocks`. -/
structure RomMSXDOS2 where
  range : byte
  banks : Rom16kBBlocks

/-- The pointers that `getWriteCacheLine` returns: `nullptr`, or the line
`unmappedWrite` of the base class, which swallows what is written to it. -/
inductive RomMSXDOS2.WriteCacheLine where
  | null
  | unmappedWrite
deriving DecidableEq, Repr

/-- The method `RomMSXDOS2::reset`. -/
def RomMSXDOS2.reset (s : RomMSXDOS2) : RomMSXDOS2 :=
  { s with banks := (((s.banks.setUnmapped 0).setRom 1 0).setUnmapped 2).setUnmapped 3 }

/-- The constructor `RomMSXDOS2::RomMSXDOS2`, on the contents of the ROM and
the state the base class constructor leaves; `none` is the `MSXException`
it throws. -/
def RomMSXDOS2.construct (rom : Nat → byte) (base : Rom16kBBlocks) : Option RomMSXDOS2 :=
  let range := rom 0x94
  if range ≠ 0x00 ∧ range ≠ 0x60 ∧ range ≠ 0x7f then none
  else some (RomMSXDOS2.reset { range := range, banks := base })

/-- The method `RomMSXDOS2::writeMem`.  The address is a `word`, the time is
unused; `none` is the `default` label (`UNREACHABLE`). -/
def RomMSXDOS2.writeMem (address : Nat) (value : byte) (s : RomMSXDOS2) :
    Option RomMSXDOS2 :=
  if s.range = 0x00 then
    if address ≠ 0x7ff0 then some s
    else some { s with banks := s.banks.setRom 1 value.val }
  else if s.range = 0x60 then
    if address &&& 0xf000 ≠ 0x6000 then some s
    else some { s with banks := s.banks.setRom 1 value.val }
  else if s.range = 0x7f then
    if address ≠ 0x7ffe then some s
    else some { s with banks := s.banks.setRom 1 value.val }
  else none

/-- The method `RomMSXDOS2::getWriteCacheLine`; `none` is the `default`
label (`UNREACHABLE`). -/
def RomMSXDOS2.getWriteCacheLine (address : Nat) (s : RomMSXDOS2) :
    Option RomMSXDOS2.WriteCacheLine :=
  if s.range = 0x00 then
    if address = 0x7ff0 &&& CacheLine.HIGH then some RomMSXDOS2.WriteCacheLine.null
    else some RomMSXDOS2.WriteCacheLine.unmappedWrite
  else if s.range = 0x60 then
    if address &&& 0xf000 = 0x6000 then some RomMSXDOS2.WriteCacheLine.null
    else some RomMSXDOS2.WriteCacheLine.unmappedWrite
  else if s.range = 0x7f then
    if address = 0x7ffe &&& CacheLine.HIGH then some RomMSXDOS2.WriteCacheLine.null
    else some RomMSXDOS2.WriteCacheLine.unmappedWrite
  else none

/-- A sequence of calls of `writeMem`, each given by its address and value. -/
def RomMSXDOS2.writes : List (Nat × byte) → RomMSXDOS2 → Option RomMSXDOS2
  | [], s => some s
  | (address, value) :: ws, s =>
    match RomMSXDOS2.writeMem address value s with
    | none => none
    | some s1 => RomMSXDOS2.writes ws s1

/-- The condition under which the spec says a write switches the bank of
page 1: address 0x7ff0 for range 0x00, an address in 0x6000-0x6fff for range
0x60, address 0x7ffe for range 0x7f. -/
def RomMSXDOS2.switches (range : byte) (address : Nat) : Prop :=
  (range = 0x00 ∧ address = 0x7ff0) ∨
  (range = 0x60 ∧ 0x6000 ≤ address ∧ address ≤ 0x6fff) ∨
  (range = 0x7f ∧ address = 0x7ffe)

instance (range : byte) (address : Nat) : Decidable (RomMSXDOS2.switches range address) := by
  unfold RomMSXDOS2.switches
  infer_instance

/-- A ROM image that holds the given byte at offset 0x94 and 0 elsewhere. -/
def RomMSXDOS2.image (range : byte) : Nat → byte :=
  fun offset => if offset = 0x94 then range else 0

/-- A state of the base class in which every page shows block 9. -/
def Rom16kBBlocks.fresh : Rom16kBBlocks :=
  { bank := fun _ => Rom16kBBlocks.Bank.rom 9 }
/-! ## A VRAM of 128kB with a command window -/

/-- A VRAM of 128kB, all bytes 0, not planar, whose command-engine write
window holds the addresses 0 and 1; every other window is disabled. -/
def VDPVRAM.linear128 : VDPVRAM :=
  { data := List.replicate 131072 0
    planar := false
    currentTime := 0
    cmdReadWindow := VDPVRAM.Window.disabled
    cmdWriteWindow := VDPVRAM.Window.disabled.setMask 1 1
    nameTable := VDPVRAM.Window.disabled
    colourTable := VDPVRAM.Window.disabled
    patternTable := VDPVRAM.Window.disabled
    bitmapWindow := VDPVRAM.Window.disabled
    spriteAttribTable := VDPVRAM.Window.disabled
    spritePatternTable := VDPVRAM.Window.disabled }

/-- The VRAM `linear128` with the engine at count 0 and no call made yet. -/
def VDPVRAM.linear128World : VDPVRAM.World Nat :=
  { vram := VDPVRAM.linear128, cmdEngine := 0, calls := [] }

/-! ## The C library function `strtol` -/

/-- The value `LONG_MAX` of a 64-bit `long`. -/
def LONG_MAX : Int := 9223372036854775807

/-- The value `LONG_MIN` of a 64-bit `long`. -/
def LONG_MIN : Int := -9223372036854775808

/-- The test `isspace` of the C library, in the "C" locale: space, `\t`,
`\n`, `\v`, `\f` and `\r`. -/
def strtol.isspace (c : Char) : Bool :=
  c.toNat = 32 || (9 ≤ c.toNat && c.toNat ≤ 13)

/-- The value of a character as a digit of `strtol`: `0` to `9`, then the
letters `a` (or `A`) to `z` (or `Z`) for 10 to 35. -/
def strtol.digitValue (c : Char) : Option Nat :=
  if 48 ≤ c.toNat ∧ c.toNat ≤ 57 then some (c.toNat - 48)
  else if 97 ≤ c.toNat ∧ c.toNat ≤ 122 then some (c.toNat - 97 + 10)
  else if 65 ≤ c.toNat ∧ c.toNat ≤ 90 then some (c.toNat - 65 + 10)
  else none

/-- The longest run of digits below `base` at the start of the text, read as
a number in that base; `acc` is the number read so far, `none` as long as no
digit has been read. -/
def strtol.number (base : Nat) : List Char → Option Nat → Option Nat
  | [], acc => acc
  | c :: cs, acc =>
    match strtol.digitValue c with
    | some d => if d < base then strtol.number base cs (some (acc.getD 0 * base + d)) else acc
    | none => acc

/-- The optional sign of the subject sequence: whether it is `-`, and the
text after it. -/
def strtol.sign : List Char → Bool × List Char
  | [] => (false, [])
  | c :: cs =>
    if c = '-' then (true, cs)
    else if c = '+' then (false, cs)
    else (false, c :: cs)

/-- The digits of the subject sequence for base 0: hexadecimal after `0x` or
`0X`, octal after another leading `0`, decimal otherwise; `none` when the
text does not start with a number.  In `0x` without a hexadecimal digit after
it only the `0` is read. -/
def strtol.magnitude : List Char → Option Nat
  | [] => none
  | c :: cs =>
    if c = '0' then
      match cs with
      | [] => some 0
      | x :: r =>
        if x = 'x' ∨ x = 'X' then
          match strtol.number 16 r none with
          | some v => some v
          | none => some 0
        else strtol.number 8 cs (some 0)
    else strtol.number 10 (c :: cs) none

/-- The C library function `strtol(nptr, NULL, 0)`, as the C standard
describes it, for a 64-bit `long`: white space is skipped, then an optional
sign and the longest number in base 16, 8 or 10 (chosen by the prefix) are
read and whatever follows is ignored; the result is 0 when there is no
number, and `LONG_MAX` or `LONG_MIN` when the number is out of range. -/
def strtol (nptr : String) : Int :=
  let s := strtol.sign (nptr.toList.dropWhile strtol.isspace)
  match strtol.magnitude s.2 with
  | none => 0
  | some v => if s.1 then max (-(v : Int)) LONG_MIN else min (v : Int) LONG_MAX

/-- The initialisation `int tmp = strtol(tokens[1].c_str(), NULL, 0);` of
`SpeedCmd::execute`: the `long` is converted to `int` (its low 32 bits are
kept). -/
def RealTime.SpeedCmd.tmp (arg : String) : Int := wrapInt (strtol arg)

/-! ## Facts about the 32-bit operations -/

theorem toBits_lt (x : Int) : toBits x < 4294967296 := by
  unfold toBits
  omega

theorem toBits_cast (x : Int) : (toBits x : Int) = x % 4294967296 := by
  unfold toBits
  omega

theorem ofBits_toBits (x : Int) (hx : isInt x) : ofBits (toBits x) = x := by
  unfold ofBits wrapInt
  rw [toBits_cast]
  unfold isInt at hx
  omega

theorem ofBits_eq_zero_iff (n : Nat) (hn : n < 4294967296) : ofBits n = 0 ↔ n = 0 := by
  unfold ofBits wrapInt
  omega

theorem ofBits_nonneg_of_lt (n : Nat) (hn : n < 2147483648) : 0 ≤ ofBits n := by
  unfold ofBits wrapInt
  omega

theorem intShl_neg_one (k : Nat) (hk : k < 32) : intShl (-1) k = -(2 ^ k : Int) := by
  interval_cases k <;> decide

theorem toBits_neg_two_pow (k : Nat) (hk : k < 32) :
    toBits (-(2 ^ k : Int)) = 2 ^ 32 - 2 ^ k := by
  interval_cases k <;> decide

theorem testBit_high_mask (k i : Nat) (hk : k ≤ 32) :
    (2 ^ 32 - 2 ^ k).testBit i = (decide (i < 32) && decide (k ≤ i)) := by
  have h1 : 2 ^ k - 1 < 2 ^ 32 := by
    have : 2 ^ k ≤ 2 ^ 32 := Nat.pow_le_pow_right (by decide) hk
    have : 0 < 2 ^ k := Nat.two_pow_pos k
    omega
  have h2 : 2 ^ 32 - 2 ^ k = 2 ^ 32 - (2 ^ k - 1 + 1) := by
    have : 0 < 2 ^ k := Nat.two_pow_pos k
    omega
  rw [h2, Nat.testBit_two_pow_sub_succ h1, Nat.testBit_two_pow_sub_one]
  by_cases h : i < k <;> simp [h]
  omega

theorem and_high_mask_eq_zero_iff (n k : Nat) (hn : n < 2 ^ 32) (hk : k ≤ 32) :
    n &&& (2 ^ 32 - 2 ^ k) = 0 ↔ n < 2 ^ k := by
  constructor
  · intro h
    apply Nat.lt_pow_two_of_testBit
    intro i hi
    have h3 := congrArg (fun m => m.testBit i) h
    simp only [Nat.testBit_and, testBit_high_mask k i hk, Nat.zero_testBit] at h3
    by_cases h32 : i < 32
    · simpa [h32, hi] using h3
    · apply Nat.testBit_lt_two_pow
      exact lt_of_lt_of_le hn (Nat.pow_le_pow_right (by decide) (by omega))
  · intro h
    apply Nat.eq_of_testBit_eq
    intro i
    simp only [Nat.testBit_and, testBit_high_mask k i hk, Nat.zero_testBit]
    by_cases hi : k ≤ i
    · have : n.testBit i = false :=
        Nat.testBit_lt_two_pow (lt_of_lt_of_le h (Nat.pow_le_pow_right (by decide) hi))
      simp [this]
    · simp [hi]
theorem toBits_of_nonneg (a : Int) (h0 : 0 ≤ a) (ha : isInt a) :
    toBits a < 2147483648 := by
  unfold toBits
  unfold isInt at ha
  omega

theorem intAnd_nonneg (a m : Int) (h0 : 0 ≤ a) (ha : isInt a) : 0 ≤ intAnd a m := by
  unfold intAnd
  apply ofBits_nonneg_of_lt
  exact lt_of_le_of_lt Nat.and_le_left (toBits_of_nonneg a h0 ha)

theorem ofBits_eq_neg_one_iff (n : Nat) (hn : n < 4294967296) :
    ofBits n = -1 ↔ n = 4294967295 := by
  unfold ofBits wrapInt
  omega

theorem setMask_pow (w : VDPVRAM.Window) (k : Nat) (hk : k ≤ 17) :
    w.setMask (2 ^ k - 1) k =
      { baseMask := 2 ^ k - 1, baseAddr := 0, combiMask := -(2 ^ k : Int) } := by
  unfold VDPVRAM.Window.setMask
  interval_cases k <;> decide

theorem intAnd_neg_two_pow_eq_zero_iff (a : Int) (ha : isInt a) (k : Nat) (hk : k < 32) :
    intAnd a (-(2 ^ k : Int)) = 0 ↔ 0 ≤ a ∧ a < 2 ^ k := by
  unfold intAnd
  rw [toBits_neg_two_pow k hk,
    ofBits_eq_zero_iff _ (lt_of_le_of_lt Nat.and_le_left (toBits_lt a)),
    and_high_mask_eq_zero_iff _ _ (toBits_lt a) (le_of_lt hk)]
  have h1 : (2 : Nat) ^ k ≤ 2 ^ 31 := Nat.pow_le_pow_right (by decide) (by omega)
  have h2 : ((2 ^ k : Nat) : Int) = (2 : Int) ^ k := by push_cast; rfl
  have h3 := toBits_cast a
  unfold isInt at ha
  constructor
  · intro h
    have h4 : (toBits a : Int) < ((2 ^ k : Nat) : Int) := by exact_mod_cast h
    rw [← h2]
    omega
  · intro h
    rw [← h2] at h
    have h4 : (toBits a : Int) < ((2 ^ k : Nat) : Int) := by omega
    exact_mod_cast h4

/-- C1. `isInside(address)` is true exactly when
`(address & combiMask) == baseAddr`, for every window state and every
address; and `setMask(baseMask, indexBits)` leaves
`combiMask = ~baseMask | (-1 << indexBits)` and
`baseAddr = baseMask & (-1 << indexBits)`. -/
theorem VDPVRAM.Window.isInside_iff (w : VDPVRAM.Window) (address baseMask : Int)
    (indexBits : Nat) :
    (w.isInside address = true ↔ intAnd address w.combiMask = w.baseAddr) ∧
    (w.setMask baseMask indexBits).combiMask
      = intOr (intNot baseMask) (intShl (-1) indexBits) ∧
    (w.setMask baseMask indexBits).baseAddr
      = intAnd baseMask (intShl (-1) indexBits) ∧
    ((w.setMask baseMask indexBits).isInside address = true ↔
      intAnd address (intOr (intNot baseMask) (intShl (-1) indexBits))
        = intAnd baseMask (intShl (-1) indexBits)) := by
  refine ⟨?_, rfl, rfl, ?_⟩
  · simp [VDPVRAM.Window.isInside]
  · simp [VDPVRAM.Window.isInside, VDPVRAM.Window.setMask]

/-- C2. For `k ≤ 17` the window configured by `setMask(2^k - 1, k)` contains
exactly the addresses `0 ≤ a < 2^k`, and after `disable()` it contains none of
them. -/
theorem VDPVRAM.Window.setMask_pow_isInside (w : VDPVRAM.Window) (k : Nat) (hk : k ≤ 17)
    (a : Int) (ha : isInt a) :
    ((w.setMask (2 ^ k - 1) k).isInside a = true ↔ 0 ≤ a ∧ a < 2 ^ k) ∧
    (0 ≤ a ∧ a < 2 ^ k → ((w.setMask (2 ^ k - 1) k).disable).isInside a = false) := by
  rw [setMask_pow w k hk]
  constructor
  · simp only [VDPVRAM.Window.isInside, beq_iff_eq]
    exact intAnd_neg_two_pow_eq_zero_iff a ha k (by omega)
  · intro h
    simp only [VDPVRAM.Window.isInside, VDPVRAM.Window.disable, beq_eq_false_iff_ne, ne_eq]
    have := intAnd_nonneg a (-(2 ^ k : Int)) h.1 ha
    omega

/-- Scenario D of C2: with `baseMask = 0x3FFF` and `indexBits = 14`, address
`0x3FFF` is inside and `0x4000` is not; after `disable()` neither is. -/
theorem VDPVRAM.Window.setMask_pow_isInside_witness :
    (14 ≤ 17 ∧ isInt 0x3FFF) ∧
    ((((VDPVRAM.Window.mk 0 (-1) 0).setMask (2 ^ 14 - 1) 14).isInside 0x3FFF = true
        ↔ (0:Int) ≤ 0x3FFF ∧ (0x3FFF:Int) < 2 ^ 14) ∧
      ((0:Int) ≤ 0x3FFF ∧ (0x3FFF:Int) < 2 ^ 14 →
        (((VDPVRAM.Window.mk 0 (-1) 0).setMask (2 ^ 14 - 1) 14).disable).isInside 0x3FFF
          = false)) ∧
    ((VDPVRAM.Window.mk 0 (-1) 0).setMask 0x3FFF 14).isInside 0x3FFF = true ∧
    ((VDPVRAM.Window.mk 0 (-1) 0).setMask 0x3FFF 14).isInside 0x4000 = false ∧
    (((VDPVRAM.Window.mk 0 (-1) 0).setMask 0x3FFF 14).disable).isInside 0x3FFF = false ∧
    (((VDPVRAM.Window.mk 0 (-1) 0).setMask 0x3FFF 14).disable).isInside 0x4000 = false :=
  ⟨⟨by decide, by decide⟩,
   VDPVRAM.Window.setMask_pow_isInside (VDPVRAM.Window.mk 0 (-1) 0) 14 (by decide) 0x3FFF
     (by decide),
   by decide, by decide, by decide, by decide⟩

/-- C4, as stated, fails: `setMask(-1, 0)` computes `baseAddr = -1`, the
value that marks a disabled window, so `isEnabled()` is false and the
assertion of `getMask()` fails. -/
theorem VDPVRAM.Window.setMask_neg_one_zero_not_enabled :
    ((VDPVRAM.Window.mk 0 (-1) 0).setMask (-1) 0).isEnabled = false ∧
    ((VDPVRAM.Window.mk 0 (-1) 0).setMask (-1) 0).getMask = none := by
  decide

/-- C4, amended. For every `baseMask` and `indexBits < 32` other than the
pair `baseMask = -1`, `indexBits = 0`, the window is enabled after
`setMask(baseMask, indexBits)` and `getMask()` returns `baseMask`. -/
theorem VDPVRAM.Window.setMask_isEnabled (w : VDPVRAM.Window) (baseMask : Int)
    (indexBits : Nat) (hm : isInt baseMask) (hk : indexBits < 32)
    (hne : ¬ (baseMask = -1 ∧ indexBits = 0)) :
    (w.setMask baseMask indexBits).isEnabled = true ∧
    (w.setMask baseMask indexBits).getMask = some baseMask := by
  have hen : (w.setMask baseMask indexBits).isEnabled = true := by
    simp only [VDPVRAM.Window.isEnabled, VDPVRAM.Window.setMask, bne_iff_ne, ne_eq]
    rw [intShl_neg_one indexBits hk]
    unfold intAnd
    rw [toBits_neg_two_pow indexBits hk,
      ofBits_eq_neg_one_iff _ (lt_of_le_of_lt Nat.and_le_left (toBits_lt baseMask))]
    intro h
    apply hne
    have h1 : toBits baseMask &&& (2 ^ 32 - 2 ^ indexBits) ≤ toBits baseMask :=
      Nat.and_le_left
    have h2 : toBits baseMask &&& (2 ^ 32 - 2 ^ indexBits) ≤ 2 ^ 32 - 2 ^ indexBits :=
      Nat.and_le_right
    have h3 := toBits_cast baseMask
    have h4 := toBits_lt baseMask
    rw [h] at h1 h2
    unfold isInt at hm
    constructor
    · omega
    · have h5 : 2 ^ indexBits ≤ 1 := by
        have : 0 < 2 ^ indexBits := Nat.two_pow_pos indexBits
        omega
      by_contra h6
      have h7 : 2 ^ 1 ≤ 2 ^ indexBits := Nat.pow_le_pow_right (by decide) (by omega)
      omega
  refine ⟨hen, ?_⟩
  unfold VDPVRAM.Window.getMask
  rw [hen]
  rfl

theorem VDPVRAM.Window.setMask_isEnabled_witness :
    (isInt 0x3FFF ∧ 14 < 32 ∧ ¬ ((0x3FFF : Int) = -1 ∧ 14 = 0)) ∧
    ((VDPVRAM.Window.mk 0 (-1) 0).setMask 0x3FFF 14).isEnabled = true ∧
    ((VDPVRAM.Window.mk 0 (-1) 0).setMask 0x3FFF 14).getMask = some 0x3FFF :=
  ⟨⟨by decide, by decide, by decide⟩,
   VDPVRAM.Window.setMask_isEnabled (VDPVRAM.Window.mk 0 (-1) 0) 0x3FFF 14
     (by decide) (by decide) (by decide)⟩

/-! ## The access protocol of `VDPVRAM` -/

theorem VDPVRAM.read_of_inBounds (v : VDPVRAM) (address a : Int)
    (ha : a = if v.planar then VDPVRAM.planarAddress address else address)
    (hin : 0 ≤ a ∧ a < v.size) :
    ∃ b, v.read address = some b ∧ v.data[a.toNat]? = some b := by
  have hlt : a.toNat < v.data.length := by
    unfold VDPVRAM.size at hin
    omega
  refine ⟨v.data[a.toNat], ?_, ?_⟩
  · unfold VDPVRAM.read
    simp only [← ha]
    rw [if_pos hin]
    exact List.getElem?_eq_getElem hlt
  · exact List.getElem?_eq_getElem hlt

theorem VDPVRAM.cmdWrite_of_inBounds {σ : Type} (a : Int) (value : byte) (T : EmuTime)
    (m : VDPVRAM.World σ) (hin : 0 ≤ a ∧ a < m.vram.size) :
    ∃ m2, VDPVRAM.cmdWrite a value T m = some m2 ∧
      m2.calls = m.calls ++ [VDPVRAM.Call.spriteCheckerUpdateVRAM a value T,
        VDPVRAM.Call.rendererUpdateVRAM a value T] ∧
      m2.cmdEngine = m.cmdEngine ∧
      m2.vram.data[a.toNat]? = some value ∧
      (∀ i : Nat, i ≠ a.toNat → m2.vram.data[i]? = m.vram.data[i]?) ∧
      m2.vram.currentTime = T := by
  have hlt : a.toNat < m.vram.data.length := by
    unfold VDPVRAM.size at hin
    omega
  unfold VDPVRAM.cmdWrite
  simp only [if_pos hin, Bool.true_or, if_true]
  refine ⟨_, rfl, ?_, rfl, ?_, ?_, rfl⟩
  · simp
  · simp [hlt]
  · intro i hi
    exact List.getElem?_set_ne (Ne.symm hi)

/-- C5. `cpuRead(address, T)` syncs the command engine to `T` exactly when
`address` is inside `cmdWriteWindow`.  In that case the call returns the state
left by the sync (one call `cmdEngine->sync(T)` is recorded) and the byte it
returns is the one the data array holds, after the sync, at the address
(planar-remapped when planar).  When the address is outside the window the
state is returned as it was (no call is made) and the byte is the one the
data array holds at the address. -/
theorem VDPVRAM.cpuRead_sync {σ : Type} (E : VDPCmdEngine σ) (address : Int) (T : EmuTime)
    (m : VDPVRAM.World σ) :
    (m.vram.cmdWriteWindow.isInside address = true →
      ∀ a : Int,
        a = (if (VDPVRAM.sync E T m).vram.planar then VDPVRAM.planarAddress address
              else address) →
        0 ≤ a ∧ a < (VDPVRAM.sync E T m).vram.size →
        ∃ b, VDPVRAM.cpuRead E address T m = some (b, VDPVRAM.sync E T m) ∧
          (VDPVRAM.sync E T m).calls = m.calls ++ [VDPVRAM.Call.cmdEngineSync T] ∧
          (VDPVRAM.sync E T m).vram = (E.sync T m.cmdEngine m.vram).2 ∧
          (VDPVRAM.sync E T m).cmdEngine = (E.sync T m.cmdEngine m.vram).1 ∧
          (E.sync T m.cmdEngine m.vram).2.data[a.toNat]? = some b) ∧
    (m.vram.cmdWriteWindow.isInside address = false →
      ∀ a : Int,
        a = (if m.vram.planar then VDPVRAM.planarAddress address else address) →
        0 ≤ a ∧ a < m.vram.size →
        ∃ b, VDPVRAM.cpuRead E address T m = some (b, m) ∧
          m.vram.data[a.toNat]? = some b) := by
  constructor
  · intro hin a ha hb
    obtain ⟨b, hb1, hb2⟩ := VDPVRAM.read_of_inBounds (VDPVRAM.sync E T m).vram address a ha hb
    refine ⟨b, ?_, rfl, rfl, rfl, hb2⟩
    unfold VDPVRAM.cpuRead
    simp [hin, hb1]
  · intro hin a ha hb
    obtain ⟨b, hb1, hb2⟩ := VDPVRAM.read_of_inBounds m.vram address a ha hb
    refine ⟨b, ?_, hb2⟩
    unfold VDPVRAM.cpuRead
    simp [hin, hb1]

theorem VDPVRAM.cpuRead_sync_witness :
    (VDPVRAM.smallWorld.vram.cmdWriteWindow.isInside 0 = true ∧
      ((0:Int) ≤ 0 ∧ (0:Int) < (VDPVRAM.sync VDPVRAM.smallEngine 5 VDPVRAM.smallWorld).vram.size)) ∧
    (∃ b, VDPVRAM.cpuRead VDPVRAM.smallEngine 0 5 VDPVRAM.smallWorld
          = some (b, VDPVRAM.sync VDPVRAM.smallEngine 5 VDPVRAM.smallWorld) ∧
        (VDPVRAM.sync VDPVRAM.smallEngine 5 VDPVRAM.smallWorld).calls
          = VDPVRAM.smallWorld.calls ++ [VDPVRAM.Call.cmdEngineSync 5] ∧
        (VDPVRAM.sync VDPVRAM.smallEngine 5 VDPVRAM.smallWorld).vram
          = (VDPVRAM.smallEngine.sync 5 VDPVRAM.smallWorld.cmdEngine
              VDPVRAM.smallWorld.vram).2 ∧
        (VDPVRAM.sync VDPVRAM.smallEngine 5 VDPVRAM.smallWorld).cmdEngine
          = (VDPVRAM.smallEngine.sync 5 VDPVRAM.smallWorld.cmdEngine
              VDPVRAM.smallWorld.vram).1 ∧
        (VDPVRAM.smallEngine.sync 5 VDPVRAM.smallWorld.cmdEngine
            VDPVRAM.smallWorld.vram).2.data[(0:Int).toNat]? = some b) ∧
    (VDPVRAM.smallWorld.vram.cmdWriteWindow.isInside 2 = false ∧
      ((0:Int) ≤ 2 ∧ (2:Int) < VDPVRAM.smallWorld.vram.size)) ∧
    (∃ b, VDPVRAM.cpuRead VDPVRAM.smallEngine 2 5 VDPVRAM.smallWorld
          = some (b, VDPVRAM.smallWorld) ∧
        VDPVRAM.smallWorld.vram.data[(2:Int).toNat]? = some b) ∧
    (VDPVRAM.cpuRead VDPVRAM.smallEngine 0 5 VDPVRAM.smallWorld).map (fun r => r.1) = some 99 ∧
    (VDPVRAM.cpuRead VDPVRAM.smallEngine 2 5 VDPVRAM.smallWorld).map (fun r => r.1) = some 12 :=
  ⟨⟨by decide, by decide⟩,
   (VDPVRAM.cpuRead_sync VDPVRAM.smallEngine 0 5 VDPVRAM.smallWorld).1 (by decide) 0 (by decide)
     (by decide),
   ⟨by decide, by decide⟩,
   (VDPVRAM.cpuRead_sync VDPVRAM.smallEngine 2 5 VDPVRAM.smallWorld).2 (by decide) 2 (by decide)
     (by decide),
   by decide, by decide⟩

/-- C6, amended. `cpuWrite(address, value, T)` syncs the command engine to
`T` exactly when `address` is inside `cmdReadWindow` or `cmdWriteWindow`, and
the sync is the first call made, before the byte is stored.  Afterwards the
data array holds `value` at the written address (planar-remapped when
planar), every other byte is as the sync left it (as it was before the call
when no sync is made), and `currentTime` is `T`. -/
theorem VDPVRAM.cpuWrite_sync {σ : Type} (E : VDPCmdEngine σ) (address : Int) (value : byte)
    (T : EmuTime) (m : VDPVRAM.World σ) :
    ((m.vram.cmdReadWindow.isInside address || m.vram.cmdWriteWindow.isInside address) = true →
      ∀ a : Int,
        a = (if (VDPVRAM.sync E T m).vram.planar then VDPVRAM.planarAddress address
              else address) →
        0 ≤ a ∧ a < (VDPVRAM.sync E T m).vram.size →
        ∃ m2, VDPVRAM.cpuWrite E address value T m = some m2 ∧
          m2.calls = m.calls ++ [VDPVRAM.Call.cmdEngineSync T,
            VDPVRAM.Call.spriteCheckerUpdateVRAM a value T,
            VDPVRAM.Call.rendererUpdateVRAM a value T] ∧
          m2.cmdEngine = (E.sync T m.cmdEngine m.vram).1 ∧
          m2.vram.data[a.toNat]? = some value ∧
          (∀ i : Nat, i ≠ a.toNat →
            m2.vram.data[i]? = (E.sync T m.cmdEngine m.vram).2.data[i]?) ∧
          m2.vram.currentTime = T) ∧
    ((m.vram.cmdReadWindow.isInside address || m.vram.cmdWriteWindow.isInside address) = false →
      ∀ a : Int,
        a = (if m.vram.planar then VDPVRAM.planarAddress address else address) →
        0 ≤ a ∧ a < m.vram.size →
        ∃ m2, VDPVRAM.cpuWrite E address value T m = some m2 ∧
          m2.calls = m.calls ++ [VDPVRAM.Call.spriteCheckerUpdateVRAM a value T,
            VDPVRAM.Call.rendererUpdateVRAM a value T] ∧
          m2.cmdEngine = m.cmdEngine ∧
          m2.vram.data[a.toNat]? = some value ∧
          (∀ i : Nat, i ≠ a.toNat → m2.vram.data[i]? = m.vram.data[i]?) ∧
          m2.vram.currentTime = T) := by
  constructor
  · intro hin a ha hb
    obtain ⟨m2, h1, h2, h3, h4, h5, h6⟩ :=
      VDPVRAM.cmdWrite_of_inBounds a value T (VDPVRAM.sync E T m) hb
    refine ⟨m2, ?_, ?_, h3, h4, h5, h6⟩
    · unfold VDPVRAM.cpuWrite
      simp only [hin, if_true, ← ha]
      exact h1
    · rw [h2]
      simp [VDPVRAM.sync]
  · intro hin a ha hb
    obtain ⟨m2, h1, h2, h3, h4, h5, h6⟩ := VDPVRAM.cmdWrite_of_inBounds a value T m hb
    refine ⟨m2, ?_, h2, h3, h4, h5, h6⟩
    unfold VDPVRAM.cpuWrite
    simp only [hin, Bool.false_eq_true, if_false, ← ha]
    exact h1

theorem VDPVRAM.cpuWrite_sync_witness :
    ((VDPVRAM.smallWorld.vram.cmdReadWindow.isInside 1
        || VDPVRAM.smallWorld.vram.cmdWriteWindow.isInside 1) = true ∧
      ((0:Int) ≤ 1 ∧ (1:Int) < (VDPVRAM.sync VDPVRAM.smallEngine 5 VDPVRAM.smallWorld).vram.size)) ∧
    (∃ m2, VDPVRAM.cpuWrite VDPVRAM.smallEngine 1 7 5 VDPVRAM.smallWorld = some m2 ∧
        m2.calls = VDPVRAM.smallWorld.calls ++ [VDPVRAM.Call.cmdEngineSync 5,
          VDPVRAM.Call.spriteCheckerUpdateVRAM 1 7 5,
          VDPVRAM.Call.rendererUpdateVRAM 1 7 5] ∧
        m2.cmdEngine = (VDPVRAM.smallEngine.sync 5 VDPVRAM.smallWorld.cmdEngine
          VDPVRAM.smallWorld.vram).1 ∧
        m2.vram.data[(1:Int).toNat]? = some 7 ∧
        (∀ i : Nat, i ≠ (1:Int).toNat →
          m2.vram.data[i]? = (VDPVRAM.smallEngine.sync 5 VDPVRAM.smallWorld.cmdEngine
            VDPVRAM.smallWorld.vram).2.data[i]?) ∧
        m2.vram.currentTime = 5) ∧
    ((VDPVRAM.smallWorld.vram.cmdReadWindow.isInside 3
        || VDPVRAM.smallWorld.vram.cmdWriteWindow.isInside 3) = false ∧
      ((0:Int) ≤ 3 ∧ (3:Int) < VDPVRAM.smallWorld.vram.size)) ∧
    (∃ m2, VDPVRAM.cpuWrite VDPVRAM.smallEngine 3 7 5 VDPVRAM.smallWorld = some m2 ∧
        m2.calls = VDPVRAM.smallWorld.calls ++ [VDPVRAM.Call.spriteCheckerUpdateVRAM 3 7 5,
          VDPVRAM.Call.rendererUpdateVRAM 3 7 5] ∧
        m2.cmdEngine = VDPVRAM.smallWorld.cmdEngine ∧
        m2.vram.data[(3:Int).toNat]? = some 7 ∧
        (∀ i : Nat, i ≠ (3:Int).toNat → m2.vram.data[i]? = VDPVRAM.smallWorld.vram.data[i]?) ∧
        m2.vram.currentTime = 5) ∧
    (VDPVRAM.cpuWrite VDPVRAM.smallEngine 1 7 5 VDPVRAM.smallWorld).map (fun r => r.vram.data)
      = some [99, 7, 12, 13] ∧
    (VDPVRAM.cpuWrite VDPVRAM.smallEngine 3 7 5 VDPVRAM.smallWorld).map (fun r => r.vram.data)
      = some [10, 11, 12, 7] :=
  ⟨⟨by decide, by decide⟩,
   (VDPVRAM.cpuWrite_sync VDPVRAM.smallEngine 1 7 5 VDPVRAM.smallWorld).1 (by decide) 1
     (by decide) (by decide),
   ⟨by decide, by decide⟩,
   (VDPVRAM.cpuWrite_sync VDPVRAM.smallEngine 3 7 5 VDPVRAM.smallWorld).2 (by decide) 3
     (by decide) (by decide),
   by decide, by decide⟩

/-! ## The pacer -/

/-- C7. With throttle off, `internalSync` makes no call at all (no sleep) and
leaves the timing references reset, whatever the pacer state was:
`realRef = realOrigin` is the current real time, `emuRef = emuOrigin` the
current time of the CPU, and `factor = 1`. -/
theorem RealTime.internalSync_unthrottled (alpha : ℚ) (host : RealTime.Host) (curEmu : EmuTime)
    (rt : RealTime) (ht : rt.throttle = false) :
    ∃ rt2, RealTime.internalSync alpha host curEmu rt = some (rt2, []) ∧
      rt2.realRef = host.ticks ∧ rt2.realOrigin = host.ticks ∧
      rt2.emuRef = host.cpuTime ∧ rt2.emuOrigin = host.cpuTime ∧
      rt2.factor = 1 := by
  refine ⟨RealTime.resetTiming host rt, ?_, rfl, rfl, rfl, rfl, rfl⟩
  simp [RealTime.internalSync, ht]

theorem RealTime.internalSync_unthrottled_witness :
    ({ RealTime.behind with throttle := false } : RealTime).throttle = false ∧
    ∃ rt2, RealTime.internalSync (1 / 5) ⟨101, 110⟩ 110
          { RealTime.behind with throttle := false } = some (rt2, []) ∧
      rt2.realRef = 101 ∧ rt2.realOrigin = 101 ∧
      rt2.emuRef = 110 ∧ rt2.emuOrigin = 110 ∧
      rt2.factor = 1 :=
  ⟨rfl, RealTime.internalSync_unthrottled (1 / 5) ⟨101, 110⟩ 110
    { RealTime.behind with throttle := false } rfl⟩

/-- C8, as stated, fails: the pacer `behind`, sampled at real time 101 and
emulated time 110, has `realPassed = 1`, `emuPassed = 15` and
`catchUpDebt = -9`, yet it sleeps 13 ms and not 9: the test against
`maxCatchUpFactor` replaces the sleep. -/
theorem RealTime.internalSync_sleep_exceeds_debt :
    RealTime.behind.throttle = true ∧
    RealTime.meaningful ⟨101, 110⟩ 110 RealTime.behind = true ∧
    RealTime.catchUpDebt ⟨101, 110⟩ 110 RealTime.behind = -9 ∧
    (RealTime.internalSync (1 / 5) ⟨101, 110⟩ 110 RealTime.behind).map (fun r => r.2)
      = some [RealTime.Effect.delay 13, RealTime.Effect.setSyncPoint 130] := by
  decide

/-- C9, as stated, fails: with `max_catch_up_time = -10` the fresh pacer,
sampled at real time 5 and emulated time 10, has `catchUpDebt = -5`, which
exceeds `maxCatchUpTime`, and `realOrigin` stays 0: a negative debt is
answered by a sleep, never by moving `realOrigin`. -/
theorem RealTime.internalSync_negative_debt_keeps_origin :
    (RealTime.fresh (-10)).throttle = true ∧
    RealTime.meaningful ⟨5, 10⟩ 10 (RealTime.fresh (-10)) = true ∧
    RealTime.catchUpDebt ⟨5, 10⟩ 10 (RealTime.fresh (-10)) = -5 ∧
    RealTime.catchUpDebt ⟨5, 10⟩ 10 (RealTime.fresh (-10))
      > (RealTime.fresh (-10)).maxCatchUpTime ∧
    (RealTime.fresh (-10)).realOrigin = 0 ∧
    (RealTime.internalSync (1 / 5) ⟨5, 10⟩ 10 (RealTime.fresh (-10))).map
      (fun r => r.1.realOrigin) = some 0 := by
  decide

theorem RealTime.catchUpDebt_realOriginForDebt (host : RealTime.Host) (curEmu : EmuTime)
    (rt : RealTime) (hmax : isInt rt.maxCatchUpTime)
    (hd : 0 ≤ RealTime.catchUpDebt host curEmu rt
      ∧ RealTime.catchUpDebt host curEmu rt > rt.maxCatchUpTime) :
    RealTime.realOriginForDebt host curEmu rt
      = wrapUInt (rt.realOrigin + (RealTime.catchUpDebt host curEmu rt - rt.maxCatchUpTime)) ∧
    RealTime.catchUpDebt host curEmu
        { rt with realOrigin := RealTime.realOriginForDebt host curEmu rt }
      = rt.maxCatchUpTime := by
  have h1 : RealTime.realOriginForDebt host curEmu rt
      = wrapUInt (rt.realOrigin
          + wrapInt (RealTime.catchUpDebt host curEmu rt - rt.maxCatchUpTime)) := by
    unfold RealTime.realOriginForDebt
    rw [if_neg (by omega), if_pos hd.2]
  constructor
  · rw [h1]
    unfold wrapUInt wrapInt
    omega
  · have h2 : RealTime.totalEmu curEmu
        { rt with realOrigin := RealTime.realOriginForDebt host curEmu rt }
        = RealTime.totalEmu curEmu rt := rfl
    have h3 : RealTime.catchUpDebt host curEmu rt
        = wrapInt (wrapUInt64 (wrapInt (wrapUInt (host.ticks - rt.realOrigin))
            - RealTime.totalEmu curEmu rt)) := rfl
    have h4 : RealTime.catchUpDebt host curEmu
        { rt with realOrigin := RealTime.realOriginForDebt host curEmu rt }
        = wrapInt (wrapUInt64 (wrapInt (wrapUInt
              (host.ticks - RealTime.realOriginForDebt host curEmu rt))
            - RealTime.totalEmu curEmu rt)) := rfl
    rw [h4, h1]
    generalize RealTime.catchUpDebt host curEmu rt = d at h3 hd ⊢
    generalize RealTime.totalEmu curEmu rt = t at h3 ⊢
    unfold isInt at hmax
    unfold wrapInt wrapUInt wrapUInt64 at h3 ⊢
    omega

/-- C9, amended. On a meaningful sample with throttle on and
`maxCatchUpFactor > 0`: when `catchUpDebt` is not negative and exceeds
`maxCatchUpTime`, `internalSync` advances `realOrigin` by exactly
`catchUpDebt - maxCatchUpTime` (as an `unsigned int`, modulo `2^32`), and the
debt recomputed against the new origin equals `maxCatchUpTime`; when
`catchUpDebt` is negative or at most `maxCatchUpTime`, `realOrigin` is left
unchanged. -/
theorem RealTime.internalSync_forgives_debt (alpha : ℚ) (host : RealTime.Host)
    (curEmu : EmuTime) (rt : RealTime) (ht : rt.throttle = true)
    (hm : RealTime.meaningful host curEmu rt = true)
    (hf : 0 < rt.maxCatchUpFactor) (hmax : isInt rt.maxCatchUpTime) :
    ∃ rt2 calls, RealTime.internalSync alpha host curEmu rt = some (rt2, calls) ∧
      (0 ≤ RealTime.catchUpDebt host curEmu rt
          ∧ RealTime.catchUpDebt host curEmu rt > rt.maxCatchUpTime →
        rt2.realOrigin
          = wrapUInt (rt.realOrigin
              + (RealTime.catchUpDebt host curEmu rt - rt.maxCatchUpTime)) ∧
        RealTime.catchUpDebt host curEmu { rt with realOrigin := rt2.realOrigin }
          = rt.maxCatchUpTime) ∧
      (RealTime.catchUpDebt host curEmu rt < 0
          ∨ RealTime.catchUpDebt host curEmu rt ≤ rt.maxCatchUpTime →
        rt2.realOrigin = rt.realOrigin) := by
  have hsome : ∃ s, RealTime.sleepTime host curEmu rt = some s := by
    unfold RealTime.sleepTime intDiv
    by_cases hc : RealTime.catchingUpTooFast host curEmu rt = true
    · have h1 : ¬ (rt.maxCatchUpFactor = 0
          ∨ (wrapInt (100 * RealTime.emuPassed curEmu rt) = -2147483648
              ∧ rt.maxCatchUpFactor = -1)) := by omega
      simp [hc, h1]
    · simp [hc]
  obtain ⟨s, hs⟩ := hsome
  have hres : ∃ rt2 calls, RealTime.internalSync alpha host curEmu rt = some (rt2, calls) ∧
      rt2.realOrigin = RealTime.realOriginForDebt host curEmu rt := by
    simp [RealTime.internalSync, ht, hm, hs]
  obtain ⟨rt2, calls, h1, h2⟩ := hres
  refine ⟨rt2, calls, h1, ?_, ?_⟩
  · intro hd
    rw [h2]
    exact RealTime.catchUpDebt_realOriginForDebt host curEmu rt hmax hd
  · intro hd
    rw [h2]
    unfold RealTime.realOriginForDebt
    by_cases hneg : RealTime.catchUpDebt host curEmu rt < 0
    · rw [if_pos hneg]
    · rw [if_neg hneg, if_neg (by omega)]

theorem RealTime.internalSync_forgives_debt_witness :
    (RealTime.fresh 3).throttle = true ∧
    RealTime.meaningful ⟨50, 40⟩ 40 (RealTime.fresh 3) = true ∧
    0 < (RealTime.fresh 3).maxCatchUpFactor ∧ isInt (RealTime.fresh 3).maxCatchUpTime ∧
    (0 ≤ RealTime.catchUpDebt ⟨50, 40⟩ 40 (RealTime.fresh 3) ∧
      RealTime.catchUpDebt ⟨50, 40⟩ 40 (RealTime.fresh 3)
        > (RealTime.fresh 3).maxCatchUpTime) ∧
    (∃ rt2 calls, RealTime.internalSync (1 / 5) ⟨50, 40⟩ 40 (RealTime.fresh 3)
        = some (rt2, calls) ∧
      (0 ≤ RealTime.catchUpDebt ⟨50, 40⟩ 40 (RealTime.fresh 3)
          ∧ RealTime.catchUpDebt ⟨50, 40⟩ 40 (RealTime.fresh 3)
            > (RealTime.fresh 3).maxCatchUpTime →
        rt2.realOrigin
          = wrapUInt ((RealTime.fresh 3).realOrigin
              + (RealTime.catchUpDebt ⟨50, 40⟩ 40 (RealTime.fresh 3)
                  - (RealTime.fresh 3).maxCatchUpTime)) ∧
        RealTime.catchUpDebt ⟨50, 40⟩ 40 { RealTime.fresh 3 with realOrigin := rt2.realOrigin }
          = (RealTime.fresh 3).maxCatchUpTime) ∧
      (RealTime.catchUpDebt ⟨50, 40⟩ 40 (RealTime.fresh 3) < 0
          ∨ RealTime.catchUpDebt ⟨50, 40⟩ 40 (RealTime.fresh 3)
            ≤ (RealTime.fresh 3).maxCatchUpTime →
        rt2.realOrigin = (RealTime.fresh 3).realOrigin)) ∧
    (RealTime.internalSync (1 / 5) ⟨50, 40⟩ 40 (RealTime.fresh 3)).map
      (fun r => r.1.realOrigin) = some 7 :=
  ⟨by decide, by decide, by decide, by decide, by decide,
   RealTime.internalSync_forgives_debt (1 / 5) ⟨50, 40⟩ 40 (RealTime.fresh 3)
     (by decide) (by decide) (by decide) (by decide),
   by decide⟩

/-- C10 on the code: the pacer `behind`, sampled at real time 101 and
emulated time 115, has `realPassed = 1`, `emuPassed = 20` and
`catchUpDebt = -14`; the test
`maxCatchUpFactor*(sleep+realPassed) < 100*emuPassed` holds for `sleep = 14`
(`105 * 15 = 1575 < 2000`) and the sleep becomes `2000/105 - 1 = 18`, for
which the test still holds: `105 * (18 + 1) = 1995 < 2000`.  The quotient is
rounded down.  The state `behind` is reached from a fresh pacer by one call
of `internalSync`. -/
theorem RealTime.sleepTime_rounds_down :
    RealTime.behind.throttle = true ∧
    RealTime.meaningful ⟨101, 115⟩ 115 RealTime.behind = true ∧
    0 < RealTime.behind.maxCatchUpFactor ∧
    RealTime.realPassed ⟨101, 115⟩ RealTime.behind = 1 ∧
    RealTime.emuPassed 115 RealTime.behind = 20 ∧
    RealTime.sleepTime ⟨101, 115⟩ 115 RealTime.behind = some 18 ∧
    (RealTime.internalSync (1 / 5) ⟨100, 95⟩ 95 (RealTime.fresh 1000)).bind
      (fun r => RealTime.sleepTime ⟨101, 115⟩ 115 r.1) = some 18 ∧
    (RealTime.internalSync (1 / 5) ⟨101, 115⟩ 115 RealTime.behind).map (fun r => r.2)
      = some [RealTime.Effect.delay 18, RealTime.Effect.setSyncPoint 135] ∧
    ¬ (RealTime.behind.maxCatchUpFactor * (18 + RealTime.realPassed ⟨101, 115⟩ RealTime.behind)
        ≥ 100 * RealTime.emuPassed 115 RealTime.behind) := by
  decide

/-! ## The sleep value and the speed factor -/

theorem RealTime.sleepForDebt_nonneg (host : RealTime.Host) (curEmu : EmuTime) (rt : RealTime)
    (hmin : RealTime.catchUpDebt host curEmu rt ≠ -2147483648) :
    0 ≤ RealTime.sleepForDebt host curEmu rt := by
  have hge : -2147483648 ≤ RealTime.catchUpDebt host curEmu rt := by
    unfold RealTime.catchUpDebt wrapInt
    omega
  unfold RealTime.sleepForDebt
  by_cases hd : RealTime.catchUpDebt host curEmu rt < 0
  · rw [if_pos hd]
    unfold wrapInt
    omega
  · rw [if_neg hd]

theorem RealTime.meaningful_iff (host : RealTime.Host) (curEmu : EmuTime) (rt : RealTime) :
    RealTime.meaningful host curEmu rt = true ↔
      0 < RealTime.emuPassed curEmu rt ∧ 0 < RealTime.realPassed host rt := by
  simp [RealTime.meaningful]

theorem wrapInt_isInt (x : Int) : isInt (wrapInt x) := by
  unfold isInt wrapInt
  omega

theorem wrapInt_of_isInt (x : Int) (hx : isInt x) : wrapInt x = x := by
  unfold isInt at hx
  unfold wrapInt
  omega

theorem RealTime.sleepTime_some (host : RealTime.Host) (curEmu : EmuTime) (rt : RealTime)
    (hf : 0 < rt.maxCatchUpFactor) : ∃ s, RealTime.sleepTime host curEmu rt = some s := by
  unfold RealTime.sleepTime intDiv
  by_cases hc : RealTime.catchingUpTooFast host curEmu rt = true
  · have h1 : ¬ (rt.maxCatchUpFactor = 0
        ∨ (wrapInt (100 * RealTime.emuPassed curEmu rt) = -2147483648
            ∧ rt.maxCatchUpFactor = -1)) := by omega
    simp [hc, h1]
  · simp [hc]

theorem RealTime.sleepTime_of_inRange (host : RealTime.Host) (curEmu : EmuTime)
    (rt : RealTime) (hf : 0 < rt.maxCatchUpFactor)
    (hm : RealTime.meaningful host curEmu rt = true)
    (hmin : RealTime.catchUpDebt host curEmu rt ≠ -2147483648)
    (hsum : isInt (RealTime.sleepForDebt host curEmu rt + RealTime.realPassed host rt))
    (hprod : isInt (rt.maxCatchUpFactor
      * (RealTime.sleepForDebt host curEmu rt + RealTime.realPassed host rt))) :
    ∃ s, RealTime.sleepTime host curEmu rt = some s ∧ 0 ≤ s ∧
      0 < wrapInt (s + RealTime.realPassed host rt) := by
  have hs0 := RealTime.sleepForDebt_nonneg host curEmu rt hmin
  obtain ⟨hep, hrp⟩ := (RealTime.meaningful_iff host curEmu rt).1 hm
  by_cases hc : RealTime.catchingUpTooFast host curEmu rt = true
  · have hlt : rt.maxCatchUpFactor
          * (RealTime.sleepForDebt host curEmu rt + RealTime.realPassed host rt)
        < wrapInt (100 * RealTime.emuPassed curEmu rt) := by
      have h := hc
      unfold RealTime.catchingUpTooFast at h
      rw [wrapInt_of_isInt _ hsum, wrapInt_of_isInt _ hprod] at h
      simpa using h
    have hW := wrapInt_isInt (100 * RealTime.emuPassed curEmu rt)
    obtain ⟨W, hWeq⟩ : ∃ W, W = wrapInt (100 * RealTime.emuPassed curEmu rt) := ⟨_, rfl⟩
    rw [← hWeq] at hlt hW
    have hsumpos : 0 < RealTime.sleepForDebt host curEmu rt + RealTime.realPassed host rt := by
      omega
    have hWpos : 0 < W := lt_of_le_of_lt (le_of_lt (mul_pos hf hsumpos)) hlt
    have hq1 : RealTime.sleepForDebt host curEmu rt + RealTime.realPassed host rt
        ≤ W / rt.maxCatchUpFactor := by
      apply Int.le_ediv_of_mul_le hf
      rw [mul_comm]
      exact le_of_lt hlt
    have hq2 : W / rt.maxCatchUpFactor ≤ W := Int.ediv_le_self _ (le_of_lt hWpos)
    have hq3 : Int.tdiv W rt.maxCatchUpFactor = W / rt.maxCatchUpFactor :=
      Int.tdiv_eq_ediv (le_of_lt hWpos) (le_of_lt hf)
    refine ⟨W / rt.maxCatchUpFactor - RealTime.realPassed host rt, ?_, ?_, ?_⟩
    · have h1 : ¬ (rt.maxCatchUpFactor = 0
          ∨ (W = -2147483648 ∧ rt.maxCatchUpFactor = -1)) := by omega
      have hval : wrapInt (W / rt.maxCatchUpFactor - RealTime.realPassed host rt)
          = W / rt.maxCatchUpFactor - RealTime.realPassed host rt := by
        apply wrapInt_of_isInt
        unfold isInt at hW ⊢
        omega
      unfold RealTime.sleepTime intDiv
      rw [if_pos hc, ← hWeq, if_neg h1, hq3]
      simp [hval]
    · omega
    · have : W / rt.maxCatchUpFactor - RealTime.realPassed host rt + RealTime.realPassed host rt
          = W / rt.maxCatchUpFactor := by ring
      rw [this, wrapInt_of_isInt]
      · omega
      · unfold isInt at hW ⊢
        omega
  · refine ⟨RealTime.sleepForDebt host curEmu rt, ?_, hs0, ?_⟩
    · unfold RealTime.sleepTime
      simp [hc]
    · rw [wrapInt_of_isInt _ hsum]
      omega

theorem RealTime.internalSync_of_meaningful (alpha : ℚ) (host : RealTime.Host)
    (curEmu : EmuTime) (rt : RealTime) (ht : rt.throttle = true)
    (hm : RealTime.meaningful host curEmu rt = true) (s : Int)
    (hs : RealTime.sleepTime host curEmu rt = some s) :
    RealTime.internalSync alpha host curEmu rt
      = some ({ rt with
          catchUpTime := RealTime.catchUpDebt host curEmu rt
          realOrigin := RealTime.realOriginForDebt host curEmu rt
          factor := rt.factor * (1 - alpha)
            + (wrapInt (s + RealTime.realPassed host rt) : ℚ)
                / (RealTime.emuPassed curEmu rt : ℚ) * alpha
          realRef := wrapUInt (host.ticks + s)
          emuRef := curEmu },
        (if s > 0 then [RealTime.Effect.delay s] else [])
          ++ [RealTime.Effect.setSyncPoint (curEmu + rt.syncInterval)]) := by
  simp [RealTime.internalSync, ht, hm, hs]

theorem RealTime.internalSync_of_not_meaningful (alpha : ℚ) (host : RealTime.Host)
    (curEmu : EmuTime) (rt : RealTime) (ht : rt.throttle = true)
    (hm : RealTime.meaningful host curEmu rt = false) :
    RealTime.internalSync alpha host curEmu rt
      = some (rt, [RealTime.Effect.setSyncPoint (rt.emuRef + rt.syncInterval)]) := by
  simp [RealTime.internalSync, ht, hm]

theorem RealTime.internalSync_of_unthrottled (alpha : ℚ) (host : RealTime.Host)
    (curEmu : EmuTime) (rt : RealTime) (ht : rt.throttle = false) :
    RealTime.internalSync alpha host curEmu rt = some (RealTime.resetTiming host rt, []) := by
  simp [RealTime.internalSync, ht]

/-- C11, amended. With `maxCatchUpFactor > 0`, `internalSync` returns and
calls `SDL_Delay` only with a strictly positive duration; and on every meaningful
sample the final value of `sleep` is not negative, as long as the `int`
operations that lead to it do not overflow (`-catchUpTime`,
`sleep+realPassed` and `maxCatchUpFactor*(sleep+realPassed)`; signed overflow
is undefined in C++). -/
theorem RealTime.sleepTime_nonneg (alpha : ℚ) (host : RealTime.Host) (curEmu : EmuTime)
    (rt : RealTime) (hf : 0 < rt.maxCatchUpFactor) :
    (∃ r, RealTime.internalSync alpha host curEmu rt = some r ∧
      ∀ ms, RealTime.Effect.delay ms ∈ r.2 → 0 < ms) ∧
    (RealTime.meaningful host curEmu rt = true →
      RealTime.catchUpDebt host curEmu rt ≠ -2147483648 →
      isInt (RealTime.sleepForDebt host curEmu rt + RealTime.realPassed host rt) →
      isInt (rt.maxCatchUpFactor
        * (RealTime.sleepForDebt host curEmu rt + RealTime.realPassed host rt)) →
      ∃ s, RealTime.sleepTime host curEmu rt = some s ∧ 0 ≤ s) := by
  constructor
  · by_cases ht : rt.throttle = true
    · by_cases hm : RealTime.meaningful host curEmu rt = true
      · obtain ⟨s, hs⟩ := RealTime.sleepTime_some host curEmu rt hf
        refine ⟨_, RealTime.internalSync_of_meaningful alpha host curEmu rt ht hm s hs, ?_⟩
        intro ms hmem
        by_cases hpos : s > 0
        · simp [hpos] at hmem
          omega
        · simp [hpos] at hmem
      · have hm2 : RealTime.meaningful host curEmu rt = false := by simpa using hm
        refine ⟨_, RealTime.internalSync_of_not_meaningful alpha host curEmu rt ht hm2, ?_⟩
        intro ms hmem
        simp at hmem
    · have ht2 : rt.throttle = false := by simpa using ht
      refine ⟨_, RealTime.internalSync_of_unthrottled alpha host curEmu rt ht2, ?_⟩
      intro ms hmem
      simp at hmem
  · intro hm hmin hsum hprod
    obtain ⟨s, hs, h0, _⟩ :=
      RealTime.sleepTime_of_inRange host curEmu rt hf hm hmin hsum hprod
    exact ⟨s, hs, h0⟩

theorem RealTime.sleepTime_nonneg_witness :
    0 < RealTime.behind.maxCatchUpFactor ∧
    (∃ r, RealTime.internalSync (1 / 5) ⟨101, 115⟩ 115 RealTime.behind = some r ∧
      ∀ ms, RealTime.Effect.delay ms ∈ r.2 → 0 < ms) ∧
    (RealTime.meaningful ⟨101, 115⟩ 115 RealTime.behind = true ∧
      RealTime.catchUpDebt ⟨101, 115⟩ 115 RealTime.behind ≠ -2147483648 ∧
      isInt (RealTime.sleepForDebt ⟨101, 115⟩ 115 RealTime.behind
        + RealTime.realPassed ⟨101, 115⟩ RealTime.behind) ∧
      isInt (RealTime.behind.maxCatchUpFactor
        * (RealTime.sleepForDebt ⟨101, 115⟩ 115 RealTime.behind
          + RealTime.realPassed ⟨101, 115⟩ RealTime.behind))) ∧
    (∃ s, RealTime.sleepTime ⟨101, 115⟩ 115 RealTime.behind = some s ∧ 0 ≤ s) ∧
    RealTime.sleepTime ⟨101, 115⟩ 115 RealTime.behind = some 18 :=
  ⟨by decide,
   (RealTime.sleepTime_nonneg (1 / 5) ⟨101, 115⟩ 115 RealTime.behind (by decide)).1,
   by decide,
   (RealTime.sleepTime_nonneg (1 / 5) ⟨101, 115⟩ 115 RealTime.behind (by decide)).2
     (by decide) (by decide) (by decide) (by decide),
   by decide⟩

/-- C12, amended. The speed factor stays strictly positive (`factor` taken as
an exact rational): `resetTiming` sets it to 1, and for `0 ≤ alpha ≤ 1` and
`maxCatchUpFactor > 0` a positive `factor` is positive again after
`internalSync`.  On a meaningful sample the sampled ratio
`(sleep + realPassed) / emuPassed` is strictly positive, as long as the `int`
operations that lead to `sleep` do not overflow. -/
theorem RealTime.factor_pos (alpha : ℚ) (host : RealTime.Host) (curEmu : EmuTime)
    (rt : RealTime) (ha : 0 ≤ alpha ∧ alpha ≤ 1) (hf : 0 < rt.maxCatchUpFactor)
    (hpos : 0 < rt.factor)
    (hno : rt.throttle = true → RealTime.meaningful host curEmu rt = true →
      RealTime.catchUpDebt host curEmu rt ≠ -2147483648 ∧
      isInt (RealTime.sleepForDebt host curEmu rt + RealTime.realPassed host rt) ∧
      isInt (rt.maxCatchUpFactor
        * (RealTime.sleepForDebt host curEmu rt + RealTime.realPassed host rt))) :
    (RealTime.resetTiming host rt).factor = 1 ∧
    (∃ r, RealTime.internalSync alpha host curEmu rt = some r ∧ 0 < r.1.factor) ∧
    (rt.throttle = true → RealTime.meaningful host curEmu rt = true →
      ∃ s, RealTime.sleepTime host curEmu rt = some s ∧
        0 < (wrapInt (s + RealTime.realPassed host rt) : ℚ)
          / (RealTime.emuPassed curEmu rt : ℚ)) := by
  have hratio : rt.throttle = true → RealTime.meaningful host curEmu rt = true →
      ∃ s, RealTime.sleepTime host curEmu rt = some s ∧
        0 < (wrapInt (s + RealTime.realPassed host rt) : ℚ)
          / (RealTime.emuPassed curEmu rt : ℚ) := by
    intro ht hm
    obtain ⟨hmin, hsum, hprod⟩ := hno ht hm
    obtain ⟨s, hs, _, hnum⟩ :=
      RealTime.sleepTime_of_inRange host curEmu rt hf hm hmin hsum hprod
    obtain ⟨hep, _⟩ := (RealTime.meaningful_iff host curEmu rt).1 hm
    refine ⟨s, hs, ?_⟩
    apply div_pos
    · exact_mod_cast hnum
    · exact_mod_cast hep
  refine ⟨rfl, ?_, hratio⟩
  by_cases ht : rt.throttle = true
  · by_cases hm : RealTime.meaningful host curEmu rt = true
    · obtain ⟨s, hs, hc⟩ := hratio ht hm
      refine ⟨_, RealTime.internalSync_of_meaningful alpha host curEmu rt ht hm s hs, ?_⟩
      show 0 < rt.factor * (1 - alpha)
        + (wrapInt (s + RealTime.realPassed host rt) : ℚ)
            / (RealTime.emuPassed curEmu rt : ℚ) * alpha
      by_cases h1 : alpha = 1
      · rw [h1]
        simpa using hc
      · have h2 : 0 < 1 - alpha := by
          have : alpha < 1 := lt_of_le_of_ne ha.2 h1
          linarith
        have h3 : 0 < rt.factor * (1 - alpha) := mul_pos hpos h2
        have h4 : 0 ≤ (wrapInt (s + RealTime.realPassed host rt) : ℚ)
            / (RealTime.emuPassed curEmu rt : ℚ) * alpha :=
          mul_nonneg (le_of_lt hc) ha.1
        linarith
    · have hm2 : RealTime.meaningful host curEmu rt = false := by simpa using hm
      exact ⟨_, RealTime.internalSync_of_not_meaningful alpha host curEmu rt ht hm2, hpos⟩
  · have ht2 : rt.throttle = false := by simpa using ht
    refine ⟨_, RealTime.internalSync_of_unthrottled alpha host curEmu rt ht2, ?_⟩
    show 0 < (RealTime.resetTiming host rt).factor
    simp [RealTime.resetTiming]

theorem RealTime.factor_pos_witness :
    (((0 : ℚ) ≤ 1 / 5 ∧ (1 / 5 : ℚ) ≤ 1) ∧ 0 < RealTime.behind.maxCatchUpFactor ∧
      0 < RealTime.behind.factor) ∧
    (RealTime.resetTiming ⟨101, 115⟩ RealTime.behind).factor = 1 ∧
    (∃ r, RealTime.internalSync (1 / 5) ⟨101, 115⟩ 115 RealTime.behind = some r ∧
      0 < r.1.factor) ∧
    (RealTime.behind.throttle = true →
      RealTime.meaningful ⟨101, 115⟩ 115 RealTime.behind = true →
      ∃ s, RealTime.sleepTime ⟨101, 115⟩ 115 RealTime.behind = some s ∧
        0 < (wrapInt (s + RealTime.realPassed ⟨101, 115⟩ RealTime.behind) : ℚ)
          / (RealTime.emuPassed 115 RealTime.behind : ℚ)) :=
  ⟨⟨by norm_num, by decide, by norm_num [RealTime.behind]⟩,
   RealTime.factor_pos (1 / 5) ⟨101, 115⟩ 115 RealTime.behind (by norm_num) (by decide)
     (by norm_num [RealTime.behind]) (by decide)⟩

/-! ## The sync point of the pacer -/

theorem Scheduler.mem_setSyncPoint (time : EmuTime) (owner : Nat) (token : Int)
    (s : Scheduler) :
    ({ dueTime := time, owner := owner, token := token } : SyncPoint)
      ∈ (s.setSyncPoint time owner token).pending := by
  simp [Scheduler.setSyncPoint]

/-- C13. With throttle on, a sample that is not meaningful (`emuPassed ≤ 0`
or `realPassed ≤ 0`) leaves the whole pacer state as it was (in particular
`realRef`, `emuRef`, `realOrigin`, `emuOrigin` and `factor`), makes no call of
`SDL_Delay`, and re-arms the sync point at `emuRef + syncInterval`: that is
the only call made, and after a fire the scheduler holds that entry. -/
theorem RealTime.internalSync_not_meaningful (alpha : ℚ) (host : RealTime.Host)
    (curEmu : EmuTime) (rt : RealTime) (ht : rt.throttle = true)
    (hm : RealTime.emuPassed curEmu rt ≤ 0 ∨ RealTime.realPassed host rt ≤ 0) :
    RealTime.internalSync alpha host curEmu rt
      = some (rt, [RealTime.Effect.setSyncPoint (rt.emuRef + rt.syncInterval)]) ∧
    ∀ (w : RealTime.World) (userData : Int), w.rt = rt →
      ∃ w2, RealTime.executeUntilEmuTime alpha host curEmu userData w = some w2 ∧
        w2.rt = rt ∧ w2.delays = w.delays ∧
        ({ dueTime := rt.emuRef + rt.syncInterval, owner := RealTime.owner,
           token := RealTime.defaultToken } : SyncPoint) ∈ w2.scheduler.pending := by
  have hm2 : RealTime.meaningful host curEmu rt = false := by
    rw [← Bool.not_eq_true, RealTime.meaningful_iff]
    omega
  have h1 := RealTime.internalSync_of_not_meaningful alpha host curEmu rt ht hm2
  refine ⟨h1, ?_⟩
  intro w userData hw
  subst hw
  have h2 : RealTime.executeUntilEmuTime alpha host curEmu userData w
      = some (RealTime.perform w
          [RealTime.Effect.setSyncPoint (w.rt.emuRef + w.rt.syncInterval)]) := by
    simp [RealTime.executeUntilEmuTime, h1]
  refine ⟨_, h2, rfl, rfl, ?_⟩
  exact Scheduler.mem_setSyncPoint _ _ _ _

/-- Scenario E of C13: a pacer with throttle on, normal speed and
`syncInterval = 1000` that fires with no real and no emulated time elapsed
does not sleep and re-arms at reference + 1000. -/
theorem RealTime.internalSync_not_meaningful_witness :
    (RealTime.started.rt.throttle = true ∧
      (RealTime.emuPassed 7000 RealTime.started.rt ≤ 0
        ∨ RealTime.realPassed ⟨500, 7000⟩ RealTime.started.rt ≤ 0)) ∧
    (RealTime.internalSync (1 / 5) ⟨500, 7000⟩ 7000 RealTime.started.rt
        = some (RealTime.started.rt,
            [RealTime.Effect.setSyncPoint
              (RealTime.started.rt.emuRef + RealTime.started.rt.syncInterval)]) ∧
      ∀ (w : RealTime.World) (userData : Int), w.rt = RealTime.started.rt →
        ∃ w2, RealTime.executeUntilEmuTime (1 / 5) ⟨500, 7000⟩ 7000 userData w = some w2 ∧
          w2.rt = RealTime.started.rt ∧ w2.delays = w.delays ∧
          ({ dueTime := RealTime.started.rt.emuRef + RealTime.started.rt.syncInterval,
             owner := RealTime.owner, token := RealTime.defaultToken } : SyncPoint)
            ∈ w2.scheduler.pending) ∧
    RealTime.started.rt.emuRef = 7000 ∧
    RealTime.started.rt.emuRef + RealTime.started.rt.syncInterval = 8000 ∧
    RealTime.started.rt.speed = 256 :=
  ⟨⟨by decide, by decide⟩,
   RealTime.internalSync_not_meaningful (1 / 5) ⟨500, 7000⟩ 7000 RealTime.started.rt
     (by decide) (by decide),
   by decide, by decide, by decide⟩

/-- C14. On a meaningful sample with throttle on, every return of
`internalSync` leaves `realRef = curReal + sleep` (as `unsigned int`, for the
final value of `sleep`), `emuRef = curEmu` and `emuOrigin` unchanged, and the
last call made is the re-arming of the sync point at `curEmu + syncInterval`,
preceded only by `SDL_Delay(sleep)` when `sleep > 0`.  With
`maxCatchUpFactor > 0` the call does return. -/
theorem RealTime.internalSync_meaningful (alpha : ℚ) (host : RealTime.Host)
    (curEmu : EmuTime) (rt : RealTime) (ht : rt.throttle = true)
    (hm : RealTime.meaningful host curEmu rt = true) :
    (∀ r, RealTime.internalSync alpha host curEmu rt = some r →
      ∃ sleep, RealTime.sleepTime host curEmu rt = some sleep ∧
        r.1.realRef = wrapUInt (host.ticks + sleep) ∧
        r.1.emuRef = curEmu ∧
        r.1.emuOrigin = rt.emuOrigin ∧
        r.2 = (if sleep > 0 then [RealTime.Effect.delay sleep] else [])
          ++ [RealTime.Effect.setSyncPoint (curEmu + rt.syncInterval)]) ∧
    (0 < rt.maxCatchUpFactor → ∃ r, RealTime.internalSync alpha host curEmu rt = some r) := by
  constructor
  · intro r hr
    cases hs : RealTime.sleepTime host curEmu rt with
    | none => simp [RealTime.internalSync, ht, hm, hs] at hr
    | some s =>
      rw [RealTime.internalSync_of_meaningful alpha host curEmu rt ht hm s hs] at hr
      have hr2 := Option.some.inj hr
      subst hr2
      exact ⟨s, rfl, rfl, rfl, rfl, rfl⟩
  · intro hf
    obtain ⟨s, hs⟩ := RealTime.sleepTime_some host curEmu rt hf
    exact ⟨_, RealTime.internalSync_of_meaningful alpha host curEmu rt ht hm s hs⟩

theorem RealTime.internalSync_meaningful_witness :
    (RealTime.behind.throttle = true ∧
      RealTime.meaningful ⟨101, 115⟩ 115 RealTime.behind = true) ∧
    ((∀ r, RealTime.internalSync (1 / 5) ⟨101, 115⟩ 115 RealTime.behind = some r →
      ∃ sleep, RealTime.sleepTime ⟨101, 115⟩ 115 RealTime.behind = some sleep ∧
        r.1.realRef = wrapUInt ((⟨101, 115⟩ : RealTime.Host).ticks + sleep) ∧
        r.1.emuRef = 115 ∧
        r.1.emuOrigin = RealTime.behind.emuOrigin ∧
        r.2 = (if sleep > 0 then [RealTime.Effect.delay sleep] else [])
          ++ [RealTime.Effect.setSyncPoint (115 + RealTime.behind.syncInterval)]) ∧
    (0 < RealTime.behind.maxCatchUpFactor →
      ∃ r, RealTime.internalSync (1 / 5) ⟨101, 115⟩ 115 RealTime.behind = some r)) ∧
    (RealTime.internalSync (1 / 5) ⟨101, 115⟩ 115 RealTime.behind).map
      (fun r => (r.1.realRef, r.1.emuRef, r.1.emuOrigin, r.2))
      = some (119, 115, 0,
          [RealTime.Effect.delay 18, RealTime.Effect.setSyncPoint 135]) :=
  ⟨⟨by decide, by decide⟩,
   RealTime.internalSync_meaningful (1 / 5) ⟨101, 115⟩ 115 RealTime.behind
     (by decide) (by decide),
   by decide⟩

/-- C15, as stated, fails: the constructor schedules the sync point at
`emuRef + syncInterval`, and with throttle on a fire re-arms it; but with
throttle off `internalSync` resets the timing references and returns, as
specified, before `setSyncPoint`, so that after a fire, and after an explicit
`sync()`, the scheduler holds no sync point of the pacer. -/
theorem RealTime.unthrottled_not_rearmed :
    RealTime.started.scheduler.pending
      = [{ dueTime := RealTime.started.rt.emuRef + RealTime.started.rt.syncInterval,
           owner := RealTime.owner, token := RealTime.defaultToken }] ∧
    (RealTime.fire (1 / 5) ⟨1500, 8000⟩ ⟨8000, RealTime.owner, RealTime.defaultToken⟩
        RealTime.started).map (fun w => w.scheduler.pending)
      = some [⟨9000, RealTime.owner, RealTime.defaultToken⟩] ∧
    (RealTime.ThrottleCmd.execute ["throttle", "off"] RealTime.started).rt.throttle = false ∧
    (RealTime.fire (1 / 5) ⟨1500, 8000⟩ ⟨8000, RealTime.owner, RealTime.defaultToken⟩
        (RealTime.ThrottleCmd.execute ["throttle", "off"] RealTime.started)).map
      (fun w => w.scheduler.pending) = some [] ∧
    (RealTime.sync (1 / 5) ⟨900, 7400⟩
        (RealTime.ThrottleCmd.execute ["throttle", "off"] RealTime.started)).map
      (fun w => w.scheduler.pending) = some [] := by
  decide

/-! ## The commands of the pacer -/

theorem speed_round_trip_arith (n : Int) (hn : 0 < n)
    (hq : Int.tdiv 25600 n ≠ Int.tdiv 25600 (n + 1)) :
    Int.tdiv 25600 n ≠ 0 ∧ Int.tdiv 25600 (Int.tdiv 25600 n) = n := by
  rw [Int.tdiv_eq_ediv (by decide) (le_of_lt hn),
    Int.tdiv_eq_ediv (by decide) (by omega)] at hq
  rw [Int.tdiv_eq_ediv (by decide) (le_of_lt hn)]
  have hn1 : (0 : Int) < n + 1 := by omega
  have h1 : 25600 / n * n ≤ 25600 := Int.ediv_mul_le _ (by omega)
  have h3 : 25600 / (n + 1) * (n + 1) ≤ 25600 := Int.ediv_mul_le _ (by omega)
  have h4 : (25600 : Int) < (25600 / (n + 1) + 1) * (n + 1) :=
    Int.lt_ediv_add_one_mul_self _ hn1
  have h5 : (0 : Int) ≤ 25600 / (n + 1) := Int.ediv_nonneg (by decide) (by omega)
  have h6 : 25600 / (n + 1) ≤ 25600 / n := by
    apply (Int.le_ediv_iff_mul_le hn).2
    nlinarith
  have h7 : 25600 / (n + 1) + 1 ≤ 25600 / n := by omega
  have h8 : (25600 : Int) < (n + 1) * (25600 / n) := by nlinarith
  have hqpos : (0 : Int) < 25600 / n := by omega
  refine ⟨by omega, ?_⟩
  rw [Int.tdiv_eq_ediv (by decide) (le_of_lt hqpos)]
  have h9 : n ≤ 25600 / (25600 / n) := by
    apply (Int.le_ediv_iff_mul_le hqpos).2
    rw [mul_comm]
    exact h1
  have h10 : 25600 / (25600 / n) < n + 1 := (Int.ediv_lt_iff_lt_mul hqpos).2 h8
  omega

/-- C16, as stated, fails: after `speed 300` the stored value is
`25600/300 = 85`, and the query reports `25600/85 = 301`. -/
theorem RealTime.SpeedCmd.round_trip_300 :
    ((RealTime.SpeedCmd.execute (fun _ => 300) ⟨500, 7000⟩ ["speed", "300"]
        RealTime.started).bind
      (fun w => RealTime.SpeedCmd.execute (fun _ => 300) ⟨500, 7000⟩ ["speed"] w)).map
      (fun w => w.console) = some ["Current speed: 301"] := by
  decide

/-- C16, amended. For every `n > 0` for which the integer quotients `25600/n`
and `25600/(n+1)` differ (every `n` from 1 to 159 is such), the query after
`speed n` reports `n`; a freshly constructed pacer reports 100. -/
theorem RealTime.SpeedCmd.round_trip (strtol : String → Int) (host host2 : RealTime.Host)
    (cmd cmd2 arg : String) (n : Int) (w : RealTime.World)
    (hparse : strtol arg = n) (hn : 0 < n)
    (hq : Int.tdiv 25600 n ≠ Int.tdiv 25600 (n + 1)) :
    (∃ w1, RealTime.SpeedCmd.execute strtol host [cmd, arg] w = some w1 ∧
      w1.console = w.console ∧
      RealTime.SpeedCmd.execute strtol host2 [cmd2] w1
        = some (RealTime.print ("Current speed: " ++ toString n) w1)) ∧
    (∀ m : Int, 0 < m → m ≤ 159 → Int.tdiv 25600 m ≠ Int.tdiv 25600 (m + 1)) ∧
    (∀ (syncInterval maxCatchUpTime maxCatchUpFactor catchUpTime : Int)
        (scheduler : Scheduler),
      RealTime.SpeedCmd.execute strtol host2 [cmd2]
          (RealTime.construct syncInterval maxCatchUpTime maxCatchUpFactor catchUpTime host
            scheduler)
        = some (RealTime.print ("Current speed: " ++ toString (100 : Int))
            (RealTime.construct syncInterval maxCatchUpTime maxCatchUpFactor catchUpTime host
              scheduler))) := by
  obtain ⟨hne, hrt⟩ := speed_round_trip_arith n hn hq
  refine ⟨?_, ?_, ?_⟩
  · refine ⟨{ w with rt := (RealTime.resetTiming host
        { w.rt with speed := Int.tdiv 25600 n }) }, ?_, rfl, ?_⟩
    · simp [RealTime.SpeedCmd.execute, hparse, hn]
    · have h1 : ¬ (Int.tdiv 25600 n = 0 ∨ ((25600 : Int) = -2147483648
          ∧ Int.tdiv 25600 n = -1)) := by omega
      simp only [RealTime.SpeedCmd.execute, RealTime.resetTiming, intDiv]
      rw [if_neg h1, hrt]
      rfl
  · intro m hm0 hm1
    interval_cases m <;> decide
  · intro syncInterval maxCatchUpTime maxCatchUpFactor catchUpTime scheduler
    rfl

theorem RealTime.SpeedCmd.round_trip_witness :
    ((fun _ => 50 : String → Int) "50" = 50 ∧ (0 : Int) < 50 ∧
      Int.tdiv 25600 50 ≠ Int.tdiv 25600 (50 + 1)) ∧
    ((∃ w1, RealTime.SpeedCmd.execute (fun _ => 50) ⟨500, 7000⟩ ["speed", "50"]
          RealTime.started = some w1 ∧
        w1.console = RealTime.started.console ∧
        RealTime.SpeedCmd.execute (fun _ => 50) ⟨900, 7400⟩ ["speed"] w1
          = some (RealTime.print ("Current speed: " ++ toString (50 : Int)) w1)) ∧
      (∀ m : Int, 0 < m → m ≤ 159 → Int.tdiv 25600 m ≠ Int.tdiv 25600 (m + 1)) ∧
      (∀ (syncInterval maxCatchUpTime maxCatchUpFactor catchUpTime : Int)
          (scheduler : Scheduler),
        RealTime.SpeedCmd.execute (fun _ => 50) ⟨900, 7400⟩ ["speed"]
            (RealTime.construct syncInterval maxCatchUpTime maxCatchUpFactor catchUpTime
              ⟨500, 7000⟩ scheduler)
          = some (RealTime.print ("Current speed: " ++ toString (100 : Int))
              (RealTime.construct syncInterval maxCatchUpTime maxCatchUpFactor catchUpTime
                ⟨500, 7000⟩ scheduler)))) ∧
    ((RealTime.SpeedCmd.execute (fun _ => 50) ⟨500, 7000⟩ ["speed", "50"]
        RealTime.started).bind
      (fun w => RealTime.SpeedCmd.execute (fun _ => 50) ⟨900, 7400⟩ ["speed"] w)).map
      (fun w => w.console) = some ["Current speed: 50"] :=
  ⟨⟨rfl, by decide, by decide⟩,
   RealTime.SpeedCmd.round_trip (fun _ => 50) ⟨500, 7000⟩ ⟨900, 7400⟩ "speed" "speed" "50" 50
     RealTime.started rfl (by decide) (by decide),
   by decide⟩

/-! ## The argument of the command `speed` -/

/-- C18. `pause` without argument flips the paused state of the scheduler,
`pause on` leaves it paused and `pause off` unpaused; every execution that
unpauses resets the timing references of the pacer (`realRef = realOrigin` is
the current real time, `emuRef = emuOrigin` the time of the CPU,
`factor = 1`); every other token list only prints `Syntax error`. -/
theorem RealTime.PauseCmd.pause_spec (host : RealTime.Host) (cmd : String)
    (tokens : List String) (w : RealTime.World) :
    (RealTime.PauseCmd.execute host [cmd] w).scheduler.isPaused
      = !w.scheduler.isPaused ∧
    (RealTime.PauseCmd.execute host [cmd, "on"] w).scheduler.isPaused = true ∧
    (RealTime.PauseCmd.execute host [cmd, "off"] w).scheduler.isPaused = false ∧
    (w.scheduler.isPaused = true →
      (RealTime.PauseCmd.execute host [cmd] w).rt = RealTime.resetTiming host w.rt) ∧
    (RealTime.PauseCmd.execute host [cmd, "off"] w).rt = RealTime.resetTiming host w.rt ∧
    ((RealTime.resetTiming host w.rt).realRef = host.ticks ∧
      (RealTime.resetTiming host w.rt).realOrigin = host.ticks ∧
      (RealTime.resetTiming host w.rt).emuRef = host.cpuTime ∧
      (RealTime.resetTiming host w.rt).emuOrigin = host.cpuTime ∧
      (RealTime.resetTiming host w.rt).factor = 1) ∧
    (tokens.length ≠ 1 →
      (∀ c arg : String, tokens = [c, arg] → arg ≠ "on" ∧ arg ≠ "off") →
      RealTime.PauseCmd.execute host tokens w
        = { w with console := w.console ++ ["Syntax error"] }) := by
  refine ⟨?_, ?_, ?_, ?_, ?_, ⟨rfl, rfl, rfl, rfl, rfl⟩, ?_⟩
  · unfold RealTime.PauseCmd.execute
    cases hp : w.scheduler.paused with
    | true => simp [hp, Scheduler.isPaused, Scheduler.unpause]
    | false => simp [hp, Scheduler.isPaused, Scheduler.pause]
  · simp [RealTime.PauseCmd.execute, Scheduler.isPaused, Scheduler.pause]
  · simp [RealTime.PauseCmd.execute, Scheduler.isPaused, Scheduler.unpause]
  · intro hp
    simp [RealTime.PauseCmd.execute, hp]
  · simp [RealTime.PauseCmd.execute]
  · intro h1 h2
    match tokens, h1, h2 with
    | [], _, _ => rfl
    | [_], h1, _ => exact absurd rfl h1
    | [c, arg], _, h2 =>
      obtain ⟨hon, hoff⟩ := h2 c arg rfl
      simp [RealTime.PauseCmd.execute, hon, hoff, RealTime.print]
    | _ :: _ :: _ :: _, _, _ => rfl

theorem RealTime.PauseCmd.pause_spec_witness :
    ((RealTime.PauseCmd.execute ⟨900, 7400⟩ ["pause"] RealTime.started).scheduler.isPaused
        = true ∧
      ((["pause", "maybe"] : List String).length ≠ 1 ∧
        ∀ c arg : String, (["pause", "maybe"] : List String) = [c, arg] →
          arg ≠ "on" ∧ arg ≠ "off")) ∧
    (RealTime.PauseCmd.execute ⟨950, 7400⟩ ["pause"]
        (RealTime.PauseCmd.execute ⟨900, 7400⟩ ["pause"] RealTime.started)).rt
      = RealTime.resetTiming ⟨950, 7400⟩
          (RealTime.PauseCmd.execute ⟨900, 7400⟩ ["pause"] RealTime.started).rt ∧
    RealTime.PauseCmd.execute ⟨900, 7400⟩ ["pause", "maybe"] RealTime.started
      = { RealTime.started with console := RealTime.started.console ++ ["Syntax error"] } :=
  ⟨⟨by decide, by decide, by
      intro c arg h
      simp only [List.cons.injEq, and_true] at h
      obtain ⟨_, h2⟩ := h
      subst h2
      decide⟩,
   (RealTime.PauseCmd.pause_spec ⟨950, 7400⟩ "pause" []
     (RealTime.PauseCmd.execute ⟨900, 7400⟩ ["pause"] RealTime.started)).2.2.2.1 (by decide),
   (RealTime.PauseCmd.pause_spec ⟨900, 7400⟩ "pause" ["pause", "maybe"]
     RealTime.started).2.2.2.2.2.2 (by decide) (by
      intro c arg h
      simp only [List.cons.injEq, and_true] at h
      obtain ⟨_, h2⟩ := h
      subst h2
      decide)⟩

/-- C19. `throttle` without argument negates the throttle flag (two toggles
restore it), `throttle on` sets it and `throttle off` clears it whatever it
was; every other token list only prints `Syntax error` and leaves the flag as
it was. -/
theorem RealTime.ThrottleCmd.throttle_spec (cmd : String) (tokens : List String)
    (w : RealTime.World) :
    (RealTime.ThrottleCmd.execute [cmd] w).rt.throttle = !w.rt.throttle ∧
    (RealTime.ThrottleCmd.execute [cmd] (RealTime.ThrottleCmd.execute [cmd] w)).rt.throttle
      = w.rt.throttle ∧
    (RealTime.ThrottleCmd.execute [cmd, "on"] w).rt.throttle = true ∧
    (RealTime.ThrottleCmd.execute [cmd, "off"] w).rt.throttle = false ∧
    (tokens.length ≠ 1 →
      (∀ c arg : String, tokens = [c, arg] → arg ≠ "on" ∧ arg ≠ "off") →
      RealTime.ThrottleCmd.execute tokens w
        = { w with console := w.console ++ ["Syntax error"] }) := by
  refine ⟨rfl, ?_, ?_, ?_, ?_⟩
  · simp [RealTime.ThrottleCmd.execute]
  · simp [RealTime.ThrottleCmd.execute]
  · simp [RealTime.ThrottleCmd.execute]
  · intro h1 h2
    match tokens, h1, h2 with
    | [], _, _ => rfl
    | [_], h1, _ => exact absurd rfl h1
    | [c, arg], _, h2 =>
      obtain ⟨hon, hoff⟩ := h2 c arg rfl
      simp [RealTime.ThrottleCmd.execute, hon, hoff, RealTime.print]
    | _ :: _ :: _ :: _, _, _ => rfl

theorem RealTime.ThrottleCmd.throttle_spec_witness :
    ((["throttle", "on", "off"] : List String).length ≠ 1 ∧
      ∀ c arg : String, (["throttle", "on", "off"] : List String) = [c, arg] →
        arg ≠ "on" ∧ arg ≠ "off") ∧
    RealTime.ThrottleCmd.execute ["throttle", "on", "off"] RealTime.started
      = { RealTime.started with console := RealTime.started.console ++ ["Syntax error"] } ∧
    (RealTime.ThrottleCmd.execute ["throttle"] RealTime.started).rt.throttle = false :=
  ⟨⟨by decide, by
      intro c arg h
      simp at h⟩,
   (RealTime.ThrottleCmd.throttle_spec "throttle" ["throttle", "on", "off"]
     RealTime.started).2.2.2.2 (by decide) (by
      intro c arg h
      simp at h),
   by decide⟩

/-! ## The event distributor -/

theorem ListenerMap.mem_insert (type : Int) (listener : Nat) (m : ListenerMap)
    (b : Int × Nat) :
    b ∈ ListenerMap.insert type listener m ↔ b = (type, listener) ∨ b ∈ m := by
  have h : b ∈ m ↔ b ∈ m.takeWhile (fun p => decide (p.1 ≤ type))
      ∨ b ∈ m.dropWhile (fun p => decide (p.1 ≤ type)) := by
    rw [← List.mem_append, List.takeWhile_append_dropWhile]
  unfold ListenerMap.insert
  rw [List.mem_append, List.mem_cons, h]
  tauto

theorem ListenerMap.insert_cons_of_le (type : Int) (listener : Nat) (a : Int × Nat)
    (m : ListenerMap) (h : a.1 ≤ type) :
    ListenerMap.insert type listener (a :: m) = a :: ListenerMap.insert type listener m := by
  simp [ListenerMap.insert, h]

theorem ListenerMap.insert_cons_of_lt (type : Int) (listener : Nat) (a : Int × Nat)
    (m : ListenerMap) (h : type < a.1) :
    ListenerMap.insert type listener (a :: m) = (type, listener) :: a :: m := by
  have h2 : ¬ a.1 ≤ type := by omega
  simp [ListenerMap.insert, h2]

theorem ListenerMap.insert_sorted (type : Int) (listener : Nat) (m : ListenerMap)
    (hs : m.Pairwise (fun a b => a.1 ≤ b.1)) :
    (ListenerMap.insert type listener m).Pairwise (fun a b => a.1 ≤ b.1) := by
  induction m with
  | nil => simp [ListenerMap.insert]
  | cons a m ih =>
    rw [List.pairwise_cons] at hs
    by_cases h : a.1 ≤ type
    · rw [ListenerMap.insert_cons_of_le type listener a m h, List.pairwise_cons]
      refine ⟨?_, ih hs.2⟩
      intro b hb
      rcases (ListenerMap.mem_insert type listener m b).1 hb with hb1 | hb1
      · rw [hb1]
        exact h
      · exact hs.1 b hb1
    · rw [ListenerMap.insert_cons_of_lt type listener a m (by omega), List.pairwise_cons]
      refine ⟨?_, List.pairwise_cons.2 hs⟩
      intro b hb
      rcases List.mem_cons.1 hb with hb1 | hb1
      · rw [hb1]
        show type ≤ a.1
        omega
      · have := hs.1 b hb1
        show type ≤ b.1
        omega

theorem ListenerMap.filter_eq_nil_of_lt (t : Int) (m : ListenerMap)
    (h : ∀ b ∈ m, t < b.1) : m.filter (fun p => p.1 == t) = [] := by
  rw [List.filter_eq_nil_iff]
  intro b hb
  have := h b hb
  simp
  omega

theorem ListenerMap.takeWhile_eq_filter (t : Int) (m : ListenerMap)
    (hs : m.Pairwise (fun a b => a.1 ≤ b.1)) (hge : ∀ b ∈ m, t ≤ b.1) :
    m.takeWhile (fun p => p.1 == t) = m.filter (fun p => p.1 == t) := by
  induction m with
  | nil => rfl
  | cons a m ih =>
    rw [List.pairwise_cons] at hs
    by_cases h : a.1 = t
    · have h2 : (a.1 == t) = true := by simp [h]
      rw [List.takeWhile_cons, List.filter_cons]
      simp only [h2, if_true]
      rw [ih hs.2 (fun b hb => hge b (List.mem_cons_of_mem a hb))]
    · have h2 : ¬ ((a.1 == t) = true) := by simp [h]
      have h3 : t < a.1 := by
        have := hge a (List.mem_cons_self a m)
        omega
      rw [List.takeWhile_cons, List.filter_cons,
        ListenerMap.filter_eq_nil_of_lt t m (fun b hb => lt_of_lt_of_le h3 (hs.1 b hb))]
      simp [h2]

theorem ListenerMap.visited_eq_filter (t : Int) (m : ListenerMap)
    (hs : m.Pairwise (fun a b => a.1 ≤ b.1)) :
    ListenerMap.visited t m = m.filter (fun p => p.1 == t) := by
  induction m with
  | nil => rfl
  | cons a m ih =>
    have hs2 := hs
    rw [List.pairwise_cons] at hs2
    by_cases h : a.1 < t
    · have h2 : ¬ ((a.1 == t) = true) := by
        simp
        omega
      have h3 : ListenerMap.visited t (a :: m) = ListenerMap.visited t m := by
        simp [ListenerMap.visited, ListenerMap.lowerBound, h]
      rw [h3, List.filter_cons]
      simp only [h2, if_false]
      exact ih hs2.2
    · have h3 : ListenerMap.visited t (a :: m)
          = (a :: m).takeWhile (fun p => p.1 == t) := by
        simp [ListenerMap.visited, ListenerMap.lowerBound, h]
      rw [h3]
      apply ListenerMap.takeWhile_eq_filter t (a :: m) hs
      intro b hb
      rcases List.mem_cons.1 hb with hb1 | hb1
      · rw [hb1]
        omega
      · have := hs2.1 b hb1
        omega

theorem ListenerMap.filter_insert (type : Int) (listener : Nat) (t : Int) (m : ListenerMap)
    (hs : m.Pairwise (fun a b => a.1 ≤ b.1)) :
    (ListenerMap.insert type listener m).filter (fun p => p.1 == t)
      = m.filter (fun p => p.1 == t)
        ++ [(type, listener)].filter (fun p => p.1 == t) := by
  induction m with
  | nil => simp [ListenerMap.insert]
  | cons a m ih =>
    rw [List.pairwise_cons] at hs
    by_cases h : a.1 ≤ type
    · rw [ListenerMap.insert_cons_of_le type listener a m h]
      by_cases h2 : (a.1 == t) = true
      · rw [List.filter_cons, List.filter_cons]
        simp only [h2, if_true]
        rw [ih hs.2]
        rfl
      · rw [List.filter_cons, List.filter_cons]
        simp only [h2, if_false]
        exact ih hs.2
    · rw [ListenerMap.insert_cons_of_lt type listener a m (by omega)]
      by_cases h2 : type = t
      · have h3 : ((type, listener).1 == t) = true := by simp [h2]
        have h4 : (a :: m).filter (fun p => p.1 == t) = [] := by
          apply ListenerMap.filter_eq_nil_of_lt
          intro b hb
          rcases List.mem_cons.1 hb with hb1 | hb1
          · rw [hb1]
            omega
          · have := hs.1 b hb1
            omega
        rw [List.filter_cons, h4]
        simp [h2]
      · have h3 : ¬ (((type, listener).1 == t) = true) := by simp [h2]
        rw [List.filter_cons]
        simp [h2]

theorem ListenerMap.foldl_insert (t : Int) (regs : List (Int × Nat)) (m : ListenerMap)
    (hs : m.Pairwise (fun a b => a.1 ≤ b.1)) :
    (regs.foldl (fun m r => ListenerMap.insert r.1 r.2 m) m).Pairwise
        (fun a b => a.1 ≤ b.1) ∧
    (regs.foldl (fun m r => ListenerMap.insert r.1 r.2 m) m).filter (fun p => p.1 == t)
      = m.filter (fun p => p.1 == t) ++ regs.filter (fun p => p.1 == t) := by
  induction regs generalizing m with
  | nil => simp [hs]
  | cons r regs ih =>
    have h1 := ih (ListenerMap.insert r.1 r.2 m) (ListenerMap.insert_sorted r.1 r.2 m hs)
    refine ⟨h1.1, ?_⟩
    rw [List.foldl_cons, h1.2, ListenerMap.filter_insert r.1 r.2 t m hs]
    by_cases h2 : (r.1 == t) = true
    · simp [List.filter_cons, h2]
    · simp [List.filter_cons, h2]

theorem EventDistributor.foldl_registerAsync (regs : List (Int × Nat))
    (d : EventDistributor) :
    regs.foldl (fun d r => d.registerAsyncListener r.1 r.2) d
      = { d with asyncMap := regs.foldl (fun m r => ListenerMap.insert r.1 r.2 m) d.asyncMap } := by
  induction regs generalizing d with
  | nil => rfl
  | cons r regs ih =>
    rw [List.foldl_cons, ih]
    simp [EventDistributor.registerAsyncListener, EventDistributor.grab,
      EventDistributor.release]

theorem EventDistributor.foldl_registerSync (regs : List (Int × Nat))
    (d : EventDistributor) :
    regs.foldl (fun d r => d.registerSyncListener r.1 r.2) d
      = { d with syncMap := regs.foldl (fun m r => ListenerMap.insert r.1 r.2 m) d.syncMap } := by
  induction regs generalizing d with
  | nil => rfl
  | cons r regs ih =>
    rw [List.foldl_cons, ih]
    simp [EventDistributor.registerSyncListener, EventDistributor.grab,
      EventDistributor.release]

theorem EventDistributor.registered_eq (asyncRegs syncRegs : List (Int × Nat)) :
    EventDistributor.registered asyncRegs syncRegs
      = { asyncMap := asyncRegs.foldl (fun m r => ListenerMap.insert r.1 r.2 m) []
          syncMap := syncRegs.foldl (fun m r => ListenerMap.insert r.1 r.2 m) []
          queue := [], held := [], signals := [] } := by
  unfold EventDistributor.registered
  rw [EventDistributor.foldl_registerSync, EventDistributor.foldl_registerAsync]
  rfl

theorem EventDistributor.foldl_signalEvent (e : SDL_Event) (l : List (Int × Nat))
    (d : EventDistributor) :
    l.foldl (fun d p => d.signalEvent p.2 e) d
      = { d with signals := d.signals
            ++ l.map (fun p => { listener := p.2, event := e, held := d.held }) } := by
  induction l generalizing d with
  | nil => simp
  | cons a l ih =>
    rw [List.foldl_cons, ih]
    simp [EventDistributor.signalEvent]

theorem EventDistributor.foldl_push (e : SDL_Event) (l : List (Int × Nat))
    (d : EventDistributor) :
    l.foldl (fun d p => { d with queue := d.queue ++ [(e, p.2)] }) d
      = { d with queue := d.queue ++ l.map (fun p => (e, p.2)) } := by
  induction l generalizing d with
  | nil => simp
  | cons a l ih =>
    rw [List.foldl_cons, ih]
    simp

theorem EventDistributor.runEvent_eq (e : SDL_Event) (d : EventDistributor) :
    EventDistributor.runEvent e d
      = { d with
          signals := d.signals ++ (d.asyncMap.visited e.type).map
            (fun p => { listener := p.2, event := e,
                        held := EventDistributor.Mutex.asyncMutex :: d.held })
          queue := d.queue ++ (d.syncMap.visited e.type).map (fun p => (e, p.2)) } := by
  unfold EventDistributor.runEvent
  simp only [EventDistributor.foldl_signalEvent, EventDistributor.foldl_push]
  simp [EventDistributor.grab, EventDistributor.release]

theorem EventDistributor.pollLoop_quiet (q : List (SDL_Event × Nat)) (fuel : Nat)
    (am sm : ListenerMap) (h : List EventDistributor.Mutex)
    (sg : List EventDistributor.Signal) (hfuel : q.length ≤ fuel) :
    EventDistributor.pollLoop EventDistributor.quiet fuel
        { asyncMap := am, syncMap := sm, queue := q,
          held := EventDistributor.Mutex.queueMutex :: h, signals := sg }
      = some { asyncMap := am, syncMap := sm, queue := [],
               held := EventDistributor.Mutex.queueMutex :: h,
               signals := sg ++ q.map
                 (fun p => { listener := p.2, event := p.1, held := h }) } := by
  induction q generalizing fuel sg with
  | nil =>
    cases fuel with
    | zero => simp [EventDistributor.pollLoop]
    | succ n => simp [EventDistributor.pollLoop]
  | cons p rest ih =>
    cases fuel with
    | zero => simp at hfuel
    | succ n =>
      have hn : rest.length ≤ n := by
        simp at hfuel
        omega
      simp only [EventDistributor.pollLoop, EventDistributor.release,
        EventDistributor.signalEvent, EventDistributor.grab, EventDistributor.quiet,
        List.append_nil, List.erase_cons_head]
      rw [ih n _ hn]
      simp

/-- C20. On a distributor that has received the registrations `asyncRegs`
and `syncRegs`, producing an event `e` in `run()` calls `signalEvent` only
for the async registrations of the type of `e` (so no sync listener is
invoked), and appends to the queue exactly one pair `(e, listener)` for each
sync registration under the type of `e`, in registration order, and nothing
for the other types.  One call of `pollSyncEvents()` afterwards (no further
event being produced meanwhile) returns with the queue empty, having called
`signalEvent(e)` once for each of those pairs, in order. -/
theorem EventDistributor.sync_listeners_deferred (asyncRegs syncRegs : List (Int × Nat))
    (e : SDL_Event) (fuel : Nat)
    (hfuel : (syncRegs.filter (fun r => r.1 == e.type)).length ≤ fuel) :
    (EventDistributor.runEvent e (EventDistributor.registered asyncRegs syncRegs)).signals
      = (asyncRegs.filter (fun r => r.1 == e.type)).map
          (fun r => { listener := r.2, event := e,
                      held := [EventDistributor.Mutex.asyncMutex] }) ∧
    (EventDistributor.runEvent e (EventDistributor.registered asyncRegs syncRegs)).queue
      = (syncRegs.filter (fun r => r.1 == e.type)).map (fun r => (e, r.2)) ∧
    ∃ d2, EventDistributor.pollSyncEvents EventDistributor.quiet fuel
        (EventDistributor.runEvent e (EventDistributor.registered asyncRegs syncRegs))
        = some d2 ∧
      d2.queue = [] ∧
      d2.signals
        = (EventDistributor.runEvent e
            (EventDistributor.registered asyncRegs syncRegs)).signals
          ++ (syncRegs.filter (fun r => r.1 == e.type)).map
              (fun r => { listener := r.2, event := e, held := [] }) := by
  have hA := ListenerMap.foldl_insert e.type asyncRegs [] List.Pairwise.nil
  have hS := ListenerMap.foldl_insert e.type syncRegs [] List.Pairwise.nil
  have hrun : EventDistributor.runEvent e (EventDistributor.registered asyncRegs syncRegs)
      = { asyncMap := asyncRegs.foldl (fun m r => ListenerMap.insert r.1 r.2 m) []
          syncMap := syncRegs.foldl (fun m r => ListenerMap.insert r.1 r.2 m) []
          queue := (syncRegs.filter (fun r => r.1 == e.type)).map (fun r => (e, r.2))
          held := []
          signals := (asyncRegs.filter (fun r => r.1 == e.type)).map
            (fun r => { listener := r.2, event := e,
                        held := [EventDistributor.Mutex.asyncMutex] }) } := by
    rw [EventDistributor.runEvent_eq, EventDistributor.registered_eq]
    simp only [List.nil_append]
    rw [ListenerMap.visited_eq_filter _ _ hA.1, ListenerMap.visited_eq_filter _ _ hS.1,
      hA.2, hS.2]
    simp
  rw [hrun]
  refine ⟨rfl, rfl, ?_⟩
  unfold EventDistributor.pollSyncEvents
  simp only [EventDistributor.grab]
  rw [EventDistributor.pollLoop_quiet _ fuel _ _ _ _ (by simpa using hfuel)]
  refine ⟨_, rfl, rfl, ?_⟩
  simp [EventDistributor.release]

theorem EventDistributor.sync_listeners_deferred_witness :
    (([(2, 9), (3, 8), (2, 7)] : List (Int × Nat)).filter
      (fun r => r.1 == (⟨2, 0⟩ : SDL_Event).type)).length ≤ 2 ∧
    ((EventDistributor.runEvent ⟨2, 0⟩
        (EventDistributor.registered [(2, 5), (4, 6)] [(2, 9), (3, 8), (2, 7)])).signals
      = (([(2, 5), (4, 6)] : List (Int × Nat)).filter
          (fun r => r.1 == (⟨2, 0⟩ : SDL_Event).type)).map
          (fun r => { listener := r.2, event := ⟨2, 0⟩,
                      held := [EventDistributor.Mutex.asyncMutex] }) ∧
    (EventDistributor.runEvent ⟨2, 0⟩
        (EventDistributor.registered [(2, 5), (4, 6)] [(2, 9), (3, 8), (2, 7)])).queue
      = (([(2, 9), (3, 8), (2, 7)] : List (Int × Nat)).filter
          (fun r => r.1 == (⟨2, 0⟩ : SDL_Event).type)).map (fun r => (⟨2, 0⟩, r.2)) ∧
    ∃ d2, EventDistributor.pollSyncEvents EventDistributor.quiet 2
        (EventDistributor.runEvent ⟨2, 0⟩
          (EventDistributor.registered [(2, 5), (4, 6)] [(2, 9), (3, 8), (2, 7)]))
        = some d2 ∧
      d2.queue = [] ∧
      d2.signals
        = (EventDistributor.runEvent ⟨2, 0⟩
            (EventDistributor.registered [(2, 5), (4, 6)] [(2, 9), (3, 8), (2, 7)])).signals
          ++ (([(2, 9), (3, 8), (2, 7)] : List (Int × Nat)).filter
              (fun r => r.1 == (⟨2, 0⟩ : SDL_Event).type)).map
              (fun r => { listener := r.2, event := ⟨2, 0⟩, held := [] })) ∧
    (EventDistributor.runEvent ⟨2, 0⟩
        (EventDistributor.registered [(2, 5), (4, 6)] [(2, 9), (3, 8), (2, 7)])).queue
      = [(⟨2, 0⟩, 9), (⟨2, 0⟩, 7)] ∧
    (EventDistributor.pollSyncEvents EventDistributor.quiet 2
        (EventDistributor.runEvent ⟨2, 0⟩
          (EventDistributor.registered [(2, 5), (4, 6)] [(2, 9), (3, 8), (2, 7)]))).map
      (fun d => (d.signals.map (fun s => s.listener), d.queue))
      = some ([5, 9, 7], []) :=
  ⟨by decide,
   EventDistributor.sync_listeners_deferred [(2, 5), (4, 6)] [(2, 9), (3, 8), (2, 7)]
     ⟨2, 0⟩ 2 (by decide),
   by decide, by decide⟩

/-! ## Async listeners, the drain of the queue, and the mutexes -/

theorem EventDistributor.run_eq (events : List SDL_Event) (d : EventDistributor) :
    (EventDistributor.run events d).asyncMap = d.asyncMap ∧
    (EventDistributor.run events d).syncMap = d.syncMap ∧
    (EventDistributor.run events d).held = d.held := by
  induction events generalizing d with
  | nil => exact ⟨rfl, rfl, rfl⟩
  | cons e events ih =>
    obtain ⟨a, b, c⟩ := ih (EventDistributor.runEvent e d)
    show (EventDistributor.run events (EventDistributor.runEvent e d)).asyncMap = d.asyncMap ∧
      (EventDistributor.run events (EventDistributor.runEvent e d)).syncMap = d.syncMap ∧
      (EventDistributor.run events (EventDistributor.runEvent e d)).held = d.held
    rw [a, b, c, EventDistributor.runEvent_eq]
    exact ⟨rfl, rfl, rfl⟩

theorem EventDistributor.pollLoop_batches
    (arrivals : EventDistributor → List (SDL_Event × Nat)) (fuel : Nat)
    (am sm : ListenerMap) (h : List EventDistributor.Mutex) :
    ∀ (q : List (SDL_Event × Nat)) (sg : List EventDistributor.Signal) (d2 : EventDistributor),
    EventDistributor.pollLoop arrivals fuel
        { asyncMap := am, syncMap := sm, queue := q,
          held := EventDistributor.Mutex.queueMutex :: h, signals := sg } = some d2 →
    ∃ batches : List (List (SDL_Event × Nat)),
      d2 = { asyncMap := am, syncMap := sm, queue := [],
             held := EventDistributor.Mutex.queueMutex :: h,
             signals := sg ++ (q ++ batches.flatten).map
               (fun p => { listener := p.2, event := p.1, held := h }) } ∧
      batches.length = (q ++ batches.flatten).length ∧
      ∀ i, i < batches.length →
        batches.getD i [] = arrivals
          { asyncMap := am, syncMap := sm,
            queue := (q ++ (batches.take i).flatten).drop (i + 1),
            held := h,
            signals := sg ++ ((q ++ batches.flatten).take i).map
              (fun p => { listener := p.2, event := p.1, held := h }) } := by
  induction fuel with
  | zero =>
    intro q sg d2 hret
    cases q with
    | nil =>
      simp [EventDistributor.pollLoop] at hret
      exact ⟨[], by simp [← hret], by simp, by simp⟩
    | cons p rest => simp [EventDistributor.pollLoop] at hret
  | succ n ih =>
    intro q sg d2 hret
    cases q with
    | nil =>
      simp [EventDistributor.pollLoop] at hret
      exact ⟨[], by simp [← hret], by simp, by simp⟩
    | cons p rest =>
      simp only [EventDistributor.pollLoop, EventDistributor.release,
        EventDistributor.signalEvent, EventDistributor.grab, List.erase_cons_head] at hret
      obtain ⟨batches, hd, hlen, hidx⟩ := ih _ _ _ hret
      refine ⟨arrivals { asyncMap := am, syncMap := sm, queue := rest, held := h,
                         signals := sg } :: batches, ?_, ?_, ?_⟩
      · rw [hd]
        simp
      · simp only [List.length_cons, List.flatten_cons, List.length_append] at hlen ⊢
        omega
      · intro i hi
        cases i with
        | zero => simp
        | succ j =>
          have hj : j < batches.length := by
            simp at hi
            exact hi
          have := hidx j hj
          simp only [List.getD_cons_succ, List.take_succ_cons, List.flatten_cons,
            List.cons_append, List.drop_succ_cons, List.map_cons]
          rw [this]
          simp

theorem EventDistributor.pollLoop_terminates
    (arrivals : EventDistributor → List (SDL_Event × Nat)) (m : Nat)
    (hsize : ∀ s, (arrivals s).length ≤ m)
    (am sm : ListenerMap) (h : List EventDistributor.Mutex) (fuel : Nat) :
    ∀ (k : Nat) (q : List (SDL_Event × Nat)) (sg : List EventDistributor.Signal),
    (∀ s : EventDistributor, sg.length + k ≤ s.signals.length → arrivals s = []) →
    q.length + k * m ≤ fuel →
    ∃ d2, EventDistributor.pollLoop arrivals fuel
        { asyncMap := am, syncMap := sm, queue := q,
          held := EventDistributor.Mutex.queueMutex :: h, signals := sg } = some d2 := by
  induction fuel with
  | zero =>
    intro k q sg _ hfuel
    cases q with
    | nil => simp [EventDistributor.pollLoop]
    | cons p rest => simp at hfuel
  | succ n ih =>
    intro k q sg hquiet hfuel
    cases q with
    | nil => simp [EventDistributor.pollLoop]
    | cons p rest =>
      simp only [EventDistributor.pollLoop, EventDistributor.release,
        EventDistributor.signalEvent, EventDistributor.grab, List.erase_cons_head]
      have hs := hsize { asyncMap := am, syncMap := sm, queue := rest, held := h,
                         signals := sg }
      cases k with
      | zero =>
        have h0 := hquiet { asyncMap := am, syncMap := sm, queue := rest, held := h,
                            signals := sg } (by simp)
        rw [h0]
        apply ih 0
        · intro s hlen
          apply hquiet
          simp at hlen ⊢
          omega
        · simp at hfuel ⊢
          omega
      | succ k1 =>
        apply ih k1
        · intro s hlen
          apply hquiet
          simp at hlen ⊢
          omega
        · rw [Nat.succ_mul] at hfuel
          simp only [List.length_cons, List.length_append] at hfuel ⊢
          omega

/-- C22. One call of `pollSyncEvents()`, during which the thread of `run`
pushes the pairs given by `arrivals` while a listener is being invoked:
whenever the call returns, the queue is empty, and the calls of `signalEvent`
it made are, in order, one for each pair that was on the queue at entry
followed by one for each pair pushed during the drain, batch after batch,
where the batch of index `i` is what was pushed during the invocation of
index `i` (every delivered pair has its invocation, so there are as many
batches as deliveries).  And the call does return when at most `m` pairs are
pushed during one invocation, nothing is pushed from the invocation of index
`k` on, and the loop is given `queue.length + k * m` iterations. -/
theorem EventDistributor.pollSyncEvents_fifo
    (arrivals : EventDistributor → List (SDL_Event × Nat)) (fuel : Nat)
    (d : EventDistributor) :
    (∀ d2, EventDistributor.pollSyncEvents arrivals fuel d = some d2 →
      d2.queue = [] ∧
      ∃ batches : List (List (SDL_Event × Nat)),
        d2.signals = d.signals ++ (d.queue ++ batches.flatten).map
          (fun p => { listener := p.2, event := p.1, held := d.held }) ∧
        batches.length = (d.queue ++ batches.flatten).length ∧
        ∀ i, i < batches.length →
          batches.getD i [] = arrivals
            { d with
              queue := (d.queue ++ (batches.take i).flatten).drop (i + 1)
              signals := d.signals ++ ((d.queue ++ batches.flatten).take i).map
                (fun p => { listener := p.2, event := p.1, held := d.held }) }) ∧
    (∀ k m : Nat, (∀ s, (arrivals s).length ≤ m) →
      (∀ s : EventDistributor, d.signals.length + k ≤ s.signals.length → arrivals s = []) →
      d.queue.length + k * m ≤ fuel →
      ∃ d2, EventDistributor.pollSyncEvents arrivals fuel d = some d2) := by
  obtain ⟨am, sm, q, h, sg⟩ := d
  constructor
  · intro d2 hret
    simp only [EventDistributor.pollSyncEvents, EventDistributor.grab] at hret
    cases hp : EventDistributor.pollLoop arrivals fuel
        { asyncMap := am, syncMap := sm, queue := q,
          held := EventDistributor.Mutex.queueMutex :: h, signals := sg } with
    | none =>
      rw [hp] at hret
      simp at hret
    | some d1 =>
      rw [hp] at hret
      simp at hret
      obtain ⟨batches, hd, hlen, hidx⟩ :=
        EventDistributor.pollLoop_batches arrivals fuel am sm h q sg d1 hp
      rw [← hret, hd]
      exact ⟨rfl, batches, by simp [EventDistributor.release], hlen,
        by simpa [EventDistributor.release] using hidx⟩
  · intro k m hsize hquiet hfuel
    obtain ⟨d1, h1⟩ :=
      EventDistributor.pollLoop_terminates arrivals m hsize am sm h fuel k q sg hquiet hfuel
    simp at hquiet hfuel
    simp [EventDistributor.pollSyncEvents, EventDistributor.grab, h1]

theorem EventDistributor.pollSyncEvents_fifo_witness :
    ∃ d2, EventDistributor.pollSyncEvents EventDistributor.lateArrival 2
        EventDistributor.onePending = some d2 ∧
      d2.queue = [] ∧
      d2.signals = [{ listener := 7, event := ⟨2, 0⟩, held := [] },
                    { listener := 9, event := ⟨3, 1⟩, held := [] }] := by
  obtain ⟨hA, hB⟩ := EventDistributor.pollSyncEvents_fifo EventDistributor.lateArrival 2
    EventDistributor.onePending
  obtain ⟨d2, h2⟩ := hB 1 1
    (by intro s; unfold EventDistributor.lateArrival; split <;> simp)
    (by
      intro s hs
      unfold EventDistributor.lateArrival
      have : s.signals.length ≠ 0 := by
        simp [EventDistributor.onePending] at hs
        omega
      simp [this])
    (by decide)
  refine ⟨d2, h2, (hA d2 h2).1, ?_⟩
  have h3 : EventDistributor.pollSyncEvents EventDistributor.lateArrival 2
      EventDistributor.onePending
      = some { asyncMap := [], syncMap := [(2, 7), (3, 9)], queue := [], held := [],
               signals := [{ listener := 7, event := ⟨2, 0⟩, held := [] },
                           { listener := 9, event := ⟨3, 1⟩, held := [] }] } := by
    decide
  rw [h3] at h2
  injection h2 with h2
  rw [← h2]

/-- C23 on the code: with one async listener (5) registered for the type 2,
`run()` distributing an event of type 2 calls `signalEvent` on it while the
async mutex is held, where the claim wants it released; the drain of
`pollSyncEvents()`, for its part, calls `signalEvent` on a sync listener with
no mutex held, the queue mutex being released around the call. -/
theorem EventDistributor.async_listener_invoked_under_lock :
    (EventDistributor.runEvent ⟨2, 0⟩ (EventDistributor.registered [(2, 5)] [])).signals
      = [{ listener := 5, event := ⟨2, 0⟩, held := [EventDistributor.Mutex.asyncMutex] }] ∧
    (EventDistributor.pollSyncEvents EventDistributor.quiet 1
        (EventDistributor.runEvent ⟨2, 0⟩ (EventDistributor.registered [] [(2, 5)]))).map
      (fun d => d.signals)
      = some [{ listener := 5, event := ⟨2, 0⟩, held := [] }] := by
  decide

theorem EventDistributor.pollSyncEvents_signals
    (arrivals : EventDistributor → List (SDL_Event × Nat)) (fuel : Nat)
    (d d2 : EventDistributor)
    (hret : EventDistributor.pollSyncEvents arrivals fuel d = some d2) :
    ∃ delivered : List (SDL_Event × Nat),
      d2.signals = d.signals ++ delivered.map
        (fun p => { listener := p.2, event := p.1, held := d.held }) := by
  obtain ⟨am, sm, q, h, sg⟩ := d
  simp only [EventDistributor.pollSyncEvents, EventDistributor.grab] at hret
  cases hp : EventDistributor.pollLoop arrivals fuel
      { asyncMap := am, syncMap := sm, queue := q,
        held := EventDistributor.Mutex.queueMutex :: h, signals := sg } with
  | none =>
    rw [hp] at hret
    simp at hret
  | some d1 =>
    rw [hp] at hret
    simp at hret
    obtain ⟨batches, hd, _, _⟩ :=
      EventDistributor.pollLoop_batches arrivals fuel am sm h q sg d1 hp
    rw [← hret, hd]
    exact ⟨q ++ batches.flatten, rfl⟩

/-- The mutexes held at the calls of `signalEvent`, in general.  On a
distributor that has received any registrations and has distributed any
events, every call of `signalEvent` that `run()` makes
for a further event is made while the async mutex, and no other mutex of the
distributor, is held; every call of `signalEvent` that a call of
`pollSyncEvents()` makes (when it returns) is made with no mutex of the
distributor held, the queue mutex being released around it. -/
theorem EventDistributor.listener_invocation_locks (asyncRegs syncRegs : List (Int × Nat))
    (events : List SDL_Event) (e : SDL_Event)
    (arrivals : EventDistributor → List (SDL_Event × Nat)) (fuel : Nat) :
    (∀ s ∈ (EventDistributor.runEvent e
          (EventDistributor.run events (EventDistributor.registered asyncRegs syncRegs))).signals.drop
          (EventDistributor.run events
            (EventDistributor.registered asyncRegs syncRegs)).signals.length,
      s.held = [EventDistributor.Mutex.asyncMutex]) ∧
    (∀ d2, EventDistributor.pollSyncEvents arrivals fuel
        (EventDistributor.run events (EventDistributor.registered asyncRegs syncRegs)) = some d2 →
      ∀ s ∈ d2.signals.drop
          (EventDistributor.run events
            (EventDistributor.registered asyncRegs syncRegs)).signals.length,
        s.held = []) := by
  obtain ⟨_, _, h3⟩ :=
    EventDistributor.run_eq events (EventDistributor.registered asyncRegs syncRegs)
  obtain ⟨D, hD⟩ : ∃ D, D = EventDistributor.run events
      (EventDistributor.registered asyncRegs syncRegs) := ⟨_, rfl⟩
  rw [← hD] at h3 ⊢
  rw [EventDistributor.registered_eq] at h3
  simp only at h3
  constructor
  · intro s hs
    rw [EventDistributor.runEvent_eq] at hs
    simp only [List.drop_left] at hs
    obtain ⟨p, _, hp⟩ := List.mem_map.mp hs
    rw [← hp, h3]
  · intro d2 hret s hs
    obtain ⟨delivered, hd⟩ := EventDistributor.pollSyncEvents_signals arrivals fuel D d2 hret
    rw [hd] at hs
    simp only [List.drop_left] at hs
    obtain ⟨p, _, hp⟩ := List.mem_map.mp hs
    rw [← hp, h3]

theorem EventDistributor.listener_invocation_locks_witness :
    (EventDistributor.runEvent ⟨2, 0⟩
        (EventDistributor.run [] (EventDistributor.registered [(2, 5)] [(2, 7)]))).signals
      = [{ listener := 5, event := ⟨2, 0⟩, held := [EventDistributor.Mutex.asyncMutex] }] ∧
    (∀ s ∈ (EventDistributor.runEvent ⟨2, 0⟩
          (EventDistributor.run [] (EventDistributor.registered [(2, 5)] [(2, 7)]))).signals.drop
          (EventDistributor.run []
            (EventDistributor.registered [(2, 5)] [(2, 7)])).signals.length,
      s.held = [EventDistributor.Mutex.asyncMutex]) ∧
    EventDistributor.pollSyncEvents EventDistributor.lateArrival 2
        (EventDistributor.run [⟨2, 0⟩] (EventDistributor.registered [] [(2, 7)]))
      = some { asyncMap := [], syncMap := [(2, 7)], queue := [], held := [],
               signals := [{ listener := 7, event := ⟨2, 0⟩, held := [] },
                           { listener := 9, event := ⟨3, 1⟩, held := [] }] } ∧
    (∀ s ∈ ([{ listener := 7, event := ⟨2, 0⟩, held := [] },
             { listener := 9, event := ⟨3, 1⟩, held := [] }] :
              List EventDistributor.Signal).drop
          (EventDistributor.run [⟨2, 0⟩]
            (EventDistributor.registered [] [(2, 7)])).signals.length,
      s.held = []) :=
  ⟨by decide,
   (EventDistributor.listener_invocation_locks [(2, 5)] [(2, 7)] [] ⟨2, 0⟩
     EventDistributor.quiet 0).1,
   by decide,
   (EventDistributor.listener_invocation_locks [] [(2, 7)] [⟨2, 0⟩] ⟨2, 0⟩
     EventDistributor.lateArrival 2).2
     { asyncMap := [], syncMap := [(2, 7)], queue := [], held := [],
       signals := [{ listener := 7, event := ⟨2, 0⟩, held := [] },
                   { listener := 9, event := ⟨3, 1⟩, held := [] }] }
     (by decide)⟩

/-! ## The mapper of `RomCrossBlaim` -/

/-- C24. The method `RomCrossBlaim::writeMem` ignores the address and all
bits of the value but the low two: it does what a write of the low two bits
to address 0 does.  The pages 0, 1, 2, 3 then show the ROM blocks 1, 0, 1, 1
when the low bits are 00 or 01; nothing, block 0, block 2, nothing when they
are 10; nothing, block 0, block 3, nothing when they are 11.  Page 1 shows
block 0 in every case, and `reset()` (hence the constructor) leaves the
mapping of 00. -/
theorem RomCrossBlaim.writeMem_mapping (address : Nat) (value : byte) (s : Rom16kBBlocks) :
    RomCrossBlaim.writeMem address value s
      = RomCrossBlaim.writeMem 0 ⟨value.val % 4, by omega⟩ s ∧
    [0, 1, 2, 3].map (RomCrossBlaim.writeMem address value s).bank
      = (if value.val % 4 ≤ 1 then
          [Rom16kBBlocks.Bank.rom 1, Rom16kBBlocks.Bank.rom 0, Rom16kBBlocks.Bank.rom 1,
           Rom16kBBlocks.Bank.rom 1]
        else if value.val % 4 = 2 then
          [Rom16kBBlocks.Bank.unmapped, Rom16kBBlocks.Bank.rom 0, Rom16kBBlocks.Bank.rom 2,
           Rom16kBBlocks.Bank.unmapped]
        else
          [Rom16kBBlocks.Bank.unmapped, Rom16kBBlocks.Bank.rom 0, Rom16kBBlocks.Bank.rom 3,
           Rom16kBBlocks.Bank.unmapped]) ∧
    (RomCrossBlaim.writeMem address value s).bank 1 = Rom16kBBlocks.Bank.rom 0 ∧
    RomCrossBlaim.reset s = RomCrossBlaim.writeMem 0 0 s ∧
    RomCrossBlaim.construct s = RomCrossBlaim.reset s ∧
    [0, 1, 2, 3].map (RomCrossBlaim.reset s).bank
      = [Rom16kBBlocks.Bank.rom 1, Rom16kBBlocks.Bank.rom 0, Rom16kBBlocks.Bank.rom 1,
         Rom16kBBlocks.Bank.rom 1] := by
  obtain ⟨v, hv⟩ := value
  have hand : v &&& 3 = v % 4 := Nat.and_pow_two_sub_one_eq_mod v 2
  have hand2 : v % 4 &&& 3 = v % 4 := by
    have := Nat.and_pow_two_sub_one_eq_mod (v % 4) 2
    simp at this
    omega
  have hlt : v % 4 < 4 := Nat.mod_lt _ (by decide)
  simp only [RomCrossBlaim.writeMem, RomCrossBlaim.reset, RomCrossBlaim.construct, hand, hand2]
  generalize v % 4 = m at hlt
  interval_cases m <;>
    simp [Rom16kBBlocks.setRom, Rom16kBBlocks.setUnmapped]

/-! ## The frequency step of a slot of the `YMF278` -/

theorem sign_extend_4_eq (o : Nat) (ho : o ≤ 15) :
    sign_extend_4 (o : Int) = if o ≤ 7 then (o : Int) else (o : Int) - 16 := by
  interval_cases o <;> decide

theorem or_1024_eq_add (fn : Nat) (hfn : fn ≤ 1023) : fn ||| 1024 = fn + 1024 := by
  have h := Nat.mul_add_lt_is_or (show fn < 2 ^ 10 by omega) 1
  rw [Nat.or_comm] at h
  have e : (2 : Nat) ^ 10 * 1 = 1024 := by norm_num
  rw [e] at h
  omega

/-- C25. For `oct` in `[0 .. 15]`, `fn` in `[0 .. 1023]` and `vib` below
`2^16`, the function `calcStep` returns `(fn | 1024) + vib` shifted over
`5 + sign_extend_4(oct)` positions, to the left when that distance is not
negative and to the right over its absolute value when it is; and
`sign_extend_4(oct)` is `oct` for `oct` in `[0 .. 7]` and `oct - 16` for `oct`
in `[8 .. 15]`. -/
theorem calcStep_eq_calcStepSpec (oct fn vib : Nat) (hoct : oct ≤ 15) (hfn : fn ≤ 1023)
    (hvib : vib < 65536) :
    calcStep oct fn vib = calcStepSpec oct fn vib ∧
    sign_extend_4 (oct : Int) = (if oct ≤ 7 then (oct : Int) else (oct : Int) - 16) := by
  refine ⟨?_, sign_extend_4_eq oct hoct⟩
  unfold calcStep calcStepSpec
  rw [sign_extend_4_eq oct hoct, or_1024_eq_add fn hfn]
  interval_cases oct <;>
    simp [Nat.shiftLeft_eq, Nat.shiftRight_eq_div_pow] <;> omega

theorem calcStep_eq_calcStepSpec_witness :
    calcStep 10 600 30 = 827 ∧ calcStepSpec 10 600 30 = 827 ∧ sign_extend_4 10 = -6 ∧
    calcStep 3 600 30 = 423424 ∧ calcStepSpec 3 600 30 = 423424 ∧ sign_extend_4 3 = 3 := by
  have h1 := calcStep_eq_calcStepSpec 10 600 30 (by decide) (by decide) (by decide)
  have h2 := calcStep_eq_calcStepSpec 3 600 30 (by decide) (by decide) (by decide)
  have e1 : calcStep 10 600 30 = 827 := by decide
  have e2 : calcStep 3 600 30 = 423424 := by decide
  refine ⟨e1, ?_, ?_, e2, ?_, ?_⟩
  · rw [← h1.1, e1]
  · simpa using h1.2
  · rw [← h2.1, e2]
  · simpa using h2.2

/-! ## The invariant of the slots of the `YMF278` -/

theorem YMF278.setSlot_invariant (snum : Fin 24) (slot : YMF278Slot) (s : YMF278)
    (hs : ∀ i, (s.slots i).invariant) (hslot : slot.invariant) :
    ∀ i, ((s.setSlot snum slot).slots i).invariant := by
  intro i
  simp only [YMF278.setSlot]
  split
  · exact hslot
  · exact hs i

theorem YMF278.writeMem_slots (address : Nat) (value : byte) (s : YMF278) :
    (s.writeMem address value).slots = s.slots := by
  unfold YMF278.writeMem
  simp only []
  split
  · rfl
  · split <;> rfl


theorem YMF278.writeRegDirectWith_invariant (self : byte → byte → YMF278 → YMF278)
    (hself : ∀ r d s, (∀ i, (YMF278.slots s i).invariant) →
      ∀ i, (YMF278.slots (self r d s) i).invariant)
    (reg data : byte) (s : YMF278) (hs : ∀ i, (s.slots i).invariant) :
    ∀ i, ((YMF278.writeRegDirectWith self reg data s).slots i).invariant := by
  have hd : data.val < 256 := data.isLt
  unfold YMF278.writeRegDirectWith
  simp only []
  split
  · split
    · simp only [List.foldl]
      apply hself
      apply hself
      apply hself
      apply hself
      apply hself
      exact YMF278.setSlot_invariant _ _ _ hs (hs _)
    · apply YMF278.setSlot_invariant _ _ _ hs
      refine ⟨rfl, (hs _).2.1, ?_⟩
      have h1 : (s.slots ⟨(reg.val - 8) % 24, Nat.mod_lt _ (by decide)⟩).FN &&& 0x380 < 2 ^ 10 :=
        Nat.and_lt_two_pow _ (by decide)
      have h2 : data.val >>> 1 < 2 ^ 10 := by
        rw [Nat.shiftRight_eq_div_pow]
        omega
      have := Nat.or_lt_two_pow h1 h2
      show _ ||| _ ≤ 1023
      omega
    · apply YMF278.setSlot_invariant _ _ _ hs
      have h0 : data.val &&& 0xF0 ≤ 0xF0 := Nat.and_le_right
      have h1 : (s.slots ⟨(reg.val - 8) % 24, Nat.mod_lt _ (by decide)⟩).FN &&& 0x07F < 2 ^ 10 :=
        Nat.and_lt_two_pow _ (by decide)
      have h3 : data.val &&& 0x07 ≤ 0x07 := Nat.and_le_right
      have h2 : (data.val &&& 0x07) <<< 7 < 2 ^ 10 := by
        rw [Nat.shiftLeft_eq]
        omega
      have := Nat.or_lt_two_pow h1 h2
      refine ⟨rfl, ?_, ?_⟩
      · show (data.val &&& 0xF0) >>> 4 ≤ 15
        rw [Nat.shiftRight_eq_div_pow]
        omega
      · show _ ||| _ ≤ 1023
        omega
    · exact YMF278.setSlot_invariant _ _ _ hs (hs _)
    · apply YMF278.setSlot_invariant _ _ _ hs
      split
      · exact hs _
      · exact hs _
    · exact YMF278.setSlot_invariant _ _ _ hs (hs _)
    · exact YMF278.setSlot_invariant _ _ _ hs (hs _)
    · exact YMF278.setSlot_invariant _ _ _ hs (hs _)
    · exact YMF278.setSlot_invariant _ _ _ hs (hs _)
    · exact YMF278.setSlot_invariant _ _ _ hs (hs _)
    · exact hs
  · split
    · exact hs
    · exact hs
    · split
      · intro i
        show ((YMF278.writeMem (toBits s.memadr) data s).slots i).invariant
        rw [YMF278.writeMem_slots]
        exact hs i
      · exact hs
    · exact hs
    · exact hs
    · exact hs

theorem YMF278.writeRegDirect_invariant (reg data : byte) (s : YMF278)
    (hs : ∀ i, (s.slots i).invariant) :
    ∀ i, ((s.writeRegDirect reg data).slots i).invariant :=
  YMF278.writeRegDirectWith_invariant _
    (YMF278.writeRegDirectWith_invariant _ (fun _ _ _ h => h)) reg data s hs

theorem YMF278.foldl_writeRegDirect_invariant (l : List Nat) (s : YMF278)
    (hs : ∀ i, (s.slots i).invariant) :
    ∀ i, ((l.foldl (fun s i => YMF278.writeRegDirect (toByte i) 0 s) s).slots i).invariant := by
  induction l generalizing s with
  | nil => exact hs
  | cons a l ih => exact ih _ (YMF278.writeRegDirect_invariant _ _ s hs)

theorem YMF278.reset_invariant (s : YMF278) : ∀ i, ((s.reset).slots i).invariant := by
  unfold YMF278.reset
  simp only []
  apply YMF278.foldl_writeRegDirect_invariant
  intro i
  exact ⟨rfl, Nat.zero_le _, Nat.zero_le _⟩

theorem YMF278.access_invariant (a : YMF278.Access) (s : YMF278)
    (hs : ∀ i, (s.slots i).invariant) : ∀ i, ((s.access a).slots i).invariant := by
  cases a with
  | write reg data => exact YMF278.writeRegDirect_invariant reg data s hs
  | read reg =>
    unfold YMF278.access YMF278.readReg
    simp only []
    split
    · split
      · exact hs
      · exact hs
    · exact hs

theorem YMF278.foldl_access_invariant (l : List YMF278.Access) (t : YMF278)
    (ht : ∀ i, (t.slots i).invariant) :
    ∀ i, ((l.foldl YMF278.access t).slots i).invariant := by
  induction l generalizing t with
  | nil => exact ht
  | cons a l ih => exact ih _ (YMF278.access_invariant a t ht)

/-- C26. After `reset()`, and after any sequence of register writes (and
register reads) that follows it, each of the 24 slots satisfies
`step == calcStep(OCT, FN)` with `OCT` in `[0 .. 15]` and `FN` in
`[0 .. 1023]`; and one more `writeRegDirect`, with any register and any data,
keeps it so. -/
theorem YMF278.slots_keep_invariant (s0 : YMF278) (accesses : List YMF278.Access) (i : Fin 24) :
    ((accesses.foldl YMF278.access s0.reset).slots i).step
      = calcStep ((accesses.foldl YMF278.access s0.reset).slots i).OCT
          ((accesses.foldl YMF278.access s0.reset).slots i).FN 0 ∧
    ((accesses.foldl YMF278.access s0.reset).slots i).OCT ≤ 15 ∧
    ((accesses.foldl YMF278.access s0.reset).slots i).FN ≤ 1023 ∧
    ∀ reg data : byte,
      (((accesses.foldl YMF278.access s0.reset).writeRegDirect reg data).slots i).invariant := by
  have hs := YMF278.foldl_access_invariant accesses _ (YMF278.reset_invariant s0)
  refine ⟨(hs i).1, (hs i).2.1, (hs i).2.2, ?_⟩
  intro reg data
  exact YMF278.writeRegDirect_invariant reg data _ hs i

/-! ## The sample memory of the `YMF278` -/

theorem land_low_bits (k n M : Nat) (hk : k < 2 ^ n) :
    k &&& M = k &&& ((2 ^ n - 1) &&& M) := by
  conv_lhs => rw [← Nat.and_pow_two_sub_one_of_lt_two_pow hk]
  rw [Nat.and_assoc]

theorem land_block_add (c k M : Nat) (hk : k < 2 ^ 17) :
    (2 ^ 17 * c + k) &&& M = ((2 ^ 17 * c) &&& M) ||| (k &&& ((2 ^ 17 - 1) &&& M)) := by
  rw [Nat.mul_add_lt_is_or hk c, Nat.and_comm, Nat.and_or_distrib_left, Nat.and_comm M,
    Nat.and_comm M, ← land_low_bits k 17 M hk]

theorem land_keep_low (c k : Nat) (hk : k < 131072) :
    (131072 * c + k) &&& 0xFFF9FFFF = ((131072 * c) &&& 0xFFF9FFFF) ||| k := by
  have h := land_block_add c k 0xFFF9FFFF hk
  have e : ((2 : Nat) ^ 17 - 1) &&& 0xFFF9FFFF = 2 ^ 17 - 1 := by decide
  rw [e, Nat.and_pow_two_sub_one_of_lt_two_pow hk] at h
  exact h

theorem land_drop_low (c k : Nat) (hk : k < 131072) :
    (131072 * c + k) &&& 0x060000 = (131072 * c) &&& 0x060000 := by
  have h := land_block_add c k 0x060000 hk
  have e : ((2 : Nat) ^ 17 - 1) &&& 0x060000 = 0 := by decide
  rw [e, Nat.and_zero, Nat.or_zero] at h
  exact h

theorem block_or_low (c k : Nat) (hk : k < 131072) : (131072 * c) ||| k = 131072 * c + k :=
  (Nat.mul_add_lt_is_or (show k < 2 ^ 17 from hk) c).symm

theorem land_22_bits (a : Nat) (ha : a ≤ 0x3FFFFF) : a &&& 0x3FFFFF = a :=
  Nat.and_pow_two_sub_one_of_lt_two_pow (show a < 2 ^ 22 by omega)

theorem YMF278.getRamAddress_mode0 (s : YMF278) (a : Nat)
    (hmode : (s.regs 2).val &&& 2 = 0) (h1 : 0x200000 ≤ a) (h2 : a ≤ 0x3FFFFF) :
    s.getRamAddress a
      = if s.ramSize = 640 * 1024 then
          if a - 0x200000 > 0x080000 then (a - 0x200000) &&& 0xFFF9FFFF else a - 0x200000
        else a - 0x200000 := by
  have e : (a + (4294967296 - 0x200000)) % 4294967296 = a - 0x200000 := by omega
  unfold YMF278.getRamAddress
  simp only [e, hmode, ne_eq, not_true_eq_false, if_false]

theorem YMF278.readMem_ram (s : YMF278) (a : Nat) (h1 : 0x200000 ≤ a) (h2 : a ≤ 0x3FFFFF) :
    s.readMem a
      = if s.getRamAddress a < s.ramSize then s.ram (s.getRamAddress a) else 255 := by
  unfold YMF278.readMem
  simp only [land_22_bits a h2]
  rw [if_neg (by omega)]

theorem YMF278.writeMem_ram (s : YMF278) (a : Nat) (value : byte)
    (h1 : 0x200000 ≤ a) (h2 : a ≤ 0x3FFFFF) :
    (s.writeMem a value).ram
      = if s.getRamAddress a < s.ramSize then
          fun x => if x = s.getRamAddress a then value else s.ram x
        else s.ram := by
  unfold YMF278.writeMem
  simp only [land_22_bits a h2]
  rw [if_neg (by omega)]
  split <;> rfl

/-- C27. In memory access mode 0 (bit 1 of register 2 clear): with 640kB of
sample RAM, for `k < 0x20000` and `j < 4` the address
`0x280000 + j * 0x20000 + k` accesses the RAM byte `0x80000 + k`, for
`readMem` and for `writeMem` alike; with any other size of the RAM (so with
0, 128, 256, 512, 1024 or 2048 kB) the address `a` in `0x200000 .. 0x3FFFFF`
stands for the RAM offset `a - 0x200000`, so that two distinct addresses never
access the same byte. -/
theorem YMF278.ram_mirrored_only_with_640kB (s : YMF278)
    (hmode : (s.regs 2).val &&& 2 = 0) :
    (s.ramSize = 640 * 1024 → ∀ (j k : Nat) (value : byte), j < 4 → k < 0x20000 →
      s.getRamAddress (0x280000 + j * 0x20000 + k) = 0x80000 + k ∧
      s.readMem (0x280000 + j * 0x20000 + k) = s.ram (0x80000 + k) ∧
      (s.writeMem (0x280000 + j * 0x20000 + k) value).ram
        = fun x => if x = 0x80000 + k then value else s.ram x) ∧
    (s.ramSize ≠ 640 * 1024 → ∀ (a : Nat) (value : byte), 0x200000 ≤ a → a ≤ 0x3FFFFF →
      s.getRamAddress a = a - 0x200000 ∧
      s.readMem a = (if a - 0x200000 < s.ramSize then s.ram (a - 0x200000) else 255) ∧
      (s.writeMem a value).ram
        = (if a - 0x200000 < s.ramSize then
            fun x => if x = a - 0x200000 then value else s.ram x
          else s.ram) ∧
      ∀ b, 0x200000 ≤ b → b ≤ 0x3FFFFF → a ≠ b → s.getRamAddress a ≠ s.getRamAddress b) := by
  constructor
  · intro h640 j k value hj hk
    have hg : s.getRamAddress (0x280000 + j * 0x20000 + k) = 0x80000 + k := by
      rw [YMF278.getRamAddress_mode0 s _ hmode (by omega) (by omega), if_pos h640]
      have e : 0x280000 + j * 0x20000 + k - 0x200000 = 131072 * (4 + j) + k := by omega
      rw [e]
      split
      · rw [land_keep_low _ k hk]
        interval_cases j
        · exact block_or_low 4 k hk
        · exact block_or_low 4 k hk
        · exact block_or_low 4 k hk
        · exact block_or_low 4 k hk
      · omega
    refine ⟨hg, ?_, ?_⟩
    · rw [YMF278.readMem_ram s _ (by omega) (by omega), hg, if_pos (by omega)]
    · rw [YMF278.writeMem_ram s _ value (by omega) (by omega), hg, if_pos (by omega)]
  · intro h640 a value h1 h2
    have hg : ∀ b, 0x200000 ≤ b → b ≤ 0x3FFFFF → s.getRamAddress b = b - 0x200000 := by
      intro b hb1 hb2
      rw [YMF278.getRamAddress_mode0 s _ hmode hb1 hb2, if_neg h640]
    refine ⟨hg a h1 h2, ?_, ?_, ?_⟩
    · rw [YMF278.readMem_ram s _ h1 h2, hg a h1 h2]
    · rw [YMF278.writeMem_ram s _ value h1 h2, hg a h1 h2]
    · intro b hb1 hb2 hab
      rw [hg a h1 h2, hg b hb1 hb2]
      omega

theorem YMF278.ram_mirrored_only_with_640kB_witness :
    (YMF278.moonsound (640 * 1024) 0 0).readMem (0x280000 + 2 * 0x20000 + 5)
      = (YMF278.moonsound (640 * 1024) 0 0).ram (0x80000 + 5) ∧
    (YMF278.moonsound (640 * 1024) 0 0).readMem 0x2C0005 = 4 ∧
    (YMF278.moonsound (2048 * 1024) 0 0).getRamAddress 0x2C0005 = 0x2C0005 - 0x200000 ∧
    (YMF278.moonsound (2048 * 1024) 0 0).readMem 0x2C0005 = 6 :=
  ⟨((YMF278.ram_mirrored_only_with_640kB (YMF278.moonsound (640 * 1024) 0 0)
      (by decide)).1 (by decide) 2 5 0 (by decide) (by decide)).2.1,
   by decide,
   ((YMF278.ram_mirrored_only_with_640kB (YMF278.moonsound (2048 * 1024) 0 0)
      (by decide)).2 (by decide) 0x2C0005 0 (by decide) (by decide)).1,
   by decide⟩

theorem YMF278.getRamAddress_mode1_low (s : YMF278) (a : Nat)
    (hmode : (s.regs 2).val &&& 2 ≠ 0) (hsize : s.ramSize ≤ 2048 * 1024)
    (h1 : 0x200000 ≤ a) (h2 : a ≤ 0x37FFFF) :
    ¬ s.getRamAddress a < s.ramSize := by
  have e : (a + (4294967296 - 0x200000)) % 4294967296 = a - 0x200000 := by omega
  have hr : ¬ (0x180000 ≤ a - 0x200000 ∧ a - 0x200000 ≤ 0x1FFFFF) := by omega
  unfold YMF278.getRamAddress
  simp only [e, hmode, hr, ne_eq, not_false_eq_true, if_true, if_false]
  by_cases h640 : s.ramSize = 640 * 1024
  · simp only [h640, if_true]
    decide
  · simp only [h640, if_false]
    omega

theorem YMF278.getRamAddress_mode1_high (s : YMF278) (j k : Nat)
    (hmode : (s.regs 2).val &&& 2 ≠ 0) (hj : j < 4) (hk : k < 131072) :
    s.getRamAddress (0x380000 + 131072 * j + k)
      = if s.ramSize = 640 * 1024 then
          (if j = 0 then k else if j = 1 then 0x80000 + k
            else if j = 2 then 0x100000 + k else 0x180000 + k)
        else
          (if j = 0 then k
            else if j = 1 then (if s.ramSize = 256 * 1024 then 0x20000 + k else 0xA0000 + k)
            else if j = 2 then 0x140000 + k else 0x1E0000 + k) := by
  have e : (0x380000 + 131072 * j + k + (4294967296 - 0x200000)) % 4294967296
      = 0x180000 + (131072 * j + k) := by omega
  have hr1 : 0x180000 ≤ 0x180000 + (131072 * j + k) := by omega
  have hr2 : 0x180000 + (131072 * j + k) ≤ 0x1FFFFF := by omega
  have e2 : 0x180000 + (131072 * j + k) - 0x180000 = 131072 * j + k := by omega
  have b5 := land_keep_low 5 k hk
  have b10 := land_keep_low 10 k hk
  have b15 := land_keep_low 15 k hk
  have o4 := block_or_low 4 k hk
  have o8 := block_or_low 8 k hk
  have o12 := block_or_low 12 k hk
  have c5 : (131072 * 5) &&& 0xFFF9FFFF = 131072 * 4 := by decide
  have c10 : (131072 * 10) &&& 0xFFF9FFFF = 131072 * 8 := by decide
  have c15 : (131072 * 15) &&& 0xFFF9FFFF = 131072 * 12 := by decide
  rw [c5, o4] at b5
  rw [c10, o8] at b10
  rw [c15, o12] at b15
  unfold YMF278.getRamAddress
  simp only [e, hmode, hr1, hr2, and_self, e2, land_drop_low j k hk, ne_eq,
    not_false_eq_true, if_true]
  by_cases h640 : s.ramSize = 640 * 1024
  · have h256 : ¬ s.ramSize = 256 * 1024 := by omega
    simp only [h640, h256, if_true, if_false]
    interval_cases j
    · have d : (131072 * 0) &&& 0x060000 = 0 := by decide
      have hle : ¬ 131072 * 0 + k > 0x080000 := by omega
      simp only [d, hle, if_true, if_false]
      omega
    · have d : (131072 * 1) &&& 0x060000 = 0x020000 := by decide
      have e3 : (131072 * 1 + k + 0x080000) % 4294967296 = 131072 * 5 + k := by omega
      simp only [d, e3]
      simp
      rw [if_pos (by omega)]
      simpa using b5
    · have d : (131072 * 2) &&& 0x060000 = 0x040000 := by decide
      have e3 : (131072 * 2 + k + 0x100000) % 4294967296 = 131072 * 10 + k := by omega
      simp only [d, e3]
      simp
      rw [if_pos (by omega)]
      simpa using b10
    · have d : (131072 * 3) &&& 0x060000 = 0x060000 := by decide
      have e3 : (131072 * 3 + k + 0x180000) % 4294967296 = 131072 * 15 + k := by omega
      simp only [d, e3]
      simp
      rw [if_pos (by omega)]
      simpa using b15
  · simp only [h640, if_false]
    interval_cases j
    · have d : (131072 * 0) &&& 0x060000 = 0 := by decide
      simp only [d, if_true]
      omega
    · have d : (131072 * 1) &&& 0x060000 = 0x020000 := by decide
      have e3 : (131072 * 1 + k + 0x080000) % 4294967296 = 0xA0000 + k := by omega
      simp only [d, e3]
      simp
    · have d : (131072 * 2) &&& 0x060000 = 0x040000 := by decide
      have e3 : (131072 * 2 + k + 0x100000) % 4294967296 = 0x140000 + k := by omega
      simp only [d, e3]
      simp
    · have d : (131072 * 3) &&& 0x060000 = 0x060000 := by decide
      have e3 : (131072 * 3 + k + 0x180000) % 4294967296 = 0x1E0000 + k := by omega
      simp only [d, e3]
      simp

/-- C28, as stated, fails: with 2048kB of sample RAM in memory access mode 1
the address `0x3C0000` accesses the RAM byte at offset `0x140000` (which
holds 10 here), not the byte at offset `0x100000` (which holds 8), and
`0x3E0000` accesses offset `0x1E0000`, not `0x180000`; with 1024kB the
address `0x3A0000` accesses offset `0xA0000`, not `0x80000`. -/
theorem YMF278.mode1_third_region_not_first_block :
    (YMF278.moonsound (2048 * 1024) 2 0).getRamAddress 0x3C0000 = 0x140000 ∧
    (YMF278.moonsound (2048 * 1024) 2 0).readMem 0x3C0000 = 10 ∧
    (YMF278.moonsound (2048 * 1024) 2 0).ram 0x100000 = 8 ∧
    (YMF278.moonsound (2048 * 1024) 2 0).getRamAddress 0x3E0000 = 0x1E0000 ∧
    (YMF278.moonsound (1024 * 1024) 2 0).getRamAddress 0x3A0000 = 0xA0000 ∧
    (YMF278.moonsound (1024 * 1024) 2 0).readMem 0x3A0000 = 5 := by
  decide

/-- C28, amended. In memory access mode 1 (bit 1 of register 2 set), with at
most 2048kB of sample RAM: `readMem` of an address in `0x200000 .. 0x37FFFF`
returns 255 and `writeMem` there changes no RAM byte; for `k < 0x20000` the
address `0x380000 + k` stands for the RAM offset `k`; `0x3A0000 + k` for
`0x20000 + k` with 256kB, `0x80000 + k` with 640kB and `0xA0000 + k`
otherwise; `0x3C0000 + k` for `0x140000 + k` (`0x100000 + k` with 640kB);
`0x3E0000 + k` for `0x1E0000 + k` (`0x180000 + k` with 640kB); and an access
in `0x380000 .. 0x3FFFFF` reads 255, and writes nothing, where that offset is
not below the size of the RAM. -/
theorem YMF278.mode1_regions (s : YMF278)
    (hmode : (s.regs 2).val &&& 2 ≠ 0) (hsize : s.ramSize ≤ 2048 * 1024) :
    (∀ (a : Nat) (value : byte), 0x200000 ≤ a → a ≤ 0x37FFFF →
      s.readMem a = 255 ∧ (s.writeMem a value).ram = s.ram) ∧
    (∀ k : Nat, k < 0x20000 →
      s.getRamAddress (0x380000 + k) = k ∧
      s.getRamAddress (0x3A0000 + k)
        = (if s.ramSize = 256 * 1024 then 0x20000 + k
           else if s.ramSize = 640 * 1024 then 0x80000 + k else 0xA0000 + k) ∧
      s.getRamAddress (0x3C0000 + k)
        = (if s.ramSize = 640 * 1024 then 0x100000 + k else 0x140000 + k) ∧
      s.getRamAddress (0x3E0000 + k)
        = (if s.ramSize = 640 * 1024 then 0x180000 + k else 0x1E0000 + k)) ∧
    (∀ (a : Nat) (value : byte), 0x380000 ≤ a → a ≤ 0x3FFFFF →
      s.readMem a
        = (if s.getRamAddress a < s.ramSize then s.ram (s.getRamAddress a) else 255) ∧
      (s.writeMem a value).ram
        = (if s.getRamAddress a < s.ramSize then
            fun x => if x = s.getRamAddress a then value else s.ram x
          else s.ram)) := by
  refine ⟨?_, ?_, ?_⟩
  · intro a value h1 h2
    have hg := YMF278.getRamAddress_mode1_low s a hmode hsize h1 h2
    rw [YMF278.readMem_ram s a h1 (by omega), YMF278.writeMem_ram s a value h1 (by omega),
      if_neg hg, if_neg hg]
    exact ⟨rfl, rfl⟩
  · intro k hk
    have r0 := YMF278.getRamAddress_mode1_high s 0 k hmode (by decide) hk
    have r1 := YMF278.getRamAddress_mode1_high s 1 k hmode (by decide) hk
    have r2 := YMF278.getRamAddress_mode1_high s 2 k hmode (by decide) hk
    have r3 := YMF278.getRamAddress_mode1_high s 3 k hmode (by decide) hk
    simp at r0 r1 r2 r3
    refine ⟨?_, ?_, ?_, ?_⟩
    · exact r0
    · have e : 0x3A0000 + k = 3670016 + 131072 + k := by omega
      rw [e, r1]
      by_cases h640 : s.ramSize = 640 * 1024
      · have h256 : s.ramSize ≠ 256 * 1024 := by omega
        simp [h640]
      · by_cases h256 : s.ramSize = 256 * 1024
        · simp [h256]
        · simp at h640 h256
          simp [h640, h256]
    · have e : 0x3C0000 + k = 3670016 + 262144 + k := by omega
      rw [e, r2]
    · have e : 0x3E0000 + k = 3670016 + 393216 + k := by omega
      rw [e, r3]
  · intro a value h1 h2
    exact ⟨YMF278.readMem_ram s a (by omega) h2, YMF278.writeMem_ram s a value (by omega) h2⟩

theorem YMF278.mode1_regions_witness :
    (YMF278.moonsound (2048 * 1024) 2 0).readMem 0x2C0005 = 255 ∧
    (YMF278.moonsound (2048 * 1024) 2 0).getRamAddress (0x3C0000 + 5) = 0x140000 + 5 ∧
    (YMF278.moonsound (640 * 1024) 2 0).getRamAddress (0x3A0000 + 5) = 0x80000 + 5 ∧
    (YMF278.moonsound (640 * 1024) 2 0).readMem (0x3C0000 + 5) = 255 :=
  ⟨((YMF278.mode1_regions (YMF278.moonsound (2048 * 1024) 2 0) (by decide) (by decide)).1
      0x2C0005 0 (by decide) (by decide)).1,
   by
     have h := ((YMF278.mode1_regions (YMF278.moonsound (2048 * 1024) 2 0) (by decide)
       (by decide)).2.1 5 (by decide)).2.2.1
     rw [h]
     decide,
   by
     have h := ((YMF278.mode1_regions (YMF278.moonsound (640 * 1024) 2 0) (by decide)
       (by decide)).2.1 5 (by decide)).2.1
     rw [h]
     decide,
   by decide⟩

/-! ## The memory registers of the `YMF278` -/

theorem YMF278.writeRegDirect_six (s : YMF278) (data : byte) :
    s.writeRegDirect 6 data
      = if (s.regs 2).val &&& 1 ≠ 0 then
          { s.writeMem (toBits s.memadr) data with
            memadr := wrapInt ((s.writeMem (toBits s.memadr) data).memadr + 1)
            regs := fun r => if r = 6 then data
              else (s.writeMem (toBits s.memadr) data).regs r }
        else { s with regs := fun r => if r = 6 then data else s.regs r } := by
  unfold YMF278.writeRegDirect YMF278.writeRegDirectWith
  have h : ¬ (0x08 ≤ ((6 : byte) : Nat) ∧ ((6 : byte) : Nat) ≤ 0xF7) := by decide
  simp only [h, if_false]
  split <;> rfl

theorem YMF278.writeMem_frame (address : Nat) (value : byte) (s : YMF278) :
    (s.writeMem address value).memadr = s.memadr ∧
    (s.writeMem address value).regs = s.regs ∧
    (s.writeMem address value).ramSize = s.ramSize ∧
    (s.writeMem address value).rom = s.rom := by
  unfold YMF278.writeMem
  simp only []
  split
  · exact ⟨rfl, rfl, rfl, rfl⟩
  · split <;> exact ⟨rfl, rfl, rfl, rfl⟩

theorem YMF278.readMem_writeMem (s : YMF278) (a : Nat) (value : byte) :
    (s.writeMem a value).readMem a
      = if 0x200000 ≤ a &&& 0x3FFFFF ∧ s.getRamAddress (a &&& 0x3FFFFF) < s.ramSize then value
        else s.readMem a := by
  unfold YMF278.writeMem
  simp only []
  by_cases h1 : a &&& 0x3FFFFF < 0x200000
  · rw [if_pos h1, if_neg (by omega)]
  · rw [if_neg h1]
    by_cases h2 : s.getRamAddress (a &&& 0x3FFFFF) < s.ramSize
    · rw [if_pos h2, if_pos ⟨by omega, h2⟩]
      unfold YMF278.readMem
      simp only [h1, if_false]
      have hg : YMF278.getRamAddress
          { s with ram := fun x => if x = s.getRamAddress (a &&& 0x3FFFFF) then value
                                   else s.ram x } (a &&& 0x3FFFFF)
          = s.getRamAddress (a &&& 0x3FFFFF) := rfl
      rw [hg]
      simp only [h2, if_true]
    · rw [if_neg h2, if_neg (fun h => h2 h.2)]

/-- C29. The memory data register 6 is gated by bit 0 of register 2.  With
the bit clear, a write to register 6 only stores the data in `regs[6]` (no
byte of the memory and not `memadr` changes), and a read returns 0xFF and
leaves the whole state.  With the bit set, a write does
`writeMem(memadr, data)`, after which `readMem(memadr)` gives the data when
`memadr` addresses a byte of the RAM, and a read returns `readMem(memadr)`;
both leave `memadr` one higher (as long as `memadr` is an `int` below
`INT_MAX`) and, apart from `regs[6]` on a write, nothing else changes.  The
result of `readReg` is that of `peekReg`, which has no access to change the
state; and `readReg` of a register other than 6 leaves the state. -/
theorem YMF278.memory_data_register (s : YMF278) (data : byte) :
    ((s.regs 2).val &&& 1 = 0 →
      s.writeRegDirect 6 data = { s with regs := fun r => if r = 6 then data else s.regs r } ∧
      s.readReg 6 = (0xFF, s)) ∧
    ((s.regs 2).val &&& 1 ≠ 0 →
      s.writeRegDirect 6 data
        = { s.writeMem (toBits s.memadr) data with
            memadr := wrapInt (s.memadr + 1)
            regs := fun r => if r = 6 then data else s.regs r } ∧
      (s.writeMem (toBits s.memadr) data).readMem (toBits s.memadr)
        = (if 0x200000 ≤ toBits s.memadr &&& 0x3FFFFF ∧
              s.getRamAddress (toBits s.memadr &&& 0x3FFFFF) < s.ramSize then data
           else s.readMem (toBits s.memadr)) ∧
      s.readReg 6 = (s.readMem (toBits s.memadr), { s with memadr := wrapInt (s.memadr + 1) }) ∧
      (-2147483648 ≤ s.memadr → s.memadr < 2147483647 →
        (s.writeRegDirect 6 data).memadr = s.memadr + 1 ∧
        (s.readReg 6).2.memadr = s.memadr + 1)) ∧
    (∀ reg : byte, (s.readReg reg).1 = s.peekReg reg ∧ (reg ≠ 6 → (s.readReg reg).2 = s)) := by
  refine ⟨?_, ?_, ?_⟩
  · intro h
    have hw := YMF278.writeRegDirect_six s data
    rw [if_neg (not_not.mpr h)] at hw
    refine ⟨hw, ?_⟩
    unfold YMF278.readReg YMF278.peekReg
    simp only [h, ne_eq, not_true_eq_false, if_false]
    rfl
  · intro h
    have hw := YMF278.writeRegDirect_six s data
    rw [if_pos h] at hw
    obtain ⟨hm, hr, _, _⟩ := YMF278.writeMem_frame (toBits s.memadr) data s
    rw [hm, hr] at hw
    have hread : s.readReg 6
        = (s.readMem (toBits s.memadr), { s with memadr := wrapInt (s.memadr + 1) }) := by
      unfold YMF278.readReg YMF278.peekReg
      simp only [h, ne_eq, not_false_eq_true, if_true]
      rfl
    refine ⟨hw, YMF278.readMem_writeMem s _ data, hread, ?_⟩
    intro h1 h2
    have hwrap : wrapInt (s.memadr + 1) = s.memadr + 1 := by
      unfold wrapInt
      omega
    constructor
    · rw [hw]
      exact hwrap
    · rw [hread]
      exact hwrap
  · intro reg
    constructor
    · rfl
    · intro hreg
      have hv : reg.val ≠ 6 := fun h => hreg (Fin.ext h)
      unfold YMF278.readReg
      simp [hv]

theorem YMF278.memory_data_register_witness :
    ((YMF278.moonsound (2048 * 1024) 0 0x200005).writeRegDirect 6 7).memadr = 0x200005 ∧
    ((YMF278.moonsound (2048 * 1024) 0 0x200005).writeRegDirect 6 7).ram 5 = 0 ∧
    ((YMF278.moonsound (2048 * 1024) 1 0x200005).writeRegDirect 6 7).memadr = 0x200006 ∧
    ((YMF278.moonsound (2048 * 1024) 1 0x200005).writeRegDirect 6 7).ram 5 = 7 ∧
    ((YMF278.moonsound (2048 * 1024) 1 0x200005).readReg 6).1 = 0 ∧
    ((YMF278.moonsound (2048 * 1024) 1 0x200005).readReg 6).2.memadr = 0x200006 := by
  have h0 := (YMF278.memory_data_register (YMF278.moonsound (2048 * 1024) 0 0x200005) 7).1
    (by decide)
  have h1 := (YMF278.memory_data_register (YMF278.moonsound (2048 * 1024) 1 0x200005) 7).2.1
    (by decide)
  refine ⟨?_, ?_, ?_, ?_, ?_, ?_⟩
  · rw [h0.1]
    rfl
  · rw [h0.1]
    decide
  · exact (h1.2.2.2 (by decide) (by decide)).1
  · rw [h1.1]
    decide
  · rw [h1.2.2.1]
    decide
  · exact (h1.2.2.2 (by decide) (by decide)).2

theorem toByte_ne_three (n : Nat) (h1 : 128 ≤ n) (h2 : n ≤ 247) : toByte n ≠ 3 := by
  intro h
  have hv := congrArg Fin.val h
  simp only [toByte] at hv
  have e : ((3 : byte) : Nat) = 3 := rfl
  rw [e] at hv
  omega

theorem toByte_masked_lt (d : byte) : (toByte (d.val &&& 0x3F)).val < 0x40 := by
  have h : d.val &&& 0x3F ≤ 0x3F := Nat.and_le_right
  show (d.val &&& 0x3F) % 256 < 0x40
  omega

theorem YMF278.writeRegDirectWith_three (self : byte → byte → YMF278 → YMF278)
    (data : byte) (s : YMF278) :
    YMF278.writeRegDirectWith self 3 data s
      = { s with regs := fun r => if r = 3 then toByte (data.val &&& 0x3F) else s.regs r } := by
  unfold YMF278.writeRegDirectWith
  have h : ¬ (0x08 ≤ ((3 : byte) : Nat) ∧ ((3 : byte) : Nat) ≤ 0xF7) := by decide
  simp only [h, if_false]

theorem YMF278.writeRegDirectWith_four (self : byte → byte → YMF278 → YMF278)
    (data : byte) (s : YMF278) :
    YMF278.writeRegDirectWith self 4 data s
      = { s with regs := fun r => if r = 4 then data else s.regs r } := by
  unfold YMF278.writeRegDirectWith
  have h : ¬ (0x08 ≤ ((4 : byte) : Nat) ∧ ((4 : byte) : Nat) ≤ 0xF7) := by decide
  simp only [h, if_false]

theorem YMF278.writeRegDirectWith_five (self : byte → byte → YMF278 → YMF278)
    (data : byte) (s : YMF278) :
    YMF278.writeRegDirectWith self 5 data s
      = { s with
          memadr := (((s.regs 3).val <<< 16 ||| (s.regs 4).val <<< 8 ||| data.val : Nat) : Int)
          regs := fun r => if r = 5 then data else s.regs r } := by
  unfold YMF278.writeRegDirectWith
  have h : ¬ (0x08 ≤ ((5 : byte) : Nat) ∧ ((5 : byte) : Nat) ≤ 0xF7) := by decide
  simp only [h, if_false]

theorem YMF278.writeRegDirectWith_regs_three (self : byte → byte → YMF278 → YMF278)
    (hself : ∀ r d s, r ≠ 3 → (self r d s).regs 3 = YMF278.regs s 3)
    (reg data : byte) (s : YMF278) :
    (YMF278.writeRegDirectWith self reg data s).regs 3
      = if reg = 3 then toByte (data.val &&& 0x3F) else s.regs 3 := by
  by_cases hreg : reg = 3
  · subst hreg
    rw [YMF278.writeRegDirectWith_three, if_pos rfl]
    rfl
  · rw [if_neg hreg]
    have h3 : ¬ ((3 : byte) = reg) := fun h => hreg h.symm
    have hm : ((reg.val - 8) % 24) < 24 := Nat.mod_lt _ (by decide)
    unfold YMF278.writeRegDirectWith
    simp only [h3, if_false]
    split
    · split
      · simp only [List.foldl]
        rw [hself _ _ _ (toByte_ne_three _ (by omega) (by omega)),
          hself _ _ _ (toByte_ne_three _ (by omega) (by omega)),
          hself _ _ _ (toByte_ne_three _ (by omega) (by omega)),
          hself _ _ _ (toByte_ne_three _ (by omega) (by omega)),
          hself _ _ _ (toByte_ne_three _ (by omega) (by omega))]
        rfl
      all_goals rfl
    · split
      · rfl
      · rfl
      · split
        · exact congrFun (YMF278.writeMem_frame (toBits s.memadr) data s).2.1 3
        · rfl
      · rfl
      · rfl
      · rfl

theorem YMF278.writeRegDirect_regs_three (reg data : byte) (s : YMF278) :
    (s.writeRegDirect reg data).regs 3
      = if reg = 3 then toByte (data.val &&& 0x3F) else s.regs 3 :=
  YMF278.writeRegDirectWith_regs_three _
    (fun r d t hr => by
      rw [YMF278.writeRegDirectWith_regs_three _ (fun _ _ _ _ => rfl) r d t, if_neg hr])
    reg data s

theorem YMF278.writeRegDirect_regs_three_lt (reg data : byte) (s : YMF278)
    (hs : (s.regs 3).val < 0x40) : ((s.writeRegDirect reg data).regs 3).val < 0x40 := by
  rw [YMF278.writeRegDirect_regs_three]
  split
  · exact toByte_masked_lt data
  · exact hs

theorem YMF278.foldl_writeRegDirect_regs_three (l : List Nat) (s : YMF278)
    (h : (s.regs 3).val < 0x40 ∨ 3 ∈ l) :
    (((l.foldl (fun s i => YMF278.writeRegDirect (toByte i) 0 s) s).regs 3).val < 0x40) := by
  induction l generalizing s with
  | nil =>
    rcases h with h | h
    · exact h
    · simp at h
  | cons a l ih =>
    apply ih
    rcases h with h | h
    · exact Or.inl (YMF278.writeRegDirect_regs_three_lt _ _ s h)
    · rcases List.mem_cons.mp h with h | h
      · left
        have e : toByte 3 = 3 := rfl
        rw [YMF278.writeRegDirect_regs_three, ← h, e, if_pos rfl]
        exact toByte_masked_lt 0
      · exact Or.inr h

theorem YMF278.reset_regs_three (s : YMF278) : ((s.reset).regs 3).val < 0x40 := by
  unfold YMF278.reset
  simp only []
  apply YMF278.foldl_writeRegDirect_regs_three
  right
  simp

theorem YMF278.foldl_access_regs_three (l : List YMF278.Access) (t : YMF278)
    (ht : (t.regs 3).val < 0x40) : (((l.foldl YMF278.access t).regs 3).val < 0x40) := by
  induction l generalizing t with
  | nil => exact ht
  | cons a l ih =>
    apply ih
    cases a with
    | write reg data => exact YMF278.writeRegDirect_regs_three_lt reg data t ht
    | read reg =>
      unfold YMF278.access YMF278.readReg
      simp only []
      split
      · split
        · exact ht
        · exact ht
      · exact ht

theorem memadr_bound (x y d : Nat) (hx : x < 0x40) (hy : y < 256) (hd : d < 256) :
    (x <<< 16 ||| y <<< 8 ||| d) < 4194304 := by
  have h1 : x <<< 16 < 2 ^ 22 := by
    rw [Nat.shiftLeft_eq]
    omega
  have h2 : y <<< 8 < 2 ^ 22 := by
    rw [Nat.shiftLeft_eq]
    omega
  have h3 : d < 2 ^ 22 := by omega
  exact Nat.or_lt_two_pow (Nat.or_lt_two_pow h1 h2) h3

/-- C30. In any state, a write to register 3 or to register 4 leaves `memadr`
and everything else and only stores the value in the register file: register
3 with its upper two bits cleared, register 4 as it is; a write of `d` to
register 5 sets `memadr` to `(regs[3] << 16) | (regs[4] << 8) | d` and stores
`d`.  In every state reached from `reset()` by register writes and register
reads, reading register 3 (with `peekReg` or `readReg`) gives a value below
0x40, and the `memadr` that a write to register 5 sets is below `2^22` (and
not negative). -/
theorem YMF278.memory_address_registers (s0 : YMF278) (accesses : List YMF278.Access)
    (t : YMF278) (d : byte) :
    t.writeRegDirect 3 d
      = { t with regs := fun r => if r = 3 then toByte (d.val &&& 0x3F) else t.regs r } ∧
    ((t.writeRegDirect 3 d).peekReg 3).val = d.val &&& 0x3F ∧
    t.writeRegDirect 4 d = { t with regs := fun r => if r = 4 then d else t.regs r } ∧
    t.writeRegDirect 5 d
      = { t with
          memadr := (((t.regs 3).val <<< 16 ||| (t.regs 4).val <<< 8 ||| d.val : Nat) : Int)
          regs := fun r => if r = 5 then d else t.regs r } ∧
    ((accesses.foldl YMF278.access s0.reset).peekReg 3).val < 0x40 ∧
    ((accesses.foldl YMF278.access s0.reset).readReg 3).1.val < 0x40 ∧
    0 ≤ ((accesses.foldl YMF278.access s0.reset).writeRegDirect 5 d).memadr ∧
    ((accesses.foldl YMF278.access s0.reset).writeRegDirect 5 d).memadr < 4194304 := by
  have h3 := YMF278.foldl_access_regs_three accesses _ (YMF278.reset_regs_three s0)
  have hb := memadr_bound _ _ _ h3
    ((accesses.foldl YMF278.access s0.reset).regs 4).isLt d.isLt
  have hmask : d.val &&& 0x3F ≤ 0x3F := Nat.and_le_right
  refine ⟨YMF278.writeRegDirectWith_three _ d t, ?_, YMF278.writeRegDirectWith_four _ d t,
    YMF278.writeRegDirectWith_five _ d t, h3, h3, ?_, ?_⟩
  · show ((t.writeRegDirect 3 d).regs 3).val = d.val &&& 0x3F
    rw [YMF278.writeRegDirect_regs_three, if_pos rfl]
    show (d.val &&& 0x3F) % 256 = d.val &&& 0x3F
    omega
  · show 0 ≤ (YMF278.writeRegDirectWith _ 5 d _).memadr
    rw [YMF278.writeRegDirectWith_five]
    exact Int.ofNat_nonneg _
  · show (YMF278.writeRegDirectWith _ 5 d _).memadr < 4194304
    rw [YMF278.writeRegDirectWith_five]
    show ((_ : Nat) : Int) < 4194304
    exact_mod_cast hb

/-! ## The decay of a muted `BlipBuffer` -/

theorem BlipBuffer.decay_eq (acc : Int) (h : isInt acc) :
    BlipBuffer.decay acc = acc - acc / 512 - (if acc - acc / 512 > 0 then 1 else 0) := by
  have e : ((2 : Int) ^ BlipBuffer.BASS_SHIFT) = 512 := by decide
  unfold isInt at h
  unfold BlipBuffer.decay intShr
  simp only [e]
  have h1 : wrapInt (acc - acc / 512) = acc - acc / 512 := by
    unfold wrapInt
    omega
  rw [h1]
  unfold wrapInt
  split <;> omega

theorem BlipBuffer.decay_eq_decaySpec (acc : Int) (h : isInt acc) :
    BlipBuffer.decay acc = BlipBuffer.decaySpec acc := by
  rw [BlipBuffer.decay_eq acc h]
  unfold BlipBuffer.decaySpec
  split <;> split <;> omega

theorem BlipBuffer.decay_pos (acc : Int) (h : isInt acc) (hp : 0 < acc) :
    0 ≤ BlipBuffer.decay acc ∧ BlipBuffer.decay acc < acc := by
  rw [BlipBuffer.decay_eq_decaySpec acc h]
  unfold BlipBuffer.decaySpec
  rw [if_pos hp]
  omega

theorem BlipBuffer.decay_neg (acc : Int) (h : isInt acc) (hn : acc < 0) :
    acc < BlipBuffer.decay acc ∧ BlipBuffer.decay acc ≤ 0 := by
  rw [BlipBuffer.decay_eq_decaySpec acc h]
  unfold BlipBuffer.decaySpec
  rw [if_neg (by omega)]
  omega

theorem BlipBuffer.decay_zero : BlipBuffer.decay 0 = 0 := by decide

theorem BlipBuffer.decay_isInt (acc : Int) (h : isInt acc) : isInt (BlipBuffer.decay acc) := by
  rcases lt_trichotomy acc 0 with hn | hz | hp
  · have := BlipBuffer.decay_neg acc h hn
    unfold isInt at h ⊢
    omega
  · rw [hz, BlipBuffer.decay_zero]
    decide
  · have := BlipBuffer.decay_pos acc h hp
    unfold isInt at h ⊢
    omega

theorem BlipBuffer.iterate_decay_zero (n : Nat) : BlipBuffer.decay^[n] 0 = 0 := by
  induction n with
  | zero => rfl
  | succ n ih => rw [Function.iterate_succ_apply, BlipBuffer.decay_zero, ih]

theorem BlipBuffer.iterate_decay_reaches_zero (m : Nat) :
    ∀ acc : Int, isInt acc → acc.natAbs ≤ m → ∃ n, n ≤ m ∧ BlipBuffer.decay^[n] acc = 0 := by
  induction m with
  | zero =>
    intro acc _ hm
    exact ⟨0, le_refl 0, by simpa using hm⟩
  | succ m ih =>
    intro acc h hm
    rcases lt_trichotomy acc 0 with hn | hz | hp
    · have hd := BlipBuffer.decay_neg acc h hn
      obtain ⟨n, hn1, hn2⟩ := ih (BlipBuffer.decay acc) (BlipBuffer.decay_isInt acc h)
        (by omega)
      exact ⟨n + 1, by omega, by rw [Function.iterate_succ_apply, hn2]⟩
    · exact ⟨0, Nat.zero_le _, hz⟩
    · have hd := BlipBuffer.decay_pos acc h hp
      obtain ⟨n, hn1, hn2⟩ := ih (BlipBuffer.decay acc) (BlipBuffer.decay_isInt acc h)
        (by omega)
      exact ⟨n + 1, by omega, by rw [Function.iterate_succ_apply, hn2]⟩

theorem BlipBuffer.iterate_decay_sign (n : Nat) :
    ∀ acc : Int, isInt acc →
      isInt (BlipBuffer.decay^[n] acc) ∧
      (0 ≤ acc → 0 ≤ BlipBuffer.decay^[n] acc ∧ BlipBuffer.decay^[n] acc ≤ acc) ∧
      (acc ≤ 0 → acc ≤ BlipBuffer.decay^[n] acc ∧ BlipBuffer.decay^[n] acc ≤ 0) := by
  induction n with
  | zero =>
    intro acc h
    exact ⟨h, fun h0 => ⟨h0, le_refl _⟩, fun h0 => ⟨le_refl _, h0⟩⟩
  | succ n ih =>
    intro acc h
    rw [Function.iterate_succ_apply]
    obtain ⟨i1, i2, i3⟩ := ih (BlipBuffer.decay acc) (BlipBuffer.decay_isInt acc h)
    refine ⟨i1, ?_, ?_⟩
    · intro h0
      rcases lt_or_eq_of_le h0 with hp | hz
      · have hd := BlipBuffer.decay_pos acc h hp
        have := i2 hd.1
        omega
      · rw [← hz, BlipBuffer.decay_zero, BlipBuffer.iterate_decay_zero]
        exact ⟨le_refl _, le_refl _⟩
    · intro h0
      rcases lt_or_eq_of_le h0 with hn | hz
      · have hd := BlipBuffer.decay_neg acc h hn
        have := i3 hd.2
        omega
      · rw [hz, BlipBuffer.decay_zero, BlipBuffer.iterate_decay_zero]
        exact ⟨le_refl _, le_refl _⟩

theorem BlipBuffer.mutedLoop_snd (samples : Nat) :
    ∀ acc : Int, (BlipBuffer.mutedLoop samples acc).2 = BlipBuffer.decay^[samples] acc := by
  induction samples with
  | zero => intro acc; rfl
  | succ n ih =>
    intro acc
    rw [Function.iterate_succ_apply]
    exact ih (BlipBuffer.decay acc)

theorem BlipBuffer.readSamples_muted (S M samples : Nat) (b : BlipBuffer)
    (h : b.availSamp ≤ 0) :
    ∃ r, BlipBuffer.readSamples S M samples b = some r ∧
      r.1 = decide (b.accum ≠ 0) ∧
      r.2.2 = { b with accum := BlipBuffer.decay^[samples] b.accum } := by
  unfold BlipBuffer.readSamples
  rw [if_pos h]
  by_cases h0 : b.accum = 0
  · rw [if_pos h0]
    refine ⟨_, rfl, by simp [h0], ?_⟩
    rw [h0, BlipBuffer.iterate_decay_zero, ← h0]
  · rw [if_neg h0]
    refine ⟨_, rfl, by simp [h0], ?_⟩
    simp only [BlipBuffer.mutedLoop_snd]

theorem BlipBuffer.readMany_muted (S M : Nat) (ns : List Nat) :
    ∀ b : BlipBuffer, b.availSamp ≤ 0 →
      BlipBuffer.readMany S M ns b
        = some { b with accum := BlipBuffer.decay^[ns.sum] b.accum } := by
  induction ns with
  | nil => intro b _; rfl
  | cons n ns ih =>
    intro b h
    obtain ⟨r, hr, _, hr2⟩ := BlipBuffer.readSamples_muted S M n b h
    simp only [BlipBuffer.readMany, hr]
    rw [hr2]
    have h2 := ih { b with accum := BlipBuffer.decay^[n] b.accum } h
    rw [h2]
    simp only [List.sum_cons]
    rw [Nat.add_comm, Function.iterate_add_apply]

theorem BlipBuffer.mutedLoop_fst (samples : Nat) :
    ∀ acc : Int, (BlipBuffer.mutedLoop samples acc).1
      = (List.range samples).map
          (fun k => intShr (BlipBuffer.decay^[k] acc) BlipBuffer.SAMPLE_SHIFT) := by
  induction samples with
  | zero => intro acc; rfl
  | succ n ih =>
    intro acc
    rw [List.range_succ_eq_map, List.map_cons, List.map_map]
    show intShr acc BlipBuffer.SAMPLE_SHIFT :: (BlipBuffer.mutedLoop n (BlipBuffer.decay acc)).1
      = _
    rw [ih (BlipBuffer.decay acc)]
    rfl

theorem BlipBuffer.readSamples_muted_eq (S M samples : Nat) (b : BlipBuffer)
    (h : b.availSamp ≤ 0) :
    BlipBuffer.readSamples S M samples b
      = some (decide (b.accum ≠ 0),
          if b.accum = 0 then []
          else (List.range samples).map
            (fun k => intShr (BlipBuffer.decay^[k] b.accum) BlipBuffer.SAMPLE_SHIFT),
          { b with accum := BlipBuffer.decay^[samples] b.accum }) := by
  unfold BlipBuffer.readSamples
  rw [if_pos h]
  by_cases h0 : b.accum = 0
  · rw [if_pos h0, if_pos h0]
    have e : ({ b with accum := BlipBuffer.decay^[samples] b.accum } : BlipBuffer) = b := by
      rw [h0, BlipBuffer.iterate_decay_zero, ← h0]
    rw [e]
    simp [h0]
  · rw [if_neg h0, if_neg h0]
    simp only [BlipBuffer.mutedLoop_snd, BlipBuffer.mutedLoop_fst]
    simp [h0]

/-- C31. For every `int` value `acc`, the decay of the muted branch of
`readSamples` is the assignment `acc := acc - (acc >> 9) - (acc > 0 ? 1 : 0)`
(arithmetic shift); iterating it reaches 0 after at most `|acc|` steps, every
value on the way lies between 0 and `acc` (so the sign never changes), and 0
is kept.  On a buffer with `availSamp <= 0` and `accum == acc` a call
`readSamples(out, samples)` returns `accum != 0`, writes for a non-zero
`accum` the `samples` values `acc >> SAMPLE_SHIFT` of the successive decay
steps, and leaves `accum` decayed `samples` times and every other member as
it was.  Hence, without `addDelta`, every sequence of `readSamples` calls
returns, and once the calls have asked for at least `|accum|` samples in
total `accum` is 0 and the next `readSamples` returns `false` (muted), writes
nothing and leaves the state. -/
theorem BlipBuffer.muted_decay_reaches_zero (acc : Int) (hacc : isInt acc) :
    BlipBuffer.decay acc = BlipBuffer.decaySpec acc ∧
    (∃ n, n ≤ acc.natAbs ∧ BlipBuffer.decay^[n] acc = 0) ∧
    (∀ k, (0 ≤ acc → 0 ≤ BlipBuffer.decay^[k] acc ∧ BlipBuffer.decay^[k] acc ≤ acc) ∧
          (acc ≤ 0 → acc ≤ BlipBuffer.decay^[k] acc ∧ BlipBuffer.decay^[k] acc ≤ 0)) ∧
    (∀ k, BlipBuffer.decay^[k] 0 = 0) ∧
    (∀ (S M : Nat) (b : BlipBuffer) (samples : Nat),
      b.availSamp ≤ 0 → b.accum = acc →
      BlipBuffer.readSamples S M samples b
        = some (decide (acc ≠ 0),
            if acc = 0 then []
            else (List.range samples).map
              (fun k => intShr (BlipBuffer.decay^[k] acc) BlipBuffer.SAMPLE_SHIFT),
            { b with accum := BlipBuffer.decay^[samples] acc })) ∧
    (∀ (S M : Nat) (b : BlipBuffer) (ns : List Nat),
      b.availSamp ≤ 0 → b.accum = acc →
      BlipBuffer.readMany S M ns b
        = some { b with accum := BlipBuffer.decay^[ns.sum] acc }) ∧
    (∀ (S M : Nat) (b : BlipBuffer) (ns : List Nat) (samples : Nat),
      b.availSamp ≤ 0 → b.accum = acc → acc.natAbs ≤ ns.sum →
      ∃ b2, BlipBuffer.readMany S M ns b = some b2 ∧
        b2 = { b with accum := 0 } ∧
        BlipBuffer.readSamples S M samples b2 = some (false, [], b2)) := by
  refine ⟨BlipBuffer.decay_eq_decaySpec acc hacc,
    BlipBuffer.iterate_decay_reaches_zero acc.natAbs acc hacc (le_refl _),
    fun k => (BlipBuffer.iterate_decay_sign k acc hacc).2,
    BlipBuffer.iterate_decay_zero, ?_, ?_, ?_⟩
  · intro S M b samples hav hb
    rw [← hb]
    exact BlipBuffer.readSamples_muted_eq S M samples b hav
  · intro S M b ns hav hb
    rw [← hb]
    exact BlipBuffer.readMany_muted S M ns b hav
  · intro S M b ns samples hav hb hsum
    obtain ⟨n, hn1, hn2⟩ :=
      BlipBuffer.iterate_decay_reaches_zero acc.natAbs acc hacc (le_refl _)
    have hz : BlipBuffer.decay^[ns.sum] b.accum = 0 := by
      have e : ns.sum = (ns.sum - n) + n := by omega
      rw [hb, e, Function.iterate_add_apply, hn2, BlipBuffer.iterate_decay_zero]
    have hmany := BlipBuffer.readMany_muted S M ns b hav
    rw [hz] at hmany
    refine ⟨_, hmany, rfl, ?_⟩
    have h2 := BlipBuffer.readSamples_muted_eq S M samples { b with accum := 0 } hav
    rw [h2]
    simp [BlipBuffer.iterate_decay_zero]

theorem BlipBuffer.muted_decay_reaches_zero_witness :
    BlipBuffer.decay 1000 = 998 ∧ BlipBuffer.decaySpec 1000 = 998 ∧
    BlipBuffer.decay (-1000) = -998 ∧
    (∃ n, n ≤ 3 ∧ BlipBuffer.decay^[n] (-3) = 0) ∧
    BlipBuffer.readSamples 8 7 2
        { offset := 0, accum := 20000, availSamp := 0, buffer := List.replicate 8 0 }
      = some (true, [2, 2],
          { offset := 0, accum := 19921, availSamp := 0, buffer := List.replicate 8 0 }) ∧
    (∃ b2, BlipBuffer.readMany 8 7 [1, 2]
        { offset := 0, accum := -3, availSamp := 0, buffer := List.replicate 8 0 } = some b2 ∧
      b2 = { offset := 0, accum := 0, availSamp := 0, buffer := List.replicate 8 0 } ∧
      BlipBuffer.readSamples 8 7 4 b2 = some (false, [], b2)) := by
  have h := BlipBuffer.muted_decay_reaches_zero 1000 (by decide)
  have h3 := BlipBuffer.muted_decay_reaches_zero (-3) (by decide)
  have e : BlipBuffer.decay 1000 = 998 := by decide
  refine ⟨e, ?_, by decide, h3.2.1, by decide, ?_⟩
  · rw [← h.1, e]
  · exact h3.2.2.2.2.2.2 8 7 _ [1, 2] 4 (by decide) rfl (by decide)

/-! ## Inserting a disk -/

/-- C32. The code at the failing input: the drive holds `old.dsk`, unpatched,
and `insertDisk` is called for `new.dsk` with the patches `a.ips` (which
applies) and `broken` (whose application throws).  The call throws, and the
disk left in the drive is `old.dsk` with the patch `a.ips` applied: the loop
patches `disk`, the disk in the drive, not `newDisk`.  (With all patches
applying, the drive ends up with `new.dsk` unpatched.  When no image format
accepts the file, the call throws and leaves the drive as it was.) -/
theorem DiskChanger.insertDisk_patches_current_disk :
    DiskChanger.insertDisk DiskChanger.exampleDisks
        ["diska", "new.dsk", "a.ips", "broken"] DiskChanger.exampleDrive
      = some ({ driveName := "diska", disk := { name := "old.dsk", patches := ["a.ips"] }
                diskChangedFlag := false, updates := [] }, Outcome.threw) ∧
    DiskChanger.exampleDrive.disk = { name := "old.dsk", patches := [] } ∧
    DiskChanger.insertDisk DiskChanger.exampleDisks
        ["diska", "new.dsk", "a.ips"] DiskChanger.exampleDrive
      = some ({ driveName := "diska", disk := { name := "new.dsk", patches := [] }
                diskChangedFlag := true, updates := [("diska", "new.dsk")] },
              Outcome.returned) ∧
    DiskChanger.insertDisk DiskChanger.exampleDisks
        ["diska", "new.txt", "a.ips"] DiskChanger.exampleDrive
      = some (DiskChanger.exampleDrive, Outcome.threw) := by
  decide

/-! ## The planar remapping and the round trip of a CPU write -/

theorem toBits_ofBits (n : Nat) : toBits (ofBits n) = n % 4294967296 := by
  unfold toBits ofBits wrapInt
  omega

theorem toBits_natCast (n : Nat) : toBits (n : Int) = n % 4294967296 := by
  unfold toBits
  omega

theorem ofBits_small (n : Nat) (h : n < 2147483648) : ofBits n = (n : Int) := by
  unfold ofBits wrapInt
  omega

theorem VDPVRAM.planarAddress_eq (n : Nat) (hn : n < 131072) :
    VDPVRAM.planarAddress (n : Int) = ((65536 * (n % 2) + n / 2 : Nat) : Int) := by
  have hB : n / 2 < 2 ^ 16 := by omega
  have e1 : toBits (intShl (n : Int) 16) = n * 65536 % 4294967296 := by
    unfold intShl
    rw [toBits_ofBits, toBits_natCast, Nat.shiftLeft_eq]
    omega
  have e2 : toBits (intShr (n : Int) 1) = n / 2 := by
    have h2 : intShr (n : Int) 1 = ((n / 2 : Nat) : Int) := by
      unfold intShr
      omega
    rw [h2, toBits_natCast]
    omega
  have e3 : toBits (0x1FFFF : Int) = 2 ^ 17 - 1 := by decide
  have hA : n * 65536 % 4294967296 < 2 ^ 32 := by omega
  have hor : (n * 65536 % 4294967296 ||| n / 2) < 2 ^ 32 :=
    Nat.or_lt_two_pow hA (by omega)
  have hmodA : n * 65536 % 4294967296 % 2 ^ 17 = 2 ^ 16 * (n % 2) := by omega
  have hmodB : n / 2 % 2 ^ 17 = n / 2 := by omega
  have key : (n * 65536 % 4294967296 ||| n / 2) &&& (2 ^ 17 - 1)
      = 65536 * (n % 2) + n / 2 := by
    rw [Nat.and_comm, Nat.and_or_distrib_left, Nat.and_comm, Nat.and_comm (2 ^ 17 - 1),
      Nat.and_pow_two_sub_one_eq_mod, Nat.and_pow_two_sub_one_eq_mod, hmodA, hmodB,
      ← Nat.mul_add_lt_is_or hB]
  unfold VDPVRAM.planarAddress
  unfold intAnd
  rw [e3]
  unfold intOr
  have hor2 : (n * 65536 % 4294967296 ||| n / 2) % 4294967296
      = (n * 65536 % 4294967296 ||| n / 2) := Nat.mod_eq_of_lt hor
  rw [toBits_ofBits, e1, e2, hor2, key]
  exact ofBits_small _ (by omega)

theorem VDPVRAM.planarAddress_range (a : Int) (ha : 0 ≤ a ∧ a < 131072) :
    VDPVRAM.planarAddress a
      = 65536 * (a % 2) + a / 2 := by
  obtain ⟨n, rfl⟩ := Int.eq_ofNat_of_zero_le ha.1
  rw [VDPVRAM.planarAddress_eq n (by omega)]
  push_cast
  rfl

theorem VDPVRAM.planarAddress_unplanar (c : Int) (hc : 0 ≤ c ∧ c < 131072) :
    0 ≤ 2 * (c % 65536) + c / 65536 ∧ 2 * (c % 65536) + c / 65536 < 131072 ∧
    VDPVRAM.planarAddress (2 * (c % 65536) + c / 65536) = c := by
  have h : 0 ≤ 2 * (c % 65536) + c / 65536 ∧ 2 * (c % 65536) + c / 65536 < 131072 := by
    omega
  refine ⟨h.1, h.2, ?_⟩
  rw [VDPVRAM.planarAddress_range _ h]
  omega

theorem VDPVRAM.cpuWrite_eq_cmdWrite {σ : Type} (E : VDPCmdEngine σ) (a : Int) (v : byte)
    (T : EmuTime) (m : VDPVRAM.World σ) :
    VDPVRAM.cpuWrite E a v T m
      = VDPVRAM.cmdWrite
          (if (VDPVRAM.beforeStore E a T m).vram.planar then VDPVRAM.planarAddress a else a)
          v T (VDPVRAM.beforeStore E a T m) := by
  unfold VDPVRAM.cpuWrite VDPVRAM.beforeStore
  rfl

/-- C33, amended. With 128kB of VRAM (at the moment of the store), in planar
and in non-planar mode alike, for addresses `a`, `b` in `[0, 2^17)` and every
byte `v`: `cpuWrite(a, v, T)` returns, after it `read(a)` returns `v`, and for
`b != a` `read(b)` returns what it returns at the moment of the store: that is
in the state the `cmdEngine->sync(T)` leaves that `cpuWrite` makes first when
`a` is inside `cmdReadWindow` or `cmdWriteWindow`, and in the state before the
call when `a` is in neither.  The planar remapping is a bijection on
`[0, 2^17)`: it maps `a` to `65536 * (a % 2) + a / 2`, into the range, one to
one and onto. -/
theorem VDPVRAM.cpuWrite_read_round_trip {σ : Type} (E : VDPCmdEngine σ) (a : Int) (v : byte)
    (T : EmuTime) (m : VDPVRAM.World σ) (ha : 0 ≤ a ∧ a < 131072)
    (hsize : (VDPVRAM.beforeStore E a T m).vram.size = 131072) :
    (∃ m2, VDPVRAM.cpuWrite E a v T m = some m2 ∧
      VDPVRAM.read m2.vram a = some v ∧
      ∀ b : Int, 0 ≤ b ∧ b < 131072 → b ≠ a →
        VDPVRAM.read m2.vram b = VDPVRAM.read (VDPVRAM.beforeStore E a T m).vram b) ∧
    (0 ≤ VDPVRAM.planarAddress a ∧ VDPVRAM.planarAddress a < 131072) ∧
    (∀ b : Int, 0 ≤ b ∧ b < 131072 → VDPVRAM.planarAddress b = VDPVRAM.planarAddress a →
      b = a) ∧
    (∃ c : Int, (0 ≤ c ∧ c < 131072) ∧ VDPVRAM.planarAddress c = a) ∧
    ((m.vram.cmdReadWindow.isInside a || m.vram.cmdWriteWindow.isInside a) = true →
      VDPVRAM.beforeStore E a T m = VDPVRAM.sync E T m) ∧
    ((m.vram.cmdReadWindow.isInside a || m.vram.cmdWriteWindow.isInside a) = false →
      VDPVRAM.beforeStore E a T m = m) := by
  have hpa := VDPVRAM.planarAddress_range a ha
  have hinj : ∀ b : Int, 0 ≤ b ∧ b < 131072 →
      VDPVRAM.planarAddress b = VDPVRAM.planarAddress a → b = a := by
    intro b hb h
    rw [VDPVRAM.planarAddress_range b hb, hpa] at h
    omega
  refine ⟨?_, by rw [hpa]; omega, hinj, ?_, ?_, ?_⟩
  · have hw0 := VDPVRAM.cpuWrite_eq_cmdWrite E a v T m
    obtain ⟨M, hM⟩ : ∃ M, M = VDPVRAM.beforeStore E a T m := ⟨_, rfl⟩
    rw [← hM] at hsize hw0 ⊢
    have hremap : ∀ b : Int, 0 ≤ b ∧ b < 131072 →
        0 ≤ (if M.vram.planar then VDPVRAM.planarAddress b else b) ∧
        (if M.vram.planar then VDPVRAM.planarAddress b else b) < M.vram.size := by
      intro b hb
      rw [hsize]
      split
      · rw [VDPVRAM.planarAddress_range b hb]
        omega
      · exact hb
    have hlen : M.vram.data.length = 131072 := by
      unfold VDPVRAM.size at hsize
      omega
    have hw := hw0
    have hA := hremap a ha
    obtain ⟨A, hAeq⟩ : ∃ A, A = (if M.vram.planar then VDPVRAM.planarAddress a else a) :=
      ⟨_, rfl⟩
    rw [← hAeq] at hA hw
    rw [hw]
    unfold VDPVRAM.cmdWrite
    simp only [if_pos hA]
    refine ⟨_, rfl, ?_, ?_⟩
    · unfold VDPVRAM.read
      simp only [← hAeq]
      have hA2 : 0 ≤ A ∧ A < VDPVRAM.size
          { M.vram with data := M.vram.data.set A.toNat v, currentTime := T } := by
        unfold VDPVRAM.size
        simp only [List.length_set]
        unfold VDPVRAM.size at hA
        exact hA
      rw [if_pos hA2]
      show (M.vram.data.set A.toNat v)[A.toNat]? = some v
      exact List.getElem?_set_self (by omega)
    · intro b hb hne
      have hB := hremap b hb
      obtain ⟨B, hBeq⟩ : ∃ B, B = (if M.vram.planar then VDPVRAM.planarAddress b else b) :=
        ⟨_, rfl⟩
      rw [← hBeq] at hB
      have hAB : A.toNat ≠ B.toNat := by
        intro h
        have hAB2 : B = A := by omega
        rw [hAeq, hBeq] at hAB2
        by_cases hp : M.vram.planar = true
        · simp only [hp, if_true] at hAB2
          exact hne (hinj b hb hAB2)
        · simp only [hp, if_false] at hAB2
          exact hne hAB2
      unfold VDPVRAM.read
      simp only [← hBeq]
      have hB2 : 0 ≤ B ∧ B < VDPVRAM.size
          { M.vram with data := M.vram.data.set A.toNat v, currentTime := T } := by
        unfold VDPVRAM.size
        simp only [List.length_set]
        unfold VDPVRAM.size at hB
        exact hB
      rw [if_pos hB2, if_pos hB]
      exact List.getElem?_set_ne hAB
  · obtain ⟨h1, h2, h3⟩ := VDPVRAM.planarAddress_unplanar a ha
    exact ⟨_, ⟨h1, h2⟩, h3⟩
  · intro hin
    unfold VDPVRAM.beforeStore
    rw [if_pos hin]
  · intro hin
    unfold VDPVRAM.beforeStore
    rw [if_neg (by rw [hin]; decide)]

theorem VDPVRAM.cpuWrite_read_round_trip_witness :
    (∃ m2, VDPVRAM.cpuWrite VDPVRAM.smallEngine 3 7 5 VDPVRAM.planar128World = some m2 ∧
      VDPVRAM.read m2.vram 3 = some 7 ∧
      ∀ b : Int, 0 ≤ b ∧ b < 131072 → b ≠ 3 →
        VDPVRAM.read m2.vram b
          = VDPVRAM.read
              (VDPVRAM.beforeStore VDPVRAM.smallEngine 3 5 VDPVRAM.planar128World).vram b) ∧
    VDPVRAM.planarAddress 3 = 65537 ∧
    VDPVRAM.beforeStore VDPVRAM.smallEngine 3 5 VDPVRAM.planar128World
      = VDPVRAM.planar128World := by
  have hb : VDPVRAM.beforeStore VDPVRAM.smallEngine 3 5 VDPVRAM.planar128World
      = VDPVRAM.planar128World := by
    unfold VDPVRAM.beforeStore
    rw [if_neg (by decide)]
  refine ⟨(VDPVRAM.cpuWrite_read_round_trip VDPVRAM.smallEngine 3 7 5 VDPVRAM.planar128World
    (by decide) ?_).1, by decide, hb⟩
  rw [hb]
  simp only [VDPVRAM.size, VDPVRAM.planar128World, VDPVRAM.planar128, List.length_replicate]
  rfl

/-! ## A window as the set of the addresses of its table -/

theorem testBit_eq_false_of_lt_two_pow_32 (n i : Nat) (hn : n < 2 ^ 32)
    (hi : ((2 : Nat) ^ 32 - 1).testBit i = false) : n.testBit i = false := by
  rw [Nat.testBit_two_pow_sub_one] at hi
  have h32 : 32 ≤ i := by simpa using hi
  exact Nat.testBit_lt_two_pow (lt_of_lt_of_le hn (Nat.pow_le_pow_right (by decide) h32))

theorem land_window_of_index_pow (B I M : Nat) (hB : B < 2 ^ 32) (h : I &&& M = M) :
    (B &&& I) &&& ((B ^^^ (2 ^ 32 - 1)) ||| M) = B &&& M := by
  apply Nat.eq_of_testBit_eq
  intro i
  have hI := congrArg (fun n => n.testBit i) h
  simp only [Nat.testBit_and] at hI
  have hf := testBit_eq_false_of_lt_two_pow_32 B i hB
  simp only [Nat.testBit_and, Nat.testBit_or, Nat.testBit_xor]
  cases hb : B.testBit i <;> cases hi : I.testBit i <;> cases hm : M.testBit i <;>
    cases hF : ((2 : Nat) ^ 32 - 1).testBit i <;> simp_all

theorem land_index_of_window_pow (A B M : Nat) (hA : A < 2 ^ 32) (hB : B < 2 ^ 32)
    (h : A &&& ((B ^^^ (2 ^ 32 - 1)) ||| M) = B &&& M) :
    B &&& (A ||| M) = A := by
  apply Nat.eq_of_testBit_eq
  intro i
  have hI := congrArg (fun n => n.testBit i) h
  simp only [Nat.testBit_and, Nat.testBit_or, Nat.testBit_xor] at hI
  have hfA := testBit_eq_false_of_lt_two_pow_32 A i hA
  have hfB := testBit_eq_false_of_lt_two_pow_32 B i hB
  simp only [Nat.testBit_and, Nat.testBit_or]
  cases ha : A.testBit i <;> cases hb : B.testBit i <;> cases hm : M.testBit i <;>
    cases hF : ((2 : Nat) ^ 32 - 1).testBit i <;> simp_all

theorem word_mask_eq : (4294967295 : Nat) = 2 ^ 32 - 1 := by norm_num

theorem land_window_of_index (B I M : Nat) (hB : B < 4294967296) (h : I &&& M = M) :
    (B &&& I) &&& ((B ^^^ 4294967295) ||| M) = B &&& M := by
  rw [word_mask_eq]
  exact land_window_of_index_pow B I M (by omega) h

theorem land_index_of_window (A B M : Nat) (hA : A < 4294967296) (hB : B < 4294967296)
    (h : A &&& ((B ^^^ 4294967295) ||| M) = B &&& M) :
    B &&& (A ||| M) = A := by
  rw [word_mask_eq] at h
  exact land_index_of_window_pow A B M (by omega) (by omega) h

theorem lor_lt_word (x y : Nat) (hx : x < 4294967296) (hy : y < 4294967296) :
    x ||| y < 4294967296 := by
  have h := Nat.or_lt_two_pow (show x < 2 ^ 32 by omega) (show y < 2 ^ 32 by omega)
  omega

theorem lxor_lt_word (x y : Nat) (hx : x < 4294967296) (hy : y < 4294967296) :
    x ^^^ y < 4294967296 := by
  have h := Nat.xor_lt_two_pow (show x < 2 ^ 32 by omega) (show y < 2 ^ 32 by omega)
  omega

theorem lor_land_self (A M : Nat) : (A ||| M) &&& M = M := by
  apply Nat.eq_of_testBit_eq
  intro i
  simp only [Nat.testBit_and, Nat.testBit_or]
  cases A.testBit i <;> cases M.testBit i <;> rfl

theorem ofBits_injective (x y : Nat) (hx : x < 4294967296) (hy : y < 4294967296)
    (h : ofBits x = ofBits y) : x = y := by
  unfold ofBits wrapInt at h
  omega

theorem ofBits_isInt (n : Nat) : isInt (ofBits n) := by
  unfold ofBits wrapInt isInt
  omega

theorem VDPVRAM.Window.setMask_isInside_bits (w : VDPVRAM.Window) (baseMask : Int)
    (indexBits : Nat) (a : Int) :
    (w.setMask baseMask indexBits).isInside a = true ↔
      toBits a &&& ((toBits baseMask ^^^ 4294967295) ||| toBits (intShl (-1) indexBits))
        = toBits baseMask &&& toBits (intShl (-1) indexBits) := by
  have hB := toBits_lt baseMask
  have hM := toBits_lt (intShl (-1) indexBits)
  have hA := toBits_lt a
  have hx : toBits baseMask ^^^ 4294967295 < 4294967296 := lxor_lt_word _ _ hB (by decide)
  have hC : (toBits baseMask ^^^ 4294967295) ||| toBits (intShl (-1) indexBits)
      < 4294967296 := lor_lt_word _ _ hx hM
  have e1 : toBits (intNot baseMask) = toBits baseMask ^^^ 4294967295 := by
    unfold intNot
    rw [toBits_ofBits]
    exact Nat.mod_eq_of_lt hx
  have e2 : toBits (intOr (intNot baseMask) (intShl (-1) indexBits))
      = (toBits baseMask ^^^ 4294967295) ||| toBits (intShl (-1) indexBits) := by
    unfold intOr
    rw [toBits_ofBits, e1]
    exact Nat.mod_eq_of_lt hC
  simp only [VDPVRAM.Window.isInside, VDPVRAM.Window.setMask, beq_iff_eq]
  unfold intAnd
  rw [e2]
  constructor
  · intro h
    exact ofBits_injective _ _ (lt_of_le_of_lt Nat.and_le_left hA)
      (lt_of_le_of_lt Nat.and_le_left hB) h
  · intro h
    rw [h]

/-- C34. For a window configured by `setMask(baseMask, indexBits)` and an
`int` address `a`: `isInside(a)` holds exactly when there is an (`int`) index
whose bits from position `indexBits` upward are all 1, that is
`index & (-1 << indexBits) == (-1 << indexBits)`, with
`a == (baseMask & index)`.  The address that `readArea(index)` points to, and
that `readNP(index)` reads, is `baseMask & index`, so for such an index it is
inside the window. -/
theorem VDPVRAM.Window.isInside_iff_indexed (w : VDPVRAM.Window) (baseMask : Int)
    (indexBits : Nat) (a : Int) (ha : isInt a) :
    ((w.setMask baseMask indexBits).isInside a = true ↔
      ∃ index : Int, isInt index ∧
        intAnd index (intShl (-1) indexBits) = intShl (-1) indexBits ∧
        a = intAnd baseMask index) ∧
    (∀ index addr : Int, (w.setMask baseMask indexBits).readArea index = some addr →
      addr = intAnd baseMask index ∧
      (intAnd index (intShl (-1) indexBits) = intShl (-1) indexBits →
        (w.setMask baseMask indexBits).isInside addr = true)) ∧
    (∀ (data : List byte) (index : Int) (b : byte),
      (w.setMask baseMask indexBits).readNP data index = some b →
      data[(intAnd baseMask index).toNat]? = some b) := by
  have hB := toBits_lt baseMask
  have hMint : isInt (intShl (-1) indexBits) := ofBits_isInt _
  have hback : ∀ index : Int,
      intAnd index (intShl (-1) indexBits) = intShl (-1) indexBits →
      (w.setMask baseMask indexBits).isInside (intAnd baseMask index) = true := by
    intro index hwf
    rw [VDPVRAM.Window.setMask_isInside_bits]
    have hI : toBits index &&& toBits (intShl (-1) indexBits)
        = toBits (intShl (-1) indexBits) := by
      have h2 := congrArg toBits hwf
      unfold intAnd at h2
      rw [toBits_ofBits] at h2
      have h3 : (toBits index &&& toBits (intShl (-1) indexBits)) % 4294967296
          = toBits index &&& toBits (intShl (-1) indexBits) :=
        Nat.mod_eq_of_lt (lt_of_le_of_lt Nat.and_le_left (toBits_lt index))
      rw [h3] at h2
      exact h2
    have e : toBits (intAnd baseMask index) = toBits baseMask &&& toBits index := by
      unfold intAnd
      rw [toBits_ofBits]
      exact Nat.mod_eq_of_lt (lt_of_le_of_lt Nat.and_le_left hB)
    rw [e]
    exact land_window_of_index _ _ _ hB hI
  have hread : ∀ index addr : Int,
      (w.setMask baseMask indexBits).readArea index = some addr →
      addr = intAnd baseMask index := by
    intro index addr h
    unfold VDPVRAM.Window.readArea at h
    split at h
    · simp only [VDPVRAM.Window.setMask] at h
      split at h
      · exact (Option.some.inj h).symm
      · exact absurd h (by simp)
    · exact absurd h (by simp)
  refine ⟨⟨?_, ?_⟩, ?_, ?_⟩
  · intro h
    rw [VDPVRAM.Window.setMask_isInside_bits] at h
    have hidx := land_index_of_window _ _ _ (toBits_lt a) hB h
    refine ⟨intOr a (intShl (-1) indexBits), ofBits_isInt _, ?_, ?_⟩
    · have e : toBits (intOr a (intShl (-1) indexBits))
          = toBits a ||| toBits (intShl (-1) indexBits) := by
        unfold intOr
        rw [toBits_ofBits]
        exact Nat.mod_eq_of_lt (lor_lt_word _ _ (toBits_lt a) (toBits_lt _))
      unfold intAnd
      rw [e, lor_land_self]
      exact ofBits_toBits _ hMint
    · have e : toBits (intOr a (intShl (-1) indexBits))
          = toBits a ||| toBits (intShl (-1) indexBits) := by
        unfold intOr
        rw [toBits_ofBits]
        exact Nat.mod_eq_of_lt (lor_lt_word _ _ (toBits_lt a) (toBits_lt _))
      unfold intAnd
      rw [e, hidx]
      rw [ofBits_toBits a ha]
  · rintro ⟨index, _, hwf, heq⟩
    rw [heq]
    exact hback index hwf
  · intro index addr h
    have e := hread index addr h
    exact ⟨e, fun hwf => e ▸ hback index hwf⟩
  · intro data index b h
    unfold VDPVRAM.Window.readNP at h
    cases hr : (w.setMask baseMask indexBits).readArea index with
    | none =>
      rw [hr] at h
      exact absurd h (by simp)
    | some addr =>
      rw [hr] at h
      rw [← hread index addr hr]
      exact h

theorem VDPVRAM.Window.isInside_iff_indexed_witness :
    (VDPVRAM.Window.disabled.setMask 0x35 3).isInside 0x34 = true ∧
    (∃ index : Int, isInt index ∧ intAnd index (intShl (-1) 3) = intShl (-1) 3 ∧
      (0x34 : Int) = intAnd 0x35 index) ∧
    (VDPVRAM.Window.disabled.setMask 0x35 3).readArea (-4) = some 0x34 ∧
    (VDPVRAM.Window.disabled.setMask 0x35 3).isInside 0x32 = false :=
  ⟨by decide,
   ((VDPVRAM.Window.isInside_iff_indexed VDPVRAM.Window.disabled 0x35 3 0x34
      (by decide)).1).mp (by decide),
   by decide, by decide⟩

/-! ## The sync point of the pacer is never duplicated -/

theorem Scheduler.setSyncPoint_own (time : EmuTime) (s : Scheduler)
    (h : ∀ p ∈ s.pending.filter (fun p => p.owner == RealTime.owner),
      p.token = RealTime.defaultToken) :
    (s.setSyncPoint time RealTime.owner RealTime.defaultToken).pending.filter
        (fun p => p.owner == RealTime.owner)
      = [{ dueTime := time, owner := RealTime.owner, token := RealTime.defaultToken }] := by
  unfold Scheduler.setSyncPoint
  simp only []
  have hothers : (s.pending.filter fun p =>
      !(p.owner == RealTime.owner && p.token == RealTime.defaultToken)).filter
        (fun p => p.owner == RealTime.owner) = [] := by
    rw [List.filter_eq_nil_iff]
    intro p hp hown
    rw [List.mem_filter] at hp
    have htok := h p (List.mem_filter.mpr ⟨hp.1, hown⟩)
    have h2 := hp.2
    simp [hown, htok] at h2
  obtain ⟨O, hO⟩ : ∃ O, O = s.pending.filter fun p =>
      !(p.owner == RealTime.owner && p.token == RealTime.defaultToken) := ⟨_, rfl⟩
  rw [← hO] at hothers ⊢
  have hsplit := List.takeWhile_append_dropWhile (fun p => decide (p.dueTime ≤ time)) O
  rw [← hsplit, List.filter_append, List.append_eq_nil] at hothers
  rw [List.filter_append, List.filter_cons, hothers.1, hothers.2]
  simp

theorem RealTime.performEffect_own (w : RealTime.World) (e : RealTime.Effect)
    (h : (RealTime.ownSyncPoints w).length ≤ 1 ∧
      ∀ p ∈ RealTime.ownSyncPoints w, p.token = RealTime.defaultToken) :
    (RealTime.ownSyncPoints (RealTime.performEffect w e)).length ≤ 1 ∧
      ∀ p ∈ RealTime.ownSyncPoints (RealTime.performEffect w e),
        p.token = RealTime.defaultToken := by
  cases e with
  | delay ms => exact h
  | setSyncPoint time =>
    have e := Scheduler.setSyncPoint_own time w.scheduler h.2
    unfold RealTime.ownSyncPoints RealTime.performEffect
    simp only []
    rw [e]
    constructor
    · simp
    · intro p hp
      rw [List.mem_singleton] at hp
      rw [hp]
  | removeSyncPoint =>
    have e : RealTime.ownSyncPoints (RealTime.performEffect w RealTime.Effect.removeSyncPoint)
        = [] := by
      unfold RealTime.ownSyncPoints RealTime.performEffect Scheduler.removeSyncPoint
      simp only []
      rw [List.filter_eq_nil_iff]
      intro p hp
      rw [List.mem_filter] at hp
      simpa using hp.2
    rw [e]
    exact ⟨Nat.zero_le _, fun p hp => absurd hp (List.not_mem_nil p)⟩

theorem RealTime.perform_own (es : List RealTime.Effect) :
    ∀ w : RealTime.World,
      ((RealTime.ownSyncPoints w).length ≤ 1 ∧
        ∀ p ∈ RealTime.ownSyncPoints w, p.token = RealTime.defaultToken) →
      (RealTime.ownSyncPoints (RealTime.perform w es)).length ≤ 1 ∧
        ∀ p ∈ RealTime.ownSyncPoints (RealTime.perform w es),
          p.token = RealTime.defaultToken := by
  induction es with
  | nil => exact fun w h => h
  | cons e es ih => exact fun w h => ih _ (RealTime.performEffect_own w e h)

theorem RealTime.erase_own (w : RealTime.World) (p : SyncPoint) (rt : RealTime)
    (h : (RealTime.ownSyncPoints w).length ≤ 1 ∧
      ∀ q ∈ RealTime.ownSyncPoints w, q.token = RealTime.defaultToken) :
    (RealTime.ownSyncPoints
        { w with
          rt := rt
          scheduler := { w.scheduler with pending := w.scheduler.pending.erase p } }).length ≤ 1 ∧
      ∀ q ∈ RealTime.ownSyncPoints
          { w with
            rt := rt
            scheduler := { w.scheduler with pending := w.scheduler.pending.erase p } },
        q.token = RealTime.defaultToken := by
  have hsub : List.Sublist
      ((w.scheduler.pending.erase p).filter fun q => q.owner == RealTime.owner)
      (w.scheduler.pending.filter fun q => q.owner == RealTime.owner) :=
    (List.erase_sublist p w.scheduler.pending).filter _
  constructor
  · exact le_trans hsub.length_le h.1
  · intro q hq
    exact h.2 q (hsub.subset hq)

theorem RealTime.step_own (alpha : ℚ) (strtol : String → Int) (w w2 : RealTime.World)
    (e : RealTime.Step) (hstep : RealTime.step alpha strtol w e = some w2)
    (h : (RealTime.ownSyncPoints w).length ≤ 1 ∧
      ∀ p ∈ RealTime.ownSyncPoints w, p.token = RealTime.defaultToken) :
    (RealTime.ownSyncPoints w2).length ≤ 1 ∧
      ∀ p ∈ RealTime.ownSyncPoints w2, p.token = RealTime.defaultToken := by
  cases e with
  | fire host p =>
    simp only [RealTime.step, RealTime.fire, RealTime.executeUntilEmuTime] at hstep
    cases hi : RealTime.internalSync alpha host p.dueTime w.rt with
    | none =>
      rw [hi] at hstep
      simp at hstep
    | some r =>
      rw [hi] at hstep
      simp only [Option.map_some', Option.some.injEq] at hstep
      rw [← hstep]
      exact RealTime.perform_own r.2 _ (RealTime.erase_own w p r.1 h)
  | sync host =>
    simp only [RealTime.step, RealTime.sync] at hstep
    have h1 := RealTime.perform_own [RealTime.Effect.removeSyncPoint] w h
    cases hi : RealTime.internalSync alpha host host.cpuTime
        (RealTime.perform w [RealTime.Effect.removeSyncPoint]).rt with
    | none =>
      rw [hi] at hstep
      simp at hstep
    | some r =>
      rw [hi] at hstep
      simp only [Option.map_some', Option.some.injEq] at hstep
      rw [← hstep]
      exact RealTime.perform_own r.2 _ h1
  | pauseCmd host tokens =>
    simp only [RealTime.step, Option.some.injEq] at hstep
    rw [← hstep]
    unfold RealTime.PauseCmd.execute
    split
    · split <;> exact h
    · split
      · exact h
      · split <;> exact h
    · exact h
  | throttleCmd tokens =>
    simp only [RealTime.step, Option.some.injEq] at hstep
    rw [← hstep]
    unfold RealTime.ThrottleCmd.execute
    split
    · exact h
    · split
      · exact h
      · split <;> exact h
    · exact h
  | speedCmd host tokens =>
    simp only [RealTime.step] at hstep
    unfold RealTime.SpeedCmd.execute at hstep
    split at hstep
    · cases hq : intDiv 25600 w.rt.speed with
      | none =>
        rw [hq] at hstep
        simp at hstep
      | some q =>
        rw [hq] at hstep
        simp only [Option.map_some', Option.some.injEq] at hstep
        rw [← hstep]
        exact h
    · dsimp only at hstep
      split at hstep
      · simp only [Option.some.injEq] at hstep
        rw [← hstep]
        exact h
      · simp only [Option.some.injEq] at hstep
        rw [← hstep]
        exact h
    · simp only [Option.some.injEq] at hstep
      rw [← hstep]
      exact h

theorem RealTime.run_own (alpha : ℚ) (strtol : String → Int) (es : List RealTime.Step) :
    ∀ w w2 : RealTime.World, RealTime.run alpha strtol es w = some w2 →
      ((RealTime.ownSyncPoints w).length ≤ 1 ∧
        ∀ p ∈ RealTime.ownSyncPoints w, p.token = RealTime.defaultToken) →
      (RealTime.ownSyncPoints w2).length ≤ 1 ∧
        ∀ p ∈ RealTime.ownSyncPoints w2, p.token = RealTime.defaultToken := by
  induction es with
  | nil =>
    intro w w2 hrun h
    simp only [RealTime.run, Option.some.injEq] at hrun
    rw [← hrun]
    exact h
  | cons e es ih =>
    intro w w2 hrun h
    simp only [RealTime.run] at hrun
    cases hs : RealTime.step alpha strtol w e with
    | none =>
      rw [hs] at hrun
      simp at hrun
    | some w1 =>
      rw [hs] at hrun
      exact ih w1 w2 hrun (RealTime.step_own alpha strtol w w1 e hs h)

/-- C35. The pacer is constructed on a scheduler that holds no entry owned by
it.  Right after the construction the scheduler holds exactly one sync point
of the pacer, and in every state reached from there by fires (the fired entry
being removed before `executeUntilEmuTime` runs), calls of `sync()` and the
commands `pause`, `throttle` and `speed`, it holds none or one. -/
theorem RealTime.sync_point_not_duplicated (alpha : ℚ) (strtol : String → Int)
    (syncInterval maxCatchUpTime maxCatchUpFactor catchUpTime : Int) (host : RealTime.Host)
    (scheduler : Scheduler) (es : List RealTime.Step) (w : RealTime.World)
    (hfresh : ∀ p ∈ scheduler.pending, p.owner ≠ RealTime.owner)
    (hrun : RealTime.run alpha strtol es
      (RealTime.construct syncInterval maxCatchUpTime maxCatchUpFactor catchUpTime host
        scheduler) = some w) :
    (RealTime.ownSyncPoints
      (RealTime.construct syncInterval maxCatchUpTime maxCatchUpFactor catchUpTime host
        scheduler)).length = 1 ∧
    ((RealTime.ownSyncPoints w).length = 0 ∨ (RealTime.ownSyncPoints w).length = 1) := by
  have h0 : ∀ p ∈ scheduler.pending.filter (fun p => p.owner == RealTime.owner),
      p.token = RealTime.defaultToken := by
    intro p hp
    rw [List.mem_filter] at hp
    exact absurd (by simpa using hp.2) (hfresh p hp.1)
  have hc : RealTime.ownSyncPoints
      (RealTime.construct syncInterval maxCatchUpTime maxCatchUpFactor catchUpTime host
        scheduler)
      = [{ dueTime := host.cpuTime + syncInterval, owner := RealTime.owner,
           token := RealTime.defaultToken }] :=
    Scheduler.setSyncPoint_own _ scheduler h0
  have hinv := RealTime.run_own alpha strtol es _ w hrun
    (by
      rw [hc]
      exact ⟨by simp, fun p hp => by rw [List.mem_singleton] at hp; rw [hp]⟩)
  refine ⟨by rw [hc]; rfl, ?_⟩
  have := hinv.1
  omega

theorem RealTime.sync_point_not_duplicated_witness :
    (RealTime.ownSyncPoints RealTime.started).length = 1 ∧
    ((RealTime.run (1 / 5) (fun _ => 50)
        [RealTime.Step.throttleCmd ["throttle", "off"],
         RealTime.Step.fire ⟨1500, 8000⟩ ⟨8000, 0, 0⟩,
         RealTime.Step.sync ⟨1600, 8100⟩] RealTime.started).map
      (fun w => (RealTime.ownSyncPoints w).length)) = some 0 ∧
    ((RealTime.run (1 / 5) (fun _ => 50)
        [RealTime.Step.fire ⟨1500, 8000⟩ ⟨8000, 0, 0⟩,
         RealTime.Step.sync ⟨1600, 8100⟩] RealTime.started).map
      (fun w => (RealTime.ownSyncPoints w).length)) = some 1 := by
  have hrun : ∃ w, RealTime.run (1 / 5) (fun _ => 50)
      [RealTime.Step.fire ⟨1500, 8000⟩ ⟨8000, 0, 0⟩,
       RealTime.Step.sync ⟨1600, 8100⟩] RealTime.started = some w := by
    cases h : RealTime.run (1 / 5) (fun _ => 50)
        [RealTime.Step.fire ⟨1500, 8000⟩ ⟨8000, 0, 0⟩,
         RealTime.Step.sync ⟨1600, 8100⟩] RealTime.started with
    | none => exact absurd h (by decide)
    | some w => exact ⟨w, rfl⟩
  obtain ⟨w, hw⟩ := hrun
  have h := RealTime.sync_point_not_duplicated (1 / 5) (fun _ => 50) 1000 1000 105 0
    ⟨500, 7000⟩ { pending := [], paused := false } _ w (by simp) hw
  exact ⟨h.1, by decide, by decide⟩

/-! ## A percentage above 25600 -/

/-- C36. The command `speed 25601` is accepted (`tmp > 0`) and stores the
speed value `25600 / 25601 = 0`: after it the virtual-time budget
`(speed * ticks) >> 8` is 0 for every emulated time, and the query `speed`
divides 25600 by zero.  The largest percentage that stores a positive value
is 25600. -/
theorem RealTime.SpeedCmd.speed_zero_stored :
    (RealTime.SpeedCmd.execute (fun _ => 25601) ⟨500, 7000⟩ ["speed", "25601"]
        RealTime.started).map (fun w => (w.rt.speed, w.console)) = some (0, []) ∧
    ((RealTime.SpeedCmd.execute (fun _ => 25601) ⟨500, 7000⟩ ["speed", "25601"]
        RealTime.started).bind
      (fun w => RealTime.SpeedCmd.execute (fun _ => 25601) ⟨500, 7000⟩ ["speed"] w)).map
      (fun w => w.console) = none ∧
    (∀ (w : RealTime.World) (curEmu : EmuTime),
      RealTime.SpeedCmd.execute (fun _ => 25601) ⟨500, 7000⟩ ["speed", "25601"]
          RealTime.started = some w →
        RealTime.emuPassed curEmu w.rt = 0) ∧
    (RealTime.SpeedCmd.execute (fun _ => 25600) ⟨500, 7000⟩ ["speed", "25600"]
        RealTime.started).map (fun w => w.rt.speed) = some 1 := by
  refine ⟨by decide, by decide, ?_, by decide⟩
  intro w curEmu h
  have hs : w.rt.speed = 0 := by
    have h2 : (RealTime.SpeedCmd.execute (fun _ => 25601) ⟨500, 7000⟩ ["speed", "25601"]
        RealTime.started).map (fun w => w.rt.speed) = some 0 := by decide
    rw [h] at h2
    exact Option.some.inj h2
  unfold RealTime.emuPassed
  rw [hs]
  simp [wrapUInt64, wrapInt]

/-! ## The rate of the envelope generator and its tables -/

theorem YMF278Slot.compute_rate_range (slot : YMF278Slot) (val : Int) :
    0 ≤ slot.compute_rate val ∧ slot.compute_rate val ≤ 63 := by
  unfold YMF278Slot.compute_rate
  split
  · omega
  · split
    · omega
    · dsimp only
      split
      · omega
      · split
        · omega
        · omega

theorem land_0x200 (fn : Nat) : (fn &&& 0x200 ≠ 0) ↔ fn / 512 % 2 = 1 := by
  have h := Nat.and_two_pow fn 9
  have e : (2 : Nat) ^ 9 = 0x200 := by norm_num
  rw [e] at h
  rw [h, Nat.testBit_to_div_mod]
  have e2 : (2 : Nat) ^ 9 = 512 := by norm_num
  rw [e2]
  by_cases hb : fn / 512 % 2 = 1
  · simp [hb]
  · simp [hb]

theorem YMF278Slot.compute_rate_eq (slot : YMF278Slot) (val : Int)
    (hOCT : slot.OCT ≤ 15) (hRC : slot.RC ≤ 15) (hval : 0 < val ∧ val < 15) :
    slot.compute_rate val = max 0 (min 63 (slot.rateSpec val)) := by
  have hs := sign_extend_4_eq slot.OCT hOCT
  have hfn := land_0x200 slot.FN
  unfold YMF278Slot.compute_rate YMF278Slot.rateSpec
  rw [if_neg (by omega), if_neg (by omega)]
  dsimp only
  rw [hs]
  by_cases hrc : slot.RC = 15
  · simp only [hrc, ne_eq, not_true_eq_false, if_false]
    have e : wrapInt (val * 4) = val * 4 := by
      unfold wrapInt
      omega
    rw [e]
    omega
  · simp only [ne_eq, hrc, not_false_eq_true, if_true]
    by_cases hb : slot.FN / 512 % 2 = 1
    · have hb2 : slot.FN &&& 0x200 ≠ 0 := hfn.mpr hb
      simp only [ne_eq] at hb2
      simp only [hb, hb2, not_false_eq_true, if_true]
      by_cases h7 : slot.OCT ≤ 7
      · simp only [h7, if_true, show slot.OCT < 8 by omega]
        have e : wrapInt (((slot.OCT : Int) + slot.RC) * 2 + 1 + val * 4)
            = ((slot.OCT : Int) + slot.RC) * 2 + 1 + val * 4 := by
          unfold wrapInt
          omega
        rw [e]
        omega
      · simp only [h7, if_false, show ¬ slot.OCT < 8 by omega]
        have e : wrapInt (((slot.OCT : Int) - 16 + slot.RC) * 2 + 1 + val * 4)
            = ((slot.OCT : Int) - 16 + slot.RC) * 2 + 1 + val * 4 := by
          unfold wrapInt
          omega
        rw [e]
        omega
    · have hb2 : ¬ (slot.FN &&& 0x200 ≠ 0) := fun h => hb (hfn.mp h)
      simp only [ne_eq, not_not] at hb2
      simp only [hb, hb2, not_true_eq_false, if_false]
      by_cases h7 : slot.OCT ≤ 7
      · simp only [h7, if_true, show slot.OCT < 8 by omega]
        have e : wrapInt (((slot.OCT : Int) + slot.RC) * 2 + 0 + val * 4)
            = ((slot.OCT : Int) + slot.RC) * 2 + 0 + val * 4 := by
          unfold wrapInt
          omega
        rw [e]
        omega
      · simp only [h7, if_false, show ¬ slot.OCT < 8 by omega]
        have e : wrapInt (((slot.OCT : Int) - 16 + slot.RC) * 2 + 0 + val * 4)
            = ((slot.OCT : Int) - 16 + slot.RC) * 2 + 0 + val * 4 := by
          unfold wrapInt
          omega
        rw [e]
        omega

theorem eg_rate_tables (r : Nat) (hr : r < 64) :
    ∃ shift select, eg_rate_shift[r]? = some shift ∧ eg_rate_select[r]? = some select ∧
      shift ≤ 12 ∧ select ≤ 96 := by
  interval_cases r <;> exact ⟨_, _, rfl, rfl, by decide, by decide⟩

theorem eg_inc_length : eg_inc.length = 15 * RATE_STEPS := by decide

theorem YMF278.egInc_inBounds (eg_cnt : Nat) (rate : byte) (hr : rate.val < 64) :
    ∃ r, YMF278.egInc eg_cnt rate = some r := by
  obtain ⟨shift, select, hs, hsel, _, h96⟩ := eg_rate_tables rate.val hr
  unfold YMF278.egInc
  rw [hs]
  dsimp only
  split
  · rw [hsel]
    dsimp only
    have h7 : (eg_cnt >>> shift) &&& 7 ≤ 7 := Nat.and_le_right
    have hlt : select + ((eg_cnt >>> shift) &&& 7) < eg_inc.length := by
      rw [eg_inc_length]
      have e : 15 * RATE_STEPS = 120 := by decide
      omega
    rw [List.getElem?_eq_getElem hlt]
    exact ⟨_, rfl⟩
  · exact ⟨_, rfl⟩

theorem YMF278Slot.rate_byte (slot : YMF278Slot) (val : Int) :
    (toByte (slot.compute_rate val).toNat).val = (slot.compute_rate val).toNat ∧
    (toByte (slot.compute_rate val).toNat).val < 64 := by
  have h := YMF278Slot.compute_rate_range slot val
  have e : (toByte (slot.compute_rate val).toNat).val
      = (slot.compute_rate val).toNat % 256 := rfl
  rw [e]
  omega

theorem YMF278.advanceSlot_returns (eg_cnt : Nat) (op : YMF278Slot)
    (e : YMF278Slot.Envelope) (hstate : e.state ≤ 6) :
    ∃ e2, YMF278.advanceSlot eg_cnt op e = some e2 := by
  have hl : (YMF278.advanceLfo e).state = e.state := by
    unfold YMF278.advanceLfo
    split
    · dsimp only
      split
      · rfl
      · split
        · rfl
        · split <;> rfl
    · rfl
  have hrate : ∀ val : Int, ∃ r, YMF278.egInc eg_cnt (toByte (op.compute_rate val).toNat)
      = some r := fun val => YMF278.egInc_inBounds eg_cnt _ (YMF278Slot.rate_byte op val).2
  have h56 : ∃ r, YMF278.egInc eg_cnt 56 = some r :=
    YMF278.egInc_inBounds eg_cnt 56 (by decide)
  unfold YMF278.advanceSlot
  dsimp only
  rw [hl]
  split
  · split
    · exact ⟨_, rfl⟩
    · obtain ⟨r, hr⟩ := hrate op.AR
      rw [hr]
      cases r with
      | none => exact ⟨_, rfl⟩
      | some inc =>
        dsimp only
        split <;> exact ⟨_, rfl⟩
  · split
    · split
      · exact ⟨_, rfl⟩
      · obtain ⟨r, hr⟩ := hrate op.D1R
        rw [hr]
        cases r with
        | none => exact ⟨_, rfl⟩
        | some inc =>
          dsimp only
          split
          · exact ⟨_, rfl⟩
          · split <;> exact ⟨_, rfl⟩
    · split
      · split
        · exact ⟨_, rfl⟩
        · obtain ⟨r, hr⟩ := hrate op.D2R
          rw [hr]
          cases r with
          | none => exact ⟨_, rfl⟩
          | some inc =>
            dsimp only
            split <;> exact ⟨_, rfl⟩
      · split
        · split
          · exact ⟨_, rfl⟩
          · obtain ⟨r, hr⟩ := hrate op.RR
            rw [hr]
            cases r with
            | none => exact ⟨_, rfl⟩
            | some inc =>
              dsimp only
              split <;> exact ⟨_, rfl⟩
        · split
          · obtain ⟨r, hr⟩ := hrate 5
            rw [hr]
            cases r with
            | none => exact ⟨_, rfl⟩
            | some inc => exact ⟨_, rfl⟩
          · split
            · obtain ⟨r, hr⟩ := h56
              rw [hr]
              cases r with
              | none => exact ⟨_, rfl⟩
              | some inc => exact ⟨_, rfl⟩
            · split
              · exact ⟨_, rfl⟩
              · rename_i h4 h3 h2 h1 h5 h6 h0
                unfold EG_ATT at h4
                unfold EG_DEC at h3
                unfold EG_SUS at h2
                unfold EG_REL at h1
                unfold EG_REV at h5
                unfold EG_DMP at h6
                unfold EG_OFF at h0
                omega

/-- C37. For a slot with `OCT` and `RC` in `[0, 15]` and every `val` (those
in `[0, 15]` among them): `compute_rate(val)` lies in `[0, 63]`, is 0 for
`val == 0` and 63 for `val == 15`, and for `val` in between it is the sum
`(oct + RC) * 2 + (FN & 0x200 ? 1 : 0) + val * 4` (just `val * 4` when
`RC == 15`), with `oct` the octave as a signed 4-bit number, clamped to
`[0, 63]`.  At this rate `eg_rate_shift[rate]` and `eg_rate_select[rate]` are
inside their 64 entries, the shift is at most 12, and for every counter the
index `select + ((eg_cnt >> shift) & 7)` is below `15 * 8`, the length of
`eg_inc`.  So the body of `advance` for the slot returns in each of the seven
envelope phases, and so does `advance` for a chip all of whose slots are in
one of these phases. -/
theorem YMF278Slot.compute_rate_inBounds (slot : YMF278Slot) (val : Int)
    (hOCT : slot.OCT ≤ 15) (hRC : slot.RC ≤ 15) :
    (0 ≤ slot.compute_rate val ∧ slot.compute_rate val ≤ 63) ∧
    (val = 0 → slot.compute_rate val = 0) ∧
    (val = 15 → slot.compute_rate val = 63) ∧
    (0 < val ∧ val < 15 → slot.compute_rate val = max 0 (min 63 (slot.rateSpec val))) ∧
    (∃ shift select, eg_rate_shift.length = 64 ∧ eg_rate_select.length = 64 ∧
      eg_rate_shift[(slot.compute_rate val).toNat]? = some shift ∧
      eg_rate_select[(slot.compute_rate val).toNat]? = some select ∧
      shift ≤ 12 ∧
      ∀ eg_cnt : Nat, select + ((eg_cnt >>> shift) &&& 7) < 15 * 8 ∧
        select + ((eg_cnt >>> shift) &&& 7) < eg_inc.length) ∧
    (∀ (eg_cnt : Nat) (e : YMF278Slot.Envelope), e.state ≤ 6 →
      ∃ e2, YMF278.advanceSlot eg_cnt slot e = some e2) ∧
    (∀ (eg_cnt : Nat) (slots : Fin 24 → YMF278Slot) (envs : Fin 24 → YMF278Slot.Envelope),
      (∀ i, (envs i).state ≤ 6) →
      ∃ r, YMF278.advance eg_cnt slots envs = some r ∧ r.1 = (eg_cnt + 1) % 4294967296 ∧
        ∀ i, YMF278.advanceSlot r.1 (slots i) (envs i) = some (r.2 i)) := by
  have hrange := YMF278Slot.compute_rate_range slot val
  refine ⟨hrange, ?_, ?_, ?_, ?_, ?_, ?_⟩
  · intro h
    unfold YMF278Slot.compute_rate
    rw [if_pos h]
  · intro h
    unfold YMF278Slot.compute_rate
    rw [if_neg (by omega), if_pos h]
  · exact fun h => YMF278Slot.compute_rate_eq slot val hOCT hRC h
  · obtain ⟨shift, select, hs, hsel, h12, h96⟩ :=
      eg_rate_tables (slot.compute_rate val).toNat (by omega)
    refine ⟨shift, select, by decide, by decide, hs, hsel, h12, ?_⟩
    intro eg_cnt
    have h7 : (eg_cnt >>> shift) &&& 7 ≤ 7 := Nat.and_le_right
    have e : eg_inc.length = 120 := by decide
    omega
  · exact fun eg_cnt e hstate => YMF278.advanceSlot_returns eg_cnt slot e hstate
  · intro eg_cnt slots envs hstates
    have hall : ∀ i : Fin 24,
        (YMF278.advanceSlot ((eg_cnt + 1) % 4294967296) (slots i) (envs i)).isSome = true := by
      intro i
      obtain ⟨e2, he2⟩ := YMF278.advanceSlot_returns ((eg_cnt + 1) % 4294967296) (slots i)
        (envs i) (hstates i)
      rw [he2]
      rfl
    unfold YMF278.advance
    dsimp only
    rw [dif_pos hall]
    refine ⟨_, rfl, rfl, ?_⟩
    intro i
    dsimp only
    exact (Option.some_get (hall i)).symm

theorem YMF278Slot.compute_rate_inBounds_witness :
    YMF278Slot.keyed.compute_rate 5 = 13 ∧
    YMF278Slot.keyed.rateSpec 5 = 13 ∧
    (∃ e2, YMF278.advanceSlot 512 YMF278Slot.keyed YMF278Slot.Envelope.attack = some e2) ∧
    (YMF278.advanceSlot 512 YMF278Slot.keyed YMF278Slot.Envelope.attack).map
      (fun e => (e.env_vol, e.state)) = some (447, EG_ATT) :=
  ⟨by decide, by decide,
   (YMF278Slot.compute_rate_inBounds YMF278Slot.keyed 5 (by decide)
      (by decide)).2.2.2.2.2.1 512 YMF278Slot.Envelope.attack (by decide),
   by decide⟩

/-! ## The mapper of `RomMSXDOS2` -/

theorem land_0xf000 (a : Nat) : a &&& 0xf000 = a / 4096 % 16 * 4096 := by
  have e1 : (0xf000 : Nat) = 2 ^ 12 * (2 ^ 4 - 1) := by norm_num
  have e2 : a / 4096 % 16 * 4096 = 2 ^ 12 * ((a >>> 12) % 2 ^ 4) := by
    rw [Nat.shiftRight_eq_div_pow]
    norm_num
    exact Nat.mul_comm _ _
  rw [e1, e2]
  apply Nat.eq_of_testBit_eq
  intro i
  simp only [Nat.testBit_and, Nat.testBit_mul_pow_two, Nat.testBit_mod_two_pow,
    Nat.testBit_shiftRight, Nat.testBit_two_pow_sub_one]
  by_cases h12 : 12 ≤ i
  · have e : 12 + (i - 12) = i := by omega
    rw [e]
    by_cases h4 : i - 12 < 4
    · simp [h12, h4]
    · simp [h12, h4]
  · simp [h12]

theorem land_0xf000_eq_0x6000 (a : Nat) (ha : a < 65536) :
    a &&& 0xf000 = 0x6000 ↔ 0x6000 ≤ a ∧ a ≤ 0x6fff := by
  rw [land_0xf000]
  omega

theorem land_high_0xf000 (a : Nat) : (a &&& 0xFF00) &&& 0xf000 = a &&& 0xf000 := by
  rw [Nat.and_assoc]
  rfl

theorem RomMSXDOS2.writeMem_spec (a : Nat) (v : byte) (s : RomMSXDOS2) (ha : a < 65536)
    (hrange : s.range = 0x00 ∨ s.range = 0x60 ∨ s.range = 0x7f) :
    ∃ s2, RomMSXDOS2.writeMem a v s = some s2 ∧ s2.range = s.range ∧
      (∀ r, r ≠ 1 → s2.banks.bank r = s.banks.bank r) ∧
      (RomMSXDOS2.switches s.range a → s2.banks.bank 1 = Rom16kBBlocks.Bank.rom v.val) ∧
      (¬ RomMSXDOS2.switches s.range a → s2 = s) := by
  have h6 := land_0xf000_eq_0x6000 a ha
  have hset : ∀ r, r ≠ 1 → (s.banks.setRom 1 v.val).bank r = s.banks.bank r := by
    intro r hr
    simp [Rom16kBBlocks.setRom, hr]
  have hset1 : (s.banks.setRom 1 v.val).bank 1 = Rom16kBBlocks.Bank.rom v.val := by
    simp [Rom16kBBlocks.setRom]
  have hne60 : ¬ ((0x60 : byte) = 0x00) := by decide
  have hne7f : ¬ ((0x7f : byte) = 0x00) := by decide
  have hne7f60 : ¬ ((0x7f : byte) = 0x60) := by decide
  unfold RomMSXDOS2.writeMem RomMSXDOS2.switches
  rcases hrange with h | h | h
  · rw [if_pos h]
    by_cases hadr : a = 0x7ff0
    · rw [if_neg (by simpa using hadr)]
      refine ⟨_, rfl, rfl, hset, fun _ => hset1, fun hn => absurd (Or.inl ⟨h, hadr⟩) hn⟩
    · rw [if_pos hadr]
      refine ⟨_, rfl, rfl, fun _ _ => rfl, ?_, fun _ => rfl⟩
      intro hsw
      rcases hsw with hsw | hsw | hsw
      · exact absurd hsw.2 hadr
      · exact absurd (h.symm.trans hsw.1) (Ne.symm hne60)
      · exact absurd (h.symm.trans hsw.1) (Ne.symm hne7f)
  · rw [if_neg (by rw [h]; exact hne60), if_pos h]
    by_cases hadr : a &&& 0xf000 = 0x6000
    · rw [if_neg (by simpa using hadr)]
      refine ⟨_, rfl, rfl, hset, fun _ => hset1,
        fun hn => absurd (Or.inr (Or.inl ⟨h, h6.mp hadr⟩)) hn⟩
    · rw [if_pos hadr]
      refine ⟨_, rfl, rfl, fun _ _ => rfl, ?_, fun _ => rfl⟩
      intro hsw
      rcases hsw with hsw | hsw | hsw
      · exact absurd (h.symm.trans hsw.1) hne60
      · exact absurd (h6.mpr hsw.2) hadr
      · exact absurd (h.symm.trans hsw.1) (Ne.symm hne7f60)
  · rw [if_neg (by rw [h]; exact hne7f), if_neg (by rw [h]; exact hne7f60), if_pos h]
    by_cases hadr : a = 0x7ffe
    · rw [if_neg (by simpa using hadr)]
      refine ⟨_, rfl, rfl, hset, fun _ => hset1,
        fun hn => absurd (Or.inr (Or.inr ⟨h, hadr⟩)) hn⟩
    · rw [if_pos hadr]
      refine ⟨_, rfl, rfl, fun _ _ => rfl, ?_, fun _ => rfl⟩
      intro hsw
      rcases hsw with hsw | hsw | hsw
      · exact absurd (h.symm.trans hsw.1) hne7f
      · exact absurd (h.symm.trans hsw.1) hne7f60
      · exact absurd hsw.2 hadr

theorem RomMSXDOS2.writes_spec (ws : List (Nat × byte)) :
    ∀ s : RomMSXDOS2, (∀ w ∈ ws, w.1 < 65536) →
      (s.range = 0x00 ∨ s.range = 0x60 ∨ s.range = 0x7f) →
      ∃ s1, RomMSXDOS2.writes ws s = some s1 ∧ s1.range = s.range ∧
        ∀ r, r ≠ 1 → s1.banks.bank r = s.banks.bank r := by
  induction ws with
  | nil => exact fun s _ _ => ⟨s, rfl, rfl, fun _ _ => rfl⟩
  | cons w ws ih =>
    intro s hws hrange
    obtain ⟨s2, h2, hr2, hb2, _, _⟩ :=
      RomMSXDOS2.writeMem_spec w.1 w.2 s (hws w (List.mem_cons_self _ _)) hrange
    obtain ⟨s1, h1, hr1, hb1⟩ := ih s2 (fun x hx => hws x (List.mem_cons_of_mem _ hx))
      (by rw [hr2]; exact hrange)
    refine ⟨s1, ?_, by rw [hr1, hr2], fun r hr => by rw [hb1 r hr, hb2 r hr]⟩
    obtain ⟨a, v⟩ := w
    simp only [RomMSXDOS2.writes]
    rw [h2]
    exact h1

/-- C38. The constructor of `RomMSXDOS2` throws exactly when the byte at
offset 0x94 of the ROM is none of 0x00, 0x60, 0x7f.  When it returns, the
range is that byte, page 1 shows block 0 and pages 0, 2 and 3 are unmapped;
after any sequence of writes (addresses are 16-bit words) the range and pages
0, 2, 3 are still the same, and a further `writeMem(a, v)` returns, keeps the
range and every page but page 1, makes page 1 show block `v` when `a` is
0x7ff0 (range 0x00), in 0x6000-0x6fff (range 0x60) or 0x7ffe (range 0x7f),
and changes nothing otherwise. -/
theorem RomMSXDOS2.construct_then_writes (rom : Nat → byte) (base : Rom16kBBlocks) :
    (RomMSXDOS2.construct rom base = none ↔
      rom 0x94 ≠ 0x00 ∧ rom 0x94 ≠ 0x60 ∧ rom 0x94 ≠ 0x7f) ∧
    ∀ s, RomMSXDOS2.construct rom base = some s →
      s.range = rom 0x94 ∧
      [0, 1, 2, 3].map s.banks.bank
        = [Rom16kBBlocks.Bank.unmapped, Rom16kBBlocks.Bank.rom 0,
           Rom16kBBlocks.Bank.unmapped, Rom16kBBlocks.Bank.unmapped] ∧
      ∀ ws : List (Nat × byte), (∀ w ∈ ws, w.1 < 65536) →
        ∃ s1, RomMSXDOS2.writes ws s = some s1 ∧ s1.range = s.range ∧
          (∀ r, r ≠ 1 → s1.banks.bank r = s.banks.bank r) ∧
          ∀ (a : Nat) (v : byte), a < 65536 →
            ∃ s2, RomMSXDOS2.writeMem a v s1 = some s2 ∧ s2.range = s1.range ∧
              (∀ r, r ≠ 1 → s2.banks.bank r = s1.banks.bank r) ∧
              (RomMSXDOS2.switches s1.range a →
                s2.banks.bank 1 = Rom16kBBlocks.Bank.rom v.val) ∧
              (¬ RomMSXDOS2.switches s1.range a → s2 = s1) := by
  constructor
  · unfold RomMSXDOS2.construct
    dsimp only
    constructor
    · intro h
      by_contra hn
      rw [if_neg hn] at h
      exact absurd h (by simp)
    · intro h
      rw [if_pos h]
  · intro s hs
    unfold RomMSXDOS2.construct at hs
    dsimp only at hs
    split at hs
    · exact absurd hs (by simp)
    · rename_i hvalid
      have hs2 := Option.some.inj hs
      have hrange : s.range = rom 0x94 := by
        rw [← hs2]
        rfl
      have hvalid2 : s.range = 0x00 ∨ s.range = 0x60 ∨ s.range = 0x7f := by
        rw [hrange]
        by_cases h0 : rom 0x94 = 0x00
        · exact Or.inl h0
        · by_cases h6 : rom 0x94 = 0x60
          · exact Or.inr (Or.inl h6)
          · by_cases h7 : rom 0x94 = 0x7f
            · exact Or.inr (Or.inr h7)
            · exact absurd ⟨h0, h6, h7⟩ hvalid
      refine ⟨hrange, ?_, ?_⟩
      · rw [← hs2]
        simp [RomMSXDOS2.reset, Rom16kBBlocks.setRom, Rom16kBBlocks.setUnmapped]
      · intro ws hws
        obtain ⟨s1, h1, hr1, hb1⟩ := RomMSXDOS2.writes_spec ws s hws hvalid2
        refine ⟨s1, h1, hr1, hb1, ?_⟩
        intro a v ha
        exact RomMSXDOS2.writeMem_spec a v s1 ha (by rw [hr1]; exact hvalid2)

theorem RomMSXDOS2.construct_then_writes_witness :
    RomMSXDOS2.construct (RomMSXDOS2.image 0x12) Rom16kBBlocks.fresh = none ∧
    (RomMSXDOS2.construct (RomMSXDOS2.image 0x60) Rom16kBBlocks.fresh).map
      (fun s => (s.range, [0, 1, 2, 3, 4].map s.banks.bank))
      = some (0x60, [Rom16kBBlocks.Bank.unmapped, Rom16kBBlocks.Bank.rom 0,
          Rom16kBBlocks.Bank.unmapped, Rom16kBBlocks.Bank.unmapped,
          Rom16kBBlocks.Bank.rom 9]) ∧
    ((RomMSXDOS2.construct (RomMSXDOS2.image 0x60) Rom16kBBlocks.fresh).bind
      (RomMSXDOS2.writes [(0x6123, 5), (0x7ff0, 7)])).map
      (fun s => (s.range, [0, 1, 2, 3, 4].map s.banks.bank))
      = some (0x60, [Rom16kBBlocks.Bank.unmapped, Rom16kBBlocks.Bank.rom 5,
          Rom16kBBlocks.Bank.unmapped, Rom16kBBlocks.Bank.unmapped,
          Rom16kBBlocks.Bank.rom 9]) :=
  ⟨(RomMSXDOS2.construct_then_writes (RomMSXDOS2.image 0x12) Rom16kBBlocks.fresh).1.mpr
      (by decide),
   by decide, by decide⟩

/-- C39. For a mapper in one of the three range modes and an address `A`
that starts a cache line (`A & CacheLine::HIGH == A`): `getWriteCacheLine(A)`
returns; when it returns `unmappedWrite`, `writeMem(a, v)` changes nothing
for every address `a` of the line (`a & CacheLine::HIGH == A`, `A` itself
among them) and every `v`; and when the line holds an address at which
`writeMem` switches the bank (0x7ff0, 0x6000-0x6fff or 0x7ffe, by the range),
it returns `nullptr`. -/
theorem RomMSXDOS2.getWriteCacheLine_consistent (s : RomMSXDOS2) (A : Nat)
    (hrange : s.range = 0x00 ∨ s.range = 0x60 ∨ s.range = 0x7f)
    (hA : A &&& CacheLine.HIGH = A) :
    (∃ line, RomMSXDOS2.getWriteCacheLine A s = some line) ∧
    (RomMSXDOS2.getWriteCacheLine A s = some RomMSXDOS2.WriteCacheLine.unmappedWrite →
      (∀ v : byte, RomMSXDOS2.writeMem A v s = some s) ∧
      ∀ (a : Nat) (v : byte), a &&& CacheLine.HIGH = A →
        RomMSXDOS2.writeMem a v s = some s) ∧
    (∀ a : Nat, a < 65536 → a &&& CacheLine.HIGH = A → RomMSXDOS2.switches s.range a →
      RomMSXDOS2.getWriteCacheLine A s = some RomMSXDOS2.WriteCacheLine.null) ∧
    (∀ (a : Nat) (v : byte), a &&& CacheLine.HIGH = A →
      RomMSXDOS2.writeMem a v s ≠ some s →
      RomMSXDOS2.getWriteCacheLine A s = some RomMSXDOS2.WriteCacheLine.null) := by
  have hline : ∀ a : Nat, a &&& CacheLine.HIGH = A → A &&& 0xf000 = a &&& 0xf000 := by
    intro a ha
    rw [← ha]
    exact land_high_0xf000 a
  have hnoop : ∀ (a : Nat) (v : byte), a &&& CacheLine.HIGH = A →
      RomMSXDOS2.getWriteCacheLine A s ≠ some RomMSXDOS2.WriteCacheLine.null →
      RomMSXDOS2.writeMem a v s = some s := by
    intro a v ha hnull
    have hl := hline a ha
    unfold RomMSXDOS2.getWriteCacheLine at hnull
    unfold RomMSXDOS2.writeMem
    rcases hrange with h | h | h
    · rw [h] at hnull ⊢
      simp only [if_true] at hnull ⊢
      by_cases hadr : a = 0x7ff0
      · rw [hadr] at ha
        rw [if_pos ha.symm] at hnull
        exact absurd rfl hnull
      · rw [if_pos hadr]
    · rw [h] at hnull ⊢
      simp only [show ¬ ((0x60 : byte) = 0x00) by decide, if_false, if_true] at hnull ⊢
      by_cases hadr : a &&& 0xf000 = 0x6000
      · rw [if_pos (hl.trans hadr)] at hnull
        exact absurd rfl hnull
      · rw [if_pos hadr]
    · rw [h] at hnull ⊢
      simp only [show ¬ ((0x7f : byte) = 0x00) by decide,
        show ¬ ((0x7f : byte) = 0x60) by decide, if_false, if_true] at hnull ⊢
      by_cases hadr : a = 0x7ffe
      · rw [hadr] at ha
        rw [if_pos ha.symm] at hnull
        exact absurd rfl hnull
      · rw [if_pos hadr]
  have hret : ∃ line, RomMSXDOS2.getWriteCacheLine A s = some line := by
    unfold RomMSXDOS2.getWriteCacheLine
    rcases hrange with h | h | h
    · rw [h]
      simp only [if_true]
      split <;> exact ⟨_, rfl⟩
    · rw [h]
      simp only [show ¬ ((0x60 : byte) = 0x00) by decide, if_false, if_true]
      split <;> exact ⟨_, rfl⟩
    · rw [h]
      simp only [show ¬ ((0x7f : byte) = 0x00) by decide,
        show ¬ ((0x7f : byte) = 0x60) by decide, if_false, if_true]
      split <;> exact ⟨_, rfl⟩
  have hnull : ∀ (a : Nat) (v : byte), a &&& CacheLine.HIGH = A →
      RomMSXDOS2.writeMem a v s ≠ some s →
      RomMSXDOS2.getWriteCacheLine A s = some RomMSXDOS2.WriteCacheLine.null := by
    intro a v ha hw
    by_contra hn
    exact hw (hnoop a v ha hn)
  refine ⟨hret, ?_, ?_, hnull⟩
  · intro hu
    exact ⟨fun v => hnoop A v hA (by rw [hu]; decide),
      fun a v ha => hnoop a v ha (by rw [hu]; decide)⟩
  · intro a ha haA hsw
    have hl := hline a haA
    have h6 := land_0xf000_eq_0x6000 a ha
    unfold RomMSXDOS2.switches at hsw
    unfold RomMSXDOS2.getWriteCacheLine
    rcases hsw with hsw | hsw | hsw
    · rw [hsw.1]
      simp only [if_true]
      have e := hsw.2
      rw [e] at haA
      rw [if_pos haA.symm]
    · rw [hsw.1]
      simp only [show ¬ ((0x60 : byte) = 0x00) by decide, if_false, if_true]
      rw [if_pos (hl.trans (h6.mpr hsw.2))]
    · rw [hsw.1]
      simp only [show ¬ ((0x7f : byte) = 0x00) by decide,
        show ¬ ((0x7f : byte) = 0x60) by decide, if_false, if_true]
      have e := hsw.2
      rw [e] at haA
      rw [if_pos haA.symm]

theorem RomMSXDOS2.getWriteCacheLine_consistent_witness :
    RomMSXDOS2.getWriteCacheLine 0x7e00
        { range := 0x7f, banks := Rom16kBBlocks.fresh }
      = some RomMSXDOS2.WriteCacheLine.unmappedWrite ∧
    (∀ (a : Nat) (v : byte), a &&& CacheLine.HIGH = 0x7e00 →
      RomMSXDOS2.writeMem a v { range := 0x7f, banks := Rom16kBBlocks.fresh }
        = some { range := 0x7f, banks := Rom16kBBlocks.fresh }) ∧
    RomMSXDOS2.getWriteCacheLine 0x7f00
        { range := 0x7f, banks := Rom16kBBlocks.fresh }
      = some RomMSXDOS2.WriteCacheLine.null ∧
    RomMSXDOS2.getWriteCacheLine 0x6500
        { range := 0x60, banks := Rom16kBBlocks.fresh }
      = some RomMSXDOS2.WriteCacheLine.null :=
  ⟨by decide,
   (RomMSXDOS2.getWriteCacheLine_consistent { range := 0x7f, banks := Rom16kBBlocks.fresh }
      0x7e00 (by decide) (by decide)).2.1 (by decide) |>.2,
   by decide, by decide⟩

/-! ## A sync that writes VRAM -/

/-- C6, as stated, fails: in the four-byte VRAM `small` address 1 is inside
`cmdWriteWindow`, so `cpuWrite(1, 7, 5)` first syncs the command engine, and
the engine `smallEngine` stores 99 at address 0 while it is synced.  After the
call the data array is `[99, 7, 12, 13]`: byte 0, which is not the written
address, has changed from 10 to 99. -/
theorem VDPVRAM.cpuWrite_sync_changes_other_byte :
    VDPVRAM.smallWorld.vram.cmdWriteWindow.isInside 1 = true ∧
    VDPVRAM.smallWorld.vram.planar = false ∧
    VDPVRAM.smallWorld.vram.data = [10, 11, 12, 13] ∧
    (VDPVRAM.cpuWrite VDPVRAM.smallEngine 1 7 5 VDPVRAM.smallWorld).map
        (fun r => (r.vram.data, r.calls))
      = some ([99, 7, 12, 13],
          [VDPVRAM.Call.cmdEngineSync 5, VDPVRAM.Call.spriteCheckerUpdateVRAM 1 7 5,
           VDPVRAM.Call.rendererUpdateVRAM 1 7 5]) := by
  decide

/-- C33, as stated, fails: in the 128kB VRAM `linear128` (not planar) address
1 is inside `cmdWriteWindow`, so `cpuWrite(1, 7, 5)` first syncs the command
engine, and the engine `smallEngine` stores 99 at address 0 while it is
synced.  Before the call `read(0)` returns 0, after it `read(1)` returns 7 and
`read(0)` returns 99. -/
theorem VDPVRAM.cpuWrite_changes_other_read :
    VDPVRAM.linear128World.vram.size = 131072 ∧
    VDPVRAM.linear128World.vram.cmdWriteWindow.isInside 1 = true ∧
    VDPVRAM.read VDPVRAM.linear128World.vram 0 = some 0 ∧
    ∃ m2, VDPVRAM.cpuWrite VDPVRAM.smallEngine 1 7 5 VDPVRAM.linear128World = some m2 ∧
      VDPVRAM.read m2.vram 1 = some 7 ∧ VDPVRAM.read m2.vram 0 = some 99 := by
  have hsize : VDPVRAM.linear128World.vram.size = 131072 := by
    simp only [VDPVRAM.size, VDPVRAM.linear128World, VDPVRAM.linear128,
      List.length_replicate]
    rfl
  have hin : VDPVRAM.linear128World.vram.cmdWriteWindow.isInside 1 = true := by decide
  have hsync : (VDPVRAM.sync VDPVRAM.smallEngine 5 VDPVRAM.linear128World).vram.data
      = (List.replicate 131072 (0 : byte)).set 0 99 := rfl
  have hplanar : (VDPVRAM.sync VDPVRAM.smallEngine 5 VDPVRAM.linear128World).vram.planar
      = false := rfl
  have hlen : ((List.replicate 131072 (0 : byte)).set 0 99).length = 131072 := by
    rw [List.length_set, List.length_replicate]
  have hlen2 : (((List.replicate 131072 (0 : byte)).set 0 99).set 1 7).length = 131072 := by
    rw [List.length_set, hlen]
  refine ⟨hsize, hin, ?_, ?_⟩
  · unfold VDPVRAM.read
    rw [hsize]
    show (if (0 : Int) ≤ 0 ∧ (0 : Int) < 131072 then
      (List.replicate 131072 (0 : byte))[(0 : Int).toNat]? else none) = some 0
    rw [if_pos (by decide)]
    exact List.getElem?_replicate_of_lt (by decide)
  · have hb : VDPVRAM.beforeStore VDPVRAM.smallEngine 1 5 VDPVRAM.linear128World
        = VDPVRAM.sync VDPVRAM.smallEngine 5 VDPVRAM.linear128World := by
      unfold VDPVRAM.beforeStore
      rw [if_pos (by rw [hin]; rfl)]
    have hw := VDPVRAM.cpuWrite_eq_cmdWrite VDPVRAM.smallEngine 1 7 5 VDPVRAM.linear128World
    rw [hb, hplanar] at hw
    have hbound : (0 : Int) ≤ 1 ∧ (1 : Int)
        < (VDPVRAM.sync VDPVRAM.smallEngine 5 VDPVRAM.linear128World).vram.size := by
      unfold VDPVRAM.size
      rw [hsync, hlen]
      decide
    rw [hw]
    simp only [Bool.false_eq_true, if_false]
    unfold VDPVRAM.cmdWrite
    rw [if_pos hbound]
    obtain ⟨v, hv⟩ : ∃ v : VDPVRAM, v
        = { (VDPVRAM.sync VDPVRAM.smallEngine 5 VDPVRAM.linear128World).vram with
            data := (VDPVRAM.sync VDPVRAM.smallEngine 5
              VDPVRAM.linear128World).vram.data.set (1 : Int).toNat 7
            currentTime := 5 } := ⟨_, rfl⟩
    have hvp : v.planar = false := by rw [hv]; rfl
    have hvd : v.data = ((List.replicate 131072 (0 : byte)).set 0 99).set 1 7 := by
      rw [hv]
      show (VDPVRAM.sync VDPVRAM.smallEngine 5 VDPVRAM.linear128World).vram.data.set
        (1 : Int).toNat 7 = _
      rw [hsync]
      rfl
    have hvs : v.size = 131072 := by
      unfold VDPVRAM.size
      rw [hvd, hlen2]
      rfl
    have key : v.read 1 = some 7 ∧ v.read 0 = some 99 := by
      constructor
      · obtain ⟨b, hb1, hb2⟩ := VDPVRAM.read_of_inBounds v 1 1 (by rw [hvp]; rfl)
          (by rw [hvs]; decide)
        rw [hb1, ← hb2, hvd]
        exact List.getElem?_set_self (by rw [hlen]; decide)
      · obtain ⟨b, hb1, hb2⟩ := VDPVRAM.read_of_inBounds v 0 0 (by rw [hvp]; rfl)
          (by rw [hvs]; decide)
        rw [hb1, ← hb2, hvd]
        rw [List.getElem?_set_ne (by decide)]
        exact List.getElem?_set_self (by rw [List.length_replicate]; decide)
    rw [hv] at key
    exact ⟨_, rfl, key.1, key.2⟩

/-- C11, as stated, fails: the pacer just reset at real time 0 and emulated
time 0 (`maxCatchUpFactor = 105 > 0`), sampled at real time 21000000 ms and
emulated time 21000000 ms, has `realPassed = emuPassed = 21000000` and debt 0,
so `sleep = 0`; the `int` product `105 * 21000000` wraps to `-2089967296`,
which is below `100 * emuPassed = 2100000000`, so the clamp fires and the
final value of `sleep` is `2100000000 / 105 - 21000000 = -1000000`.  No call
of `SDL_Delay` is made. -/
theorem RealTime.sleepTime_negative :
    0 < (RealTime.fresh 1000).maxCatchUpFactor ∧
    (RealTime.fresh 1000).throttle = true ∧
    RealTime.meaningful ⟨21000000, 21000000⟩ 21000000 (RealTime.fresh 1000) = true ∧
    RealTime.realPassed ⟨21000000, 21000000⟩ (RealTime.fresh 1000) = 21000000 ∧
    RealTime.emuPassed 21000000 (RealTime.fresh 1000) = 21000000 ∧
    RealTime.sleepForDebt ⟨21000000, 21000000⟩ 21000000 (RealTime.fresh 1000) = 0 ∧
    wrapInt (105 * 21000000) = -2089967296 ∧
    RealTime.sleepTime ⟨21000000, 21000000⟩ 21000000 (RealTime.fresh 1000)
      = some (-1000000) ∧
    (RealTime.internalSync (1 / 5) ⟨21000000, 21000000⟩ 21000000 (RealTime.fresh 1000)).map
      (fun r => r.2) = some [RealTime.Effect.setSyncPoint 21000020] := by
  decide

/-- C12, as stated, fails: the pacer just reset at real time 0 and emulated
time 0 (`factor = 1`, `maxCatchUpFactor = 105`), sampled at real time
65000000 ms and emulated time 30000000 ms, has `emuPassed = 30000000` and
`realPassed = 65000000`.  Both `int` products of the clamp test wrap
(`105 * 65000000` to `-1764934592`, `100 * 30000000` to `-1294967296`), the
clamp fires, `sleep` becomes `-12333021 - 65000000` and `sleep + realPassed`
is `-12333021`: the sampled ratio is negative, and with `alpha = 1` so is the
new `factor`. -/
theorem RealTime.factor_negative :
    0 < (RealTime.fresh 1000).maxCatchUpFactor ∧
    0 < (RealTime.fresh 1000).factor ∧
    (RealTime.fresh 1000).throttle = true ∧
    RealTime.meaningful ⟨65000000, 30000000⟩ 30000000 (RealTime.fresh 1000) = true ∧
    RealTime.emuPassed 30000000 (RealTime.fresh 1000) = 30000000 ∧
    RealTime.realPassed ⟨65000000, 30000000⟩ (RealTime.fresh 1000) = 65000000 ∧
    RealTime.sleepTime ⟨65000000, 30000000⟩ 30000000 (RealTime.fresh 1000)
      = some (-77333021) ∧
    wrapInt (-77333021 + RealTime.realPassed ⟨65000000, 30000000⟩ (RealTime.fresh 1000))
      = -12333021 ∧
    (∃ r, RealTime.internalSync 1 ⟨65000000, 30000000⟩ 30000000 (RealTime.fresh 1000)
        = some r ∧ r.1.factor = -12333021 / 30000000 ∧ r.1.factor < 0) := by
  have hs : RealTime.sleepTime ⟨65000000, 30000000⟩ 30000000 (RealTime.fresh 1000)
      = some (-77333021) := by decide
  have he : RealTime.emuPassed 30000000 (RealTime.fresh 1000) = 30000000 := by decide
  have hr : RealTime.realPassed ⟨65000000, 30000000⟩ (RealTime.fresh 1000) = 65000000 := by
    decide
  have hw : wrapInt (-77333021
      + RealTime.realPassed ⟨65000000, 30000000⟩ (RealTime.fresh 1000)) = -12333021 := by
    decide
  refine ⟨by decide, by norm_num [RealTime.fresh], by decide, by decide, he, hr, hs, hw, ?_⟩
  have h := RealTime.internalSync_of_meaningful 1 ⟨65000000, 30000000⟩ 30000000
    (RealTime.fresh 1000) (by decide) (by decide) (-77333021) hs
  refine ⟨_, h, ?_, ?_⟩
  · show (RealTime.fresh 1000).factor * (1 - 1)
      + (wrapInt (-77333021
          + RealTime.realPassed ⟨65000000, 30000000⟩ (RealTime.fresh 1000)) : ℚ)
        / (RealTime.emuPassed 30000000 (RealTime.fresh 1000) : ℚ) * 1 = -12333021 / 30000000
    rw [hw, he]
    norm_num
  · show (RealTime.fresh 1000).factor * (1 - 1)
      + (wrapInt (-77333021
          + RealTime.realPassed ⟨65000000, 30000000⟩ (RealTime.fresh 1000)) : ℚ)
        / (RealTime.emuPassed 30000000 (RealTime.fresh 1000) : ℚ) * 1 < 0
    rw [hw, he]
    norm_num

/-! ## The sync point of the pacer is re-armed while throttle is on -/

theorem RealTime.perform_rt (es : List RealTime.Effect) :
    ∀ w : RealTime.World, (RealTime.perform w es).rt = w.rt := by
  induction es with
  | nil => intro w; rfl
  | cons e es ih =>
    intro w
    show (RealTime.perform (RealTime.performEffect w e) es).rt = w.rt
    rw [ih]
    cases e <;> rfl

theorem RealTime.perform_rearm (w : RealTime.World) (pre : List RealTime.Effect)
    (t : EmuTime) :
    ({ dueTime := t, owner := RealTime.owner, token := RealTime.defaultToken } : SyncPoint)
      ∈ (RealTime.perform w (pre ++ [RealTime.Effect.setSyncPoint t])).scheduler.pending := by
  unfold RealTime.perform
  rw [List.foldl_append]
  exact Scheduler.mem_setSyncPoint t RealTime.owner RealTime.defaultToken _

theorem RealTime.internalSync_throttled (alpha : ℚ) (host : RealTime.Host) (curEmu : EmuTime)
    (rt : RealTime) (ht : rt.throttle = true) (hf : 0 < rt.maxCatchUpFactor) :
    ∃ rt2 pre, RealTime.internalSync alpha host curEmu rt
      = some (rt2, pre ++ [RealTime.Effect.setSyncPoint (rt2.emuRef + rt2.syncInterval)]) := by
  by_cases hm : RealTime.meaningful host curEmu rt = true
  · obtain ⟨s, hs⟩ := RealTime.sleepTime_some host curEmu rt hf
    exact ⟨_, _, RealTime.internalSync_of_meaningful alpha host curEmu rt ht hm s hs⟩
  · have hm2 : RealTime.meaningful host curEmu rt = false := by simpa using hm
    exact ⟨rt, [], RealTime.internalSync_of_not_meaningful alpha host curEmu rt ht hm2⟩

/-- C15, amended. The constructor schedules the sync point of the pacer at
`emuRef + syncInterval`.  With throttle on (and `maxCatchUpFactor > 0`, so
that `internalSync` returns), after every fire and after every explicit
`sync()` the scheduler again holds a sync point of the pacer, at the new
`emuRef + syncInterval`.  With throttle off `internalSync` only resets the
timing references: a fire leaves the pending set as it is after the removal
of the fired entry, and after `sync()` no sync point of the pacer is
pending. -/
theorem RealTime.sync_point_recurring (alpha : ℚ) (host : RealTime.Host) (p : SyncPoint)
    (w : RealTime.World) (hf : 0 < w.rt.maxCatchUpFactor) :
    (∀ (syncInterval maxCatchUpTime maxCatchUpFactor catchUpTime : Int)
        (host0 : RealTime.Host) (scheduler : Scheduler),
      (RealTime.construct syncInterval maxCatchUpTime maxCatchUpFactor catchUpTime host0
          scheduler).rt.emuRef = host0.cpuTime ∧
      (RealTime.construct syncInterval maxCatchUpTime maxCatchUpFactor catchUpTime host0
          scheduler).rt.syncInterval = syncInterval ∧
      ({ dueTime := host0.cpuTime + syncInterval, owner := RealTime.owner,
         token := RealTime.defaultToken } : SyncPoint)
        ∈ (RealTime.construct syncInterval maxCatchUpTime maxCatchUpFactor catchUpTime host0
            scheduler).scheduler.pending) ∧
    (w.rt.throttle = true →
      (∃ w2, RealTime.fire alpha host p w = some w2 ∧
        ({ dueTime := w2.rt.emuRef + w2.rt.syncInterval, owner := RealTime.owner,
           token := RealTime.defaultToken } : SyncPoint) ∈ w2.scheduler.pending) ∧
      (∃ w2, RealTime.sync alpha host w = some w2 ∧
        ({ dueTime := w2.rt.emuRef + w2.rt.syncInterval, owner := RealTime.owner,
           token := RealTime.defaultToken } : SyncPoint) ∈ w2.scheduler.pending)) ∧
    (w.rt.throttle = false →
      (∃ w2, RealTime.fire alpha host p w = some w2 ∧
        w2.rt = RealTime.resetTiming host w.rt ∧
        w2.scheduler.pending = w.scheduler.pending.erase p) ∧
      (∃ w2, RealTime.sync alpha host w = some w2 ∧
        w2.rt = RealTime.resetTiming host w.rt ∧
        w2.scheduler.pending
          = w.scheduler.pending.filter (fun q => !(q.owner == RealTime.owner)) ∧
        RealTime.ownSyncPoints w2 = [])) := by
  refine ⟨?_, ?_, ?_⟩
  · intro syncInterval maxCatchUpTime maxCatchUpFactor catchUpTime host0 scheduler
    refine ⟨rfl, rfl, ?_⟩
    exact Scheduler.mem_setSyncPoint _ RealTime.owner RealTime.defaultToken scheduler
  · intro ht
    constructor
    · obtain ⟨rt2, pre, h⟩ := RealTime.internalSync_throttled alpha host p.dueTime w.rt ht hf
      have hfire : RealTime.fire alpha host p w
          = some (RealTime.perform
              { rt := rt2
                scheduler := { w.scheduler with pending := w.scheduler.pending.erase p }
                delays := w.delays, console := w.console }
              (pre ++ [RealTime.Effect.setSyncPoint (rt2.emuRef + rt2.syncInterval)])) := by
        unfold RealTime.fire RealTime.executeUntilEmuTime
        simp only [h, Option.map_some']
      refine ⟨_, hfire, ?_⟩
      rw [RealTime.perform_rt]
      exact RealTime.perform_rearm _ pre _
    · obtain ⟨rt2, pre, h⟩ := RealTime.internalSync_throttled alpha host host.cpuTime w.rt ht hf
      have hrt : (RealTime.perform w [RealTime.Effect.removeSyncPoint]).rt = w.rt :=
        RealTime.perform_rt _ w
      have hsync : RealTime.sync alpha host w
          = some (RealTime.perform
              { RealTime.perform w [RealTime.Effect.removeSyncPoint] with rt := rt2 }
              (pre ++ [RealTime.Effect.setSyncPoint (rt2.emuRef + rt2.syncInterval)])) := by
        unfold RealTime.sync
        simp only [hrt, h, Option.map_some']
      refine ⟨_, hsync, ?_⟩
      rw [RealTime.perform_rt]
      exact RealTime.perform_rearm _ pre _
  · intro ht
    constructor
    · have h := RealTime.internalSync_of_unthrottled alpha host p.dueTime w.rt ht
      have hfire : RealTime.fire alpha host p w
          = some { rt := RealTime.resetTiming host w.rt
                   scheduler := { w.scheduler with pending := w.scheduler.pending.erase p }
                   delays := w.delays, console := w.console } := by
        unfold RealTime.fire RealTime.executeUntilEmuTime
        simp only [h, Option.map_some']
        rfl
      exact ⟨_, hfire, rfl, rfl⟩
    · have h := RealTime.internalSync_of_unthrottled alpha host host.cpuTime w.rt ht
      have hrt : (RealTime.perform w [RealTime.Effect.removeSyncPoint]).rt = w.rt :=
        RealTime.perform_rt _ w
      have hsync : RealTime.sync alpha host w
          = some { rt := RealTime.resetTiming host w.rt
                   scheduler := w.scheduler.removeSyncPoint RealTime.owner
                   delays := w.delays, console := w.console } := by
        unfold RealTime.sync
        simp only [hrt, h, Option.map_some']
        rfl
      refine ⟨_, hsync, rfl, rfl, ?_⟩
      show (List.filter (fun q => q.owner == RealTime.owner)
        (w.scheduler.pending.filter (fun q => !(q.owner == RealTime.owner)))) = []
      rw [List.filter_eq_nil_iff]
      intro q hq
      rw [List.mem_filter] at hq
      simpa using hq.2

theorem RealTime.sync_point_recurring_witness :
    0 < RealTime.started.rt.maxCatchUpFactor ∧
    (RealTime.started.rt.throttle = true ∧
      (∃ w2, RealTime.fire (1 / 5) ⟨1500, 8000⟩ ⟨8000, RealTime.owner, RealTime.defaultToken⟩
          RealTime.started = some w2 ∧
        ({ dueTime := w2.rt.emuRef + w2.rt.syncInterval, owner := RealTime.owner,
           token := RealTime.defaultToken } : SyncPoint) ∈ w2.scheduler.pending) ∧
      (RealTime.fire (1 / 5) ⟨1500, 8000⟩ ⟨8000, RealTime.owner, RealTime.defaultToken⟩
          RealTime.started).map (fun w => w.scheduler.pending)
        = some [⟨9000, RealTime.owner, RealTime.defaultToken⟩]) ∧
    ((RealTime.ThrottleCmd.execute ["throttle", "off"] RealTime.started).rt.throttle = false ∧
      (∃ w2, RealTime.sync (1 / 5) ⟨900, 7400⟩
          (RealTime.ThrottleCmd.execute ["throttle", "off"] RealTime.started) = some w2 ∧
        RealTime.ownSyncPoints w2 = [])) :=
  ⟨by decide,
   ⟨by decide,
    ((RealTime.sync_point_recurring (1 / 5) ⟨1500, 8000⟩
      ⟨8000, RealTime.owner, RealTime.defaultToken⟩ RealTime.started (by decide)).2.1
        (by decide)).1,
    by decide⟩,
   ⟨by decide,
    (((RealTime.sync_point_recurring (1 / 5) ⟨900, 7400⟩
      ⟨8000, RealTime.owner, RealTime.defaultToken⟩
      (RealTime.ThrottleCmd.execute ["throttle", "off"] RealTime.started) (by decide)).2.2
        (by decide)).2).imp fun w2 h => ⟨h.1, h.2.2.2⟩⟩⟩

/-! ## The sleep of a pacer that runs ahead -/

/-- C8, amended. On a meaningful sample with throttle on where `catchUpDebt`
is negative (and not `INT_MIN`), `sleep` is first set to `-catchUpDebt` and
the test `maxCatchUpFactor*(sleep+realPassed) < 100*emuPassed` is made at that
value.  When the test fails the pacer sleeps for exactly `-catchUpDebt`: the
calls made are `SDL_Delay(-catchUpDebt)` and then the re-arming of the sync
point.  When the test holds (and `maxCatchUpFactor > 0`), `sleep` is replaced
by `(100*emuPassed)/maxCatchUpFactor - realPassed` (in `int` arithmetic):
`SDL_Delay` is called with that value if it is positive and not at all
otherwise, and then the sync point is re-armed. -/
theorem RealTime.internalSync_sleeps_debt (alpha : ℚ) (host : RealTime.Host) (curEmu : EmuTime)
    (rt : RealTime) (ht : rt.throttle = true)
    (hm : RealTime.meaningful host curEmu rt = true)
    (hd : -2147483648 < RealTime.catchUpDebt host curEmu rt
      ∧ RealTime.catchUpDebt host curEmu rt < 0) :
    (RealTime.catchingUpTooFast host curEmu rt
      = decide (wrapInt (rt.maxCatchUpFactor
          * wrapInt (-(RealTime.catchUpDebt host curEmu rt) + RealTime.realPassed host rt))
        < wrapInt (100 * RealTime.emuPassed curEmu rt))) ∧
    (RealTime.catchingUpTooFast host curEmu rt = false →
      RealTime.sleepTime host curEmu rt = some (-(RealTime.catchUpDebt host curEmu rt)) ∧
      ∃ rt2, RealTime.internalSync alpha host curEmu rt
        = some (rt2, [RealTime.Effect.delay (-(RealTime.catchUpDebt host curEmu rt)),
            RealTime.Effect.setSyncPoint (curEmu + rt.syncInterval)])) ∧
    (RealTime.catchingUpTooFast host curEmu rt = true → 0 < rt.maxCatchUpFactor →
      ∀ s, s = wrapInt (Int.tdiv (wrapInt (100 * RealTime.emuPassed curEmu rt))
                rt.maxCatchUpFactor - RealTime.realPassed host rt) →
        RealTime.sleepTime host curEmu rt = some s ∧
        ∃ rt2, RealTime.internalSync alpha host curEmu rt
          = some (rt2, (if s > 0 then [RealTime.Effect.delay s] else [])
              ++ [RealTime.Effect.setSyncPoint (curEmu + rt.syncInterval)])) := by
  have hs : RealTime.sleepForDebt host curEmu rt = -(RealTime.catchUpDebt host curEmu rt) := by
    unfold RealTime.sleepForDebt
    rw [if_pos hd.2]
    unfold wrapInt
    omega
  refine ⟨?_, ?_, ?_⟩
  · unfold RealTime.catchingUpTooFast
    rw [hs]
  · intro hc
    have hst : RealTime.sleepTime host curEmu rt
        = some (-(RealTime.catchUpDebt host curEmu rt)) := by
      unfold RealTime.sleepTime
      simp [hc, hs]
    refine ⟨hst, ?_⟩
    have hpos : -(RealTime.catchUpDebt host curEmu rt) > 0 := by omega
    simp [RealTime.internalSync, ht, hm, hst, hpos]
  · intro hc hf s hsdef
    have h1 : ¬ (rt.maxCatchUpFactor = 0
        ∨ (wrapInt (100 * RealTime.emuPassed curEmu rt) = -2147483648
            ∧ rt.maxCatchUpFactor = -1)) := by omega
    have hst : RealTime.sleepTime host curEmu rt = some s := by
      unfold RealTime.sleepTime intDiv
      rw [if_pos hc, if_neg h1, hsdef]
      rfl
    exact ⟨hst, _, RealTime.internalSync_of_meaningful alpha host curEmu rt ht hm s hst⟩

theorem RealTime.internalSync_sleeps_debt_witness :
    ((RealTime.fresh 1000).throttle = true ∧
      RealTime.meaningful ⟨5, 10⟩ 10 (RealTime.fresh 1000) = true ∧
      ((-2147483648 : Int) < RealTime.catchUpDebt ⟨5, 10⟩ 10 (RealTime.fresh 1000)
        ∧ RealTime.catchUpDebt ⟨5, 10⟩ 10 (RealTime.fresh 1000) < 0) ∧
      RealTime.catchingUpTooFast ⟨5, 10⟩ 10 (RealTime.fresh 1000) = false) ∧
    (RealTime.sleepTime ⟨5, 10⟩ 10 (RealTime.fresh 1000)
        = some (-(RealTime.catchUpDebt ⟨5, 10⟩ 10 (RealTime.fresh 1000))) ∧
      ∃ rt2, RealTime.internalSync (1 / 5) ⟨5, 10⟩ 10 (RealTime.fresh 1000)
        = some (rt2, [RealTime.Effect.delay
              (-(RealTime.catchUpDebt ⟨5, 10⟩ 10 (RealTime.fresh 1000))),
            RealTime.Effect.setSyncPoint (10 + (RealTime.fresh 1000).syncInterval)])) ∧
    RealTime.catchUpDebt ⟨5, 10⟩ 10 (RealTime.fresh 1000) = -5 ∧
    (RealTime.behind.throttle = true ∧
      RealTime.meaningful ⟨101, 110⟩ 110 RealTime.behind = true ∧
      RealTime.catchUpDebt ⟨101, 110⟩ 110 RealTime.behind = -9 ∧
      RealTime.catchingUpTooFast ⟨101, 110⟩ 110 RealTime.behind = true ∧
      0 < RealTime.behind.maxCatchUpFactor) ∧
    (RealTime.sleepTime ⟨101, 110⟩ 110 RealTime.behind = some 13 ∧
      ∃ rt2, RealTime.internalSync (1 / 5) ⟨101, 110⟩ 110 RealTime.behind
        = some (rt2, (if (13 : Int) > 0 then [RealTime.Effect.delay 13] else [])
            ++ [RealTime.Effect.setSyncPoint (110 + RealTime.behind.syncInterval)])) :=
  ⟨⟨by decide, by decide, by decide, by decide⟩,
   (RealTime.internalSync_sleeps_debt (1 / 5) ⟨5, 10⟩ 10 (RealTime.fresh 1000)
     (by decide) (by decide) (by decide)).2.1 (by decide),
   by decide,
   ⟨by decide, by decide, by decide, by decide, by decide⟩,
   (RealTime.internalSync_sleeps_debt (1 / 5) ⟨101, 110⟩ 110 RealTime.behind
     (by decide) (by decide) (by decide)).2.2 (by decide) (by decide) 13 (by decide)⟩
